import Mathlib

/-!
A shallow embedding of the row-assignment (layout) engine of Timeline.js:
the `DiagramPositioner` class of `src/DiagramPositioner.js` and the entry
preparation step `Diagram._prepareEntries` / `Diagram._calcEnd` of the
bundled `Diagram` class.

Modelling conventions:
  * A DOM entry element is an `Entry` record.  Its `data-` attributes are
    `Option` fields; JS string truthiness of a dataset value is `strTruthy`
    (absent and `""` are falsy).  Numeric dataset values (`data-row`,
    `data-group-row`, years) are stored as `Int`, mirroring `parseInt` of the
    stored string; absent is `none`.
  * Thrown JS exceptions are `Except JsErr`: `boundsErr` is the `Error`
    thrown by `_markGridSpace` on a missing row, `typeErr` a `TypeError`
    from dereferencing `null`/`undefined`, `rangeErr` the `RangeError` of
    `new Array(n)` for `n < 0`, `loopErr` a `while` loop whose condition
    can never become false.
  * The two unboundedly recursive walks (`_setEntryRow`'s seek recursion and
    the `become`-chain walks of `_setLineRow`/`_calcLineEnd`) are given the
    exact fuel `entries.length + 1`.  A terminating JS run visits pairwise
    distinct entries along such a chain, hence at most `entries.length` of
    them, and never exhausts this fuel; a chain that revisits an entry loops
    forever in JS, and exhausts it.  So `.error .fuelErr` holds exactly on
    the inputs where the JS recursion diverges.
  * Grid cells are `Bool` (`true` = blocked).  Cell writes beyond a row's
    width (possible in JS only for spans outside the time axis) are dropped.
-/

namespace Timeline

/-- A grid row: one boolean per time slot, `true` = blocked. -/
abbrev GridRow := List Bool

/-- A two-dimensional array of booleans representing space in the diagram. -/
abbrev DiagramGrid := List GridRow

/-- The JS exceptions (and divergences) the layout engine can produce. -/
inductive JsErr where
  /-- TypeError from dereferencing `null`/`undefined`. -/
  | typeErr
  /-- The `Error` thrown by `_markGridSpace` for a row index not on the grid. -/
  | boundsErr
  /-- RangeError from `new Array(n)` with `n < 0`. -/
  | rangeErr
  /-- A `while` loop whose condition can never become false. -/
  | loopErr
  /-- A recursive chain that revisits an entry, i.e. JS non-termination. -/
  | fuelErr
  deriving Repr, DecidableEq

/-- The JS computation monad: a value or a thrown exception. -/
abbrev JsM := Except JsErr

/-- A timeline entry: the `data-` attributes the positioner reads and writes. -/
structure Entry where
  id : String
  start : Int
  /-- `data-end` (set by `Diagram._prepareEntries` before positioning). -/
  end_ : Int
  row : Option Int := none
  groupRow : Option Int := none
  group : Option String := none
  become : Option String := none
  split : Option String := none
  merge : Option String := none
  links : Option String := none
  fork : Option String := none
  deriving Repr, DecidableEq

/-- JS truthiness of an optional dataset string: absent and `""` are falsy. -/
def strTruthy : Option String → Bool
  | none => false
  | some s => s ≠ ""

/-- `document.getElementById` over the working entry set: the first entry
with the given id, if any. -/
def getEl (entries : List Entry) (id : String) : Option Entry :=
  entries.find? (fun e => e.id = id)

/-- Replace the first entry carrying `id` by `f` of it (mutation of the one
DOM element `getElementById` returns). -/
def updateEntry (entries : List Entry) (id : String) (f : Entry → Entry) : List Entry :=
  match entries with
  | [] => []
  | e :: rest => if e.id = id then f e :: rest else e :: updateEntry rest id f

/-- `JavaScript`'s `Array.prototype.slice` on a grid row, with possibly
negative `Int` bounds counting from the end. -/
def jsSlice (l : GridRow) (s e : Int) : GridRow :=
  let len : Int := l.length
  let s' : Nat := (if s < 0 then max (len + s) 0 else min s len).toNat
  let e' : Nat := (if e < 0 then max (len + e) 0 else min e len).toNat
  (l.take e').drop s'

/-- `row[i] = v` for an `Int` index: negative indices create object
properties, not array elements, so they leave the row unchanged. -/
def jsSetCell (r : GridRow) (i : Int) (v : Bool) : GridRow :=
  if i < 0 then r else r.set i.toNat v

/-- `grid[y]` for an `Int` index: `none` when the row does not exist. -/
def jsGetRow (grid : DiagramGrid) (y : Int) : Option GridRow :=
  if y < 0 then none else grid.get? y.toNat

/-- `DiagramPositioner._markGridSpace`: set the slots of `[start, end)` on
row `y` to `state`, plus one padding slot on either side when in range;
throws when row `y` does not exist. -/
def markGridSpace (y s e : Int) (grid : DiagramGrid) (state : Bool) : JsM DiagramGrid :=
  match jsGetRow grid y with
  | none => .error .boundsErr
  | some row =>
    let width : Int := (grid.headD []).length
    let row := (List.range (e - s).toNat).foldl (fun r n => jsSetCell r (s + n) state) row
    let row := if s > 0 then jsSetCell row (s - 1) state else row
    let row := if e < width - 1 then jsSetCell row e state else row
    .ok (grid.set y.toNat row)

/-- `DiagramPositioner._blockGridSpace`. -/
def blockGridSpace (y s e : Int) (grid : DiagramGrid) : JsM DiagramGrid :=
  markGridSpace y s e grid true

/-- `DiagramPositioner._freeGridSpace`. -/
def freeGridSpace (y s e : Int) (grid : DiagramGrid) : JsM DiagramGrid :=
  markGridSpace y s e grid false

/-- `DiagramPositioner._checkGridSpace`: row `y` is empty on `[start, end)`
(a point span `start = end` counts as `[start, start+1)`); throws a
TypeError when row `y` does not exist. -/
def checkGridSpace (y s e : Int) (grid : DiagramGrid) : JsM Bool :=
  let e := if s = e then e + 1 else e
  match jsGetRow grid y with
  | none => .error .typeErr
  | some row => .ok ((jsSlice row s e).all (fun c => c == false))

/-- `DiagramPositioner._compareGridRows`: no slot blocked in both rows
(slots past the shorter row never clash, as in JS where they read
`undefined`). -/
def compareGridRows (row1 row2 : GridRow) : Bool :=
  (row1.zip row2).all fun p => !(p.1 && p.2)

/-- The body of `_getGridOverlap`'s `while` loop at a candidate `overlap`:
every row pair compared by the loop is clash-free. -/
def overlapFits (grid1 grid2 : DiagramGrid) (overlap : Nat) : Bool :=
  (List.range overlap).all fun i =>
    if i < grid1.length then
      compareGridRows ((grid1.drop (grid1.length - overlap + i)).headD []) (grid2.getD i [])
    else true

/-- The countdown of `_getGridOverlap`: test candidates `k, k-1, …, 1`,
returning the first that fits, else `0`. -/
def getGridOverlapAux (grid1 grid2 : DiagramGrid) : Nat → Nat
  | 0 => 0
  | k + 1 =>
    if overlapFits grid1 grid2 (k + 1) then k + 1 else getGridOverlapAux grid1 grid2 k

/-- `DiagramPositioner._getGridOverlap`: how far `grid2` can slide up over
`grid1`'s last rows without clashes, starting from `min(len1, len2) - 1`
(which is `-1`, the returned value, when a grid is empty). -/
def getGridOverlap (grid1 grid2 : DiagramGrid) : Int :=
  let m := min grid1.length grid2.length
  if m = 0 then -1 else (getGridOverlapAux grid1 grid2 (m - 1) : Int)

/-- One all-free row of the diagram's width (`_addGridRow`'s pushed row). -/
def freshRow (xLength : Nat) : GridRow :=
  List.replicate xLength false

/-- `DiagramPositioner._addGridRow`. -/
def addGridRow (xLength : Nat) (grid : DiagramGrid) : DiagramGrid :=
  grid ++ [freshRow xLength]

/-- `DiagramPositioner._addGridRowsUntil`: append rows while
`grid.length - 1 !== rows`; when the length already overshoots, the JS
loop never exits (`loopErr`). -/
def addGridRowsUntil (xLength : Nat) (grid : DiagramGrid) (rows : Int) : JsM DiagramGrid :=
  if (grid.length : Int) - 1 > rows then .error .loopErr
  else .ok (grid ++ List.replicate (rows + 1 - grid.length).toNat (freshRow xLength))

/-- `DiagramPositioner._createGrid` without entries uses 1 row; with entries
the caller passes `getRowCount entries`.  `new Array(n)` throws for
`n < 0`. -/
def createGrid (xLength : Int) (rows : Int) : JsM DiagramGrid :=
  if xLength < 0 ∨ rows < 0 then .error .rangeErr
  else .ok (List.replicate rows.toNat (freshRow xLength.toNat))

/-- `DiagramPositioner._getRowCount`: 1 + the highest `data-row` set on the
entries, or 1 when none is set. -/
def getRowCount (entries : List Entry) : Int :=
  let setRows := (entries.filter (fun e => e.row.isSome)).filterMap (·.row)
  match setRows with
  | [] => 1
  | r :: rs => rs.foldl max r + 1

/-- `DiagramPositioner._listGroups`: every distinct truthy `data-group`, in
first-encountered order. -/
def listGroups (entries : List Entry) : List String :=
  entries.foldl
    (fun acc e =>
      match e.group with
      | some g => if g ≠ "" ∧ ¬ acc.contains g then acc ++ [g] else acc
      | none => acc)
    []

/-- `DiagramPositioner._yearToGrid`: the slot offset of a year from the
axis start. -/
def yearToGrid (axisStart year : Int) : Int :=
  year - axisStart

/-- The JS test `expr === true-result`: the computation returned `true`
rather than `false` or a throw. -/
def jsOkTrue : JsM Bool → Bool
  | .ok true => true
  | _ => false

/-- `test = ( above ? test - i : test + i )` of the `_findGridSpace` loop. -/
def probeStep (test : Int) (above : Bool) (i : Nat) : Int :=
  if above then test - i else test + i

/-- The probe loop of `_findGridSpace`: up to `steps` iterations over the
probe state `(test, above, i)`, returning the first in-range free row. -/
def findGridSpaceLoop (s e : Int) (grid : DiagramGrid) :
    Nat → Int → Bool → Nat → Option Int
  | 0, _, _, _ => none
  | steps + 1, test, above, i =>
    if probeStep test above i < 0 ∨ probeStep test above i > (grid.length : Int) - 1 then
      findGridSpaceLoop s e grid steps (probeStep test above i) above (i + 1)
    else if jsOkTrue (checkGridSpace (probeStep test above i) s e grid) then
      some (probeStep test above i)
    else findGridSpaceLoop s e grid steps (probeStep test above i) (!above) (i + 1)

/-- `test = ( near ? near : Math.floor(grid.length/2) )`: the probe origin;
a JS-falsy `near` (absent or `0`) starts from the middle row. -/
def probeInit (near : Option Int) (len : Nat) : Int :=
  match near with
  | some n => if n ≠ 0 then n else ((len / 2 : Nat) : Int)
  | none => ((len / 2 : Nat) : Int)

/-- `DiagramPositioner._findGridSpace`: probe rows outward from `near`
(falsy `near`, i.e. absent or `0`, starts from the middle row), alternating
up/down; if the probe finds no free row, push a fresh row and return its
index.  Returns the row and the possibly grown grid. -/
def findGridSpace (xLength : Nat) (s e : Int) (grid : DiagramGrid) (near : Option Int) :
    Int × DiagramGrid :=
  match findGridSpaceLoop s e grid grid.length (probeInit near grid.length) false 0 with
  | some t => (t, grid)
  | none => ((grid.length : Int), addGridRow xLength grid)

/-- The scan of `_checkGridRange`, stepping `y1` one row toward `y2` per
iteration; the fuel is the exact distance `|y1 - y2|`, so it reaches zero
precisely when `y1` arrives at `y2`. -/
def checkGridRangeAux (y2 s e : Int) (grid : DiagramGrid) : Nat → Int → JsM (Option Int)
  | 0, _ => .ok none
  | n + 1, y1 =>
    if y1 = y2 then .ok none
    else do
      let free ← checkGridSpace y1 s e grid
      if free then .ok (some y1)
      else checkGridRangeAux y2 s e grid n (if y1 > y2 then y1 - 1 else y1 + 1)

/-- `DiagramPositioner._checkGridRange`: scan from `y1` toward `y2`
(inclusive of `y1`, exclusive of `y2`) for a row free on `[start, end)`;
`none` when the scan reaches `y2`. -/
def checkGridRange (y1 y2 s e : Int) (grid : DiagramGrid) : JsM (Option Int) :=
  checkGridRangeAux y2 s e grid (y1 - y2).natAbs y1

/-- The mutable state of a `DiagramPositioner`: the entry elements, the
master grid, and the per-group scratch grids with their bookkeeping. -/
structure PosState where
  entries : List Entry
  /-- `end - start` of the axis (validated non-negative at construction). -/
  xLength : Nat
  /-- The first year of the timeline (`this._start`). -/
  axisStart : Int
  /-- The master grid (`this._grid`). -/
  grid : DiagramGrid
  /-- `this._groups`, in first-encountered order. -/
  groups : List String
  /-- `this._groupGrids`. -/
  groupGrids : List (String × DiagramGrid)
  /-- `this._groupRange`: `group ↦ [offset, offset + height]`. -/
  groupRange : List (String × (Int × Int)) := []
  deriving Repr, DecidableEq

/-- Which grid object a positioner method was handed by reference. -/
inductive GridRef where
  | master
  | group (g : String)
  deriving Repr, DecidableEq

/-- Read the referenced grid (a missing group grid is JS `undefined`). -/
def getGridRef (st : PosState) : GridRef → Option DiagramGrid
  | .master => some st.grid
  | .group g => (st.groupGrids.find? (fun p => p.1 = g)).map (·.2)

/-- Write the referenced grid back. -/
def setGridRef (st : PosState) : GridRef → DiagramGrid → PosState
  | .master, grid => { st with grid }
  | .group g, grid =>
    { st with groupGrids := st.groupGrids.map (fun p => if p.1 = g then (g, grid) else p) }

/-- The `rowProp` parameter of the positioner methods. -/
inductive RowProp where
  | row
  | groupRow
  deriving Repr, DecidableEq

/-- `entry.dataset[rowProp]`. -/
def Entry.getRP (e : Entry) : RowProp → Option Int
  | .row => e.row
  | .groupRow => e.groupRow

/-- `entry.dataset[rowProp] = v`. -/
def Entry.setRP (e : Entry) : RowProp → Int → Entry
  | .row, v => { e with row := some v }
  | .groupRow, v => { e with groupRow := some v }

/-- `entry.dataset.group = g` as the DOM stores it: assigning the
`undefined` of an absent group writes the string `"undefined"`. -/
def Entry.setGroupFrom (e src : Entry) : Entry :=
  { e with group := some (src.group.getD "undefined") }

/-- `DiagramPositioner._calcLineEnd`: the `data-end` of the last entry of
the `become` chain.  Fuel `entries.length + 1` is exhausted exactly on the
chains JS follows forever; a dangling `become` id is a TypeError. -/
def calcLineEnd (entries : List Entry) : Nat → Entry → JsM Int
  | 0, _ => .error .fuelErr
  | fuel + 1, e =>
    if strTruthy e.become then
      match getEl entries (e.become.getD "") with
      | none => .error .typeErr
      | some nxt => calcLineEnd entries fuel nxt
    else .ok e.end_

/-- The release step of `_setLineRow` (lines 214–216): when the chain
member already holds a row, free its span in the given grid. -/
def lineRowFree (st : PosState) (nxt : Entry) (rp : RowProp) (gr : GridRef) : JsM PosState :=
  match nxt.getRP rp with
  | some oldRow =>
    match getGridRef st gr with
    | none => .error .typeErr
    | some grid => do
      let grid ← freeGridSpace oldRow (yearToGrid st.axisStart nxt.start)
        (yearToGrid st.axisStart nxt.end_) grid
      pure (setGridRef st gr grid)
  | none => pure st

/-- `next.dataset[rowProp] = entry.dataset[rowProp]` (line 217). -/
def copyRP (e : Entry) (rp : RowProp) (n : Entry) : Entry :=
  match e.getRP rp with
  | some v => n.setRP rp v
  | none => n

/-- `DiagramPositioner._setLineRow`: copy the entry's `rowProp` to every
entry of its `become` chain, reconciling groups toward the predecessor's
and releasing any stale span a chain member already held in the given
grid. -/
def setLineRow : Nat → PosState → String → RowProp → GridRef → JsM PosState
  | 0, _, _, _, _ => .error .fuelErr
  | fuel + 1, st, eId, rp, gr =>
    match getEl st.entries eId with
    | none => .error .typeErr
    | some e =>
      if strTruthy e.become then
        match getEl st.entries (e.become.getD "") with
        | none => .error .typeErr
        | some nxt => do
          let st :=
            if e.group ≠ nxt.group then
              { st with entries := updateEntry st.entries nxt.id (fun n => n.setGroupFrom e) }
            else st
          let st ← lineRowFree st nxt rp gr
          let st := { st with entries := updateEntry st.entries nxt.id (copyRP e rp) }
          setLineRow fuel st nxt.id rp gr
      else .ok st

/-- The seek target of `_setEntryRow` (lines 167–180): the `split` source,
overridden by the `merge` target unless that target's own `split` points
back at the entry; a dangling `merge` id is a TypeError. -/
def seekEl (entries : List Entry) (e : Entry) : JsM (Option Entry) := do
  let seek : Option Entry :=
    if strTruthy e.split then getEl entries (e.split.getD "") else none
  if strTruthy e.merge then
    match getEl entries (e.merge.getD "") with
    | none => .error .typeErr
    | some mergeEl =>
      pure (if mergeEl.split ≠ some e.id then some mergeEl else seek)
  else pure seek

/-- The guarded reservation of `_setEntryRow` (lines 192–196): reserve the
just-assigned span, catching the bounds throw and downgrading it to a
console warning. -/
def entryBlock (st : PosState) (gr : GridRef) (rowV s e2 : Int) : JsM PosState :=
  match getGridRef st gr with
  | none => .error .typeErr
  | some grid =>
    match blockGridSpace rowV s e2 grid with
    | .ok g => .ok (setGridRef st gr g)
    | .error _ => .ok st

/-- The `near` row handed to `_findGridSpace` (lines 183–184): the seek
target's already-assigned `rowProp`, re-read from the state after the
recursive call. -/
def nearOf (st1 : PosState) (rp : RowProp) (eGroup : Option String) (group : Bool) :
    Option Entry → Option Int
  | some sk =>
    if (¬ group) ∨ sk.group = eGroup then
      (getEl st1.entries sk.id).bind (fun s => s.getRP rp)
    else none
  | none => none

/-- The placement tail of `_setEntryRow` (lines 186–196): find a free row,
write it to the entry, propagate it along the `become` chain and reserve
the span. -/
def placeEntry (st1 : PosState) (eId : String) (rp : RowProp) (gr : GridRef)
    (s e2 : Int) (near : Option Int) : JsM PosState :=
  match getGridRef st1 gr with
  | none => .error .typeErr
  | some grid =>
    let fg := findGridSpace st1.xLength s e2 grid near
    let st2 := setGridRef st1 gr fg.2
    let st2b := { st2 with entries := updateEntry st2.entries eId (fun x => x.setRP rp fg.1) }
    do
      let st3 ← setLineRow (st2b.entries.length + 1) st2b eId rp gr
      entryBlock st3 gr fg.1 s e2

/-- `DiagramPositioner._setEntryRow`: resolve one entry's row (or, with
`group = true`, its group-local row), recursing into its seek target
first, placing it by `_findGridSpace`, propagating along its `become`
chain, and reserving its span (the reservation's throw is caught and
downgraded to a warning). -/
def setEntryRow : Nat → PosState → String → Bool → JsM PosState
  | 0, _, _, _ => .error .fuelErr
  | fuel + 1, st, eId, group =>
    match getEl st.entries eId with
    | none => .error .typeErr
    | some e =>
      if group ∧ ¬ strTruthy e.group then .ok st
      else
        let rp : RowProp := if group then .groupRow else .row
        let gr : GridRef := if group then .group (e.group.getD "") else .master
        if (e.getRP rp).isSome then .ok st
        else do
          let lineEnd ← calcLineEnd st.entries (st.entries.length + 1) e
          let seek ← seekEl st.entries e
          let st1 ←
            match seek with
            | some sk =>
              if (¬ group) ∨ sk.group = e.group then
                if (sk.getRP rp).isNone then setEntryRow fuel st sk.id group else pure st
              else pure st
            | none => pure st
          placeEntry st1 eId rp gr (yearToGrid st.axisStart e.start)
            (yearToGrid st.axisStart lineEnd) (nearOf st1 rp e.group group seek)

/-- `DiagramPositioner._moveEntry`: release the entry's current span on the
master grid, assign the new row, re-propagate along the `become` chain and
reserve the span under the new row. -/
def moveEntry (st : PosState) (eId : String) (rowV : Int) : JsM PosState :=
  match getEl st.entries eId with
  | none => .error .typeErr
  | some e => do
    let s := yearToGrid st.axisStart e.start
    let lineEnd ← calcLineEnd st.entries (st.entries.length + 1) e
    let e2 := yearToGrid st.axisStart lineEnd
    let grid ←
      match e.row with
      | none => .error .boundsErr
      | some oldRow => freeGridSpace oldRow s e2 st.grid
    let st := { st with grid }
    let st := { st with entries := updateEntry st.entries eId (fun x => { x with row := some rowV }) }
    let st ← setLineRow (st.entries.length + 1) st eId .row .master
    let grid ← blockGridSpace rowV s e2 st.grid
    pure { st with grid }

/-- `this._groupRange[entry.dataset.group]` dereferenced: JS throws a
TypeError when the group has no recorded range. -/
def requireRange (o : Option (String × (Int × Int))) : JsM (Int × Int) :=
  match o with
  | none => .error .typeErr
  | some p => pure p.2

/-- `parseInt(entry.dataset.row)` where the code then does arithmetic with
it: an unset row is a TypeError-level failure. -/
def requireRow (o : Option Int) : JsM Int :=
  match o with
  | none => .error .typeErr
  | some r => pure r

/-- The `targetRow` choice of `_adjustConnectedEntry`: the group edge
nearest the target (its upper edge when the target sits below). -/
def adjTargetRow (target : Entry) (eRow : Int) (range : Int × Int) : Int :=
  match target.row with
  | some tr => if tr - eRow > 0 then range.2 else range.1
  | none => range.1

/-- One iteration of `_adjustConnectedEntry`'s loop over the entries linked
to the moved entry: a same-group linked entry is itself moved to a free row
between the moved entry's new row and its own. -/
def adjStep (eId : String) (st : PosState) (lId : String) : JsM PosState :=
  match getEl st.entries eId, getEl st.entries lId with
  | some e', some link =>
    if link.group = e'.group then
      match e'.row, link.row with
      | some er, some lr => do
        let lEnd ← calcLineEnd st.entries (st.entries.length + 1) link
        let mv ← checkGridRange er lr (yearToGrid st.axisStart link.start)
          (yearToGrid st.axisStart lEnd) st.grid
        match mv with
        | some m => moveEntry st lId m
        | none => .ok st
      | _, _ => .error .typeErr
    else .ok st
  | _, _ => .error .typeErr

/-- `DiagramPositioner._adjustConnectedEntry`: when an entry's split/merge
target sits in a different group, look for a free row between the entry's
group edge nearest the target and its current row; if one exists move the
entry there and give each same-group entry pointing at it the same
treatment. -/
def adjustConnectedEntry (st : PosState) (eId : String) : JsM PosState :=
  match getEl st.entries eId with
  | none => .error .typeErr
  | some e =>
    let targetID := if strTruthy e.split then e.split.getD "" else e.merge.getD ""
    match getEl st.entries targetID with
    | none => .error .typeErr
    | some target =>
      if target.group ≠ e.group then do
        let range ← requireRange (st.groupRange.find? (fun p => p.1 = e.group.getD ""))
        let eRow ← requireRow e.row
        let lineEnd ← calcLineEnd st.entries (st.entries.length + 1) e
        let newRow ← checkGridRange (adjTargetRow target eRow range) eRow
          (yearToGrid st.axisStart e.start) (yearToGrid st.axisStart lineEnd) st.grid
        match newRow with
        | none => .ok st
        | some nr => do
          let st ← moveEntry st eId nr
          ((st.entries.filter
            (fun l => l.split = some eId ∨ l.merge = some eId)).map (·.id)).foldlM
            (adjStep eId) st
      else .ok st

/-- The scratch grid of a named group (`this._groupGrids[g]`). -/
def lookupGG (st : PosState) (g : String) : Option DiagramGrid :=
  (st.groupGrids.find? (fun p => p.1 = g)).map (·.2)

/-- An `undefined` grid dereferenced (`grid.length` on nothing) throws. -/
def requireGrid (o : Option DiagramGrid) : JsM DiagramGrid :=
  match o with
  | none => .error .typeErr
  | some g => pure g

/-- `increment -= this._getGridOverlap(prevGrid, curGrid)` for `i != 0`,
reading the previous group's grid from the state. -/
def stackIncrement (st : PosState) (prevName : Option String) (increment : Int)
    (curGrid : DiagramGrid) : JsM Int :=
  match prevName with
  | none => pure increment
  | some p =>
    match lookupGG st p with
    | none => .error .typeErr
    | some prevGrid => pure (increment - getGridOverlap prevGrid curGrid)

/-- `entry.dataset.row = parseInt(entry.dataset.groupRow) + increment` for
every element of the group, as one update of the entry list (the JS loop
mutates the elements in place). -/
def stackRows (st : PosState) (g : String) (increment : Int) : JsM PosState :=
  if (st.entries.filter (fun e => e.group = some g)).all (fun e => e.groupRow.isSome) then
    .ok { st with
      entries := st.entries.map (fun (e : Entry) =>
        if e.group = some g then { e with row := some (e.groupRow.getD 0 + increment) }
        else e) }
  else .error .loopErr

/-- Step 3 of `calculate` (lines 41–55), iterating the remaining groups:
`prevName` is the previously stacked group (`this._groups[i-1]`, which is
the previously iterated element, absent for `i = 0`). -/
def stackGroupsAux (prevName : Option String) (increment : Int) (st : PosState) :
    List String → JsM PosState
  | [] => .ok st
  | g :: rest => do
    let curGrid ← requireGrid (lookupGG st g)
    let increment ← stackIncrement st prevName increment curGrid
    let st ← stackRows st g increment
    let st := { st with
      groupRange := st.groupRange ++ [(g, (increment, increment + curGrid.length))] }
    stackGroupsAux (some g) (increment + (curGrid.length : Int)) st rest

/-- Step 3 of `calculate`: stack the group scratch grids onto the master
coordinate space, each group sliding up by its overlap with the previous
one. -/
def stackGroups (st : PosState) : JsM PosState :=
  stackGroupsAux none 0 st st.groups

/-- Step 4 of `calculate` (lines 59–63) for one grouped entry: reserve its
span on the master grid under its stacked row (note it uses the entry's own
`data-end`, not the chain end). -/
def blockStep (st : PosState) (id : String) : JsM PosState :=
  match getEl st.entries id with
  | none => .error .typeErr
  | some e => do
    let grid ←
      match e.row with
      | none => .error .boundsErr
      | some r =>
        blockGridSpace r (yearToGrid st.axisStart e.start)
          (yearToGrid st.axisStart e.end_) st.grid
    pure { st with grid }

/-- Step 5 of `calculate` (lines 66–70) for one grouped entry: entries with
a split or merge connection get the cross-group adjustment. -/
def repairStep (st : PosState) (id : String) : JsM PosState :=
  match getEl st.entries id with
  | none => .error .typeErr
  | some e =>
    if strTruthy e.split ∨ strTruthy e.merge then adjustConnectedEntry st id
    else .ok st

/-- `DiagramPositioner.calculate` (lines 33–76). -/
def calculate (st : PosState) : JsM PosState := do
  let grouped := (st.entries.filter (fun e => strTruthy e.group)).map (·.id)
  let ungrouped := (st.entries.filter (fun e => ¬ strTruthy e.group)).map (·.id)
  let st := { st with groupRange := [] }
  let st ← grouped.foldlM (fun st id => setEntryRow (st.entries.length + 1) st id true) st
  let st ← stackGroups st
  let grid ← addGridRowsUntil st.xLength st.grid (getRowCount st.entries)
  let st := { st with grid }
  let st ← grouped.foldlM blockStep st
  let st ← grouped.foldlM repairStep st
  let st ← ungrouped.foldlM (fun st id => setEntryRow (st.entries.length + 1) st id false) st
  pure st

/-- `DiagramPositioner`'s constructor (lines 15–28): remember the axis,
build the master grid sized to the manually set rows, and one scratch grid
per group. -/
def newDiagramPositioner (entries : List Entry) (startY endY : Int) : JsM PosState := do
  let xLength := endY - startY
  let grid ← createGrid xLength (getRowCount entries)
  let groups := listGroups entries
  let groupGrids ← groups.foldlM
    (fun acc g => do
      let gg ← createGrid xLength 1
      pure (acc ++ [(g, gg)]))
    []
  pure { entries, xLength := xLength.toNat, axisStart := startY, grid, groups, groupGrids }

/-- Construct a positioner over the entries and run `calculate`, as
`Diagram._prepareRows` does. -/
def runLayout (entries : List Entry) (startY endY : Int) : JsM PosState := do
  let st ← newDiagramPositioner entries startY endY
  calculate st

/-- The `rows` getter: the number of rows of the master grid. -/
def PosState.rows (st : PosState) : Nat :=
  st.grid.length

/-!  Entry preparation: `Diagram._prepareEntries` and `Diagram._calcEnd`
(the bundled `Diagram` class), which run before the positioner.  -/

/-- An entry as `_prepareEntries` first sees it: `data-end` may be absent. -/
structure RawEntry where
  id : String
  start : Int
  end_ : Option Int := none
  row : Option Int := none
  group : Option String := none
  become : Option String := none
  split : Option String := none
  merge : Option String := none
  links : Option String := none
  fork : Option String := none
  deriving Repr, DecidableEq

/-- `document.getElementById` over the raw entries. -/
def rawGetEl (entries : List RawEntry) (id : String) : Option RawEntry :=
  entries.find? (fun e => e.id = id)

/-- Replace the first raw entry carrying `id`. -/
def rawUpdate (entries : List RawEntry) (id : String) (f : RawEntry → RawEntry) :
    List RawEntry :=
  match entries with
  | [] => []
  | e :: rest => if e.id = id then f e :: rest else e :: rawUpdate rest id f

/-- `value.split(" ")` of JS on a character list: split on every single
space, keeping empty pieces (so `""` yields `[""]`). -/
def splitSpaceAux : List Char → List Char → List String
  | [], acc => [String.mk acc.reverse]
  | c :: rest, acc =>
    if c = ' ' then String.mk acc.reverse :: splitSpaceAux rest []
    else splitSpaceAux rest (c :: acc)

/-- `value.split(" ")` of JS. -/
def splitSpace (s : String) : List String :=
  splitSpaceAux s.data []

/-- `Diagram._calcEnd`: an explicit `data-end`, else the `become` target's
start, else the latest fork target start, else the timeline's end year.
Dereferencing a dangling `become` or `fork` id is a TypeError. -/
def calcEnd (entries : List RawEntry) (yearEnd : Int) (e : RawEntry) : JsM Int :=
  match e.end_ with
  | some v => .ok v
  | none =>
    if strTruthy e.become then
      match rawGetEl entries (e.become.getD "") with
      | none => .error .typeErr
      | some nxt => .ok nxt.start
    else if strTruthy e.fork then
      let ws := splitSpace (e.fork.getD "")
      match (ws.get? 0).bind (rawGetEl entries), (ws.get? 1).bind (rawGetEl entries) with
      | some f1, some f2 => .ok (max f1.start f2.start)
      | _, _ => .error .typeErr
    else .ok yearEnd

/-- The reference-validation step of `_prepareEntries`: an attribute whose
space-separated ids are not all ids of entries is deleted (with a console
warning). -/
def validateAttr (entries : List RawEntry) (v : Option String) : Option String :=
  match v with
  | none => none
  | some s =>
    if (splitSpace s).all (fun id => (rawGetEl entries id).isSome) then some s else none

/-- `Diagram._prepareEntries`: for each entry in order, compute and store
`data-end`, clamp `data-start` to the timeline start, and drop any
`become`/`split`/`merge`/`links` attribute naming a non-existent id. -/
def prepareEntries (yearStart yearEnd : Int) (entries : List RawEntry) :
    JsM (List RawEntry) :=
  (entries.map (·.id)).foldlM
    (fun es id =>
      match rawGetEl es id with
      | none => .error .typeErr
      | some e => do
        let endV ← calcEnd es yearEnd e
        let e := { e with end_ := some endV }
        let e := if e.start < yearStart then { e with start := yearStart } else e
        let e := { e with
          become := validateAttr es e.become,
          split := validateAttr es e.split,
          merge := validateAttr es e.merge,
          links := validateAttr es e.links }
        pure (rawUpdate es id (fun _ => e)))
    entries

/-!  ## Concrete entry sets exercising the layout engine  -/

/-- Three groups of three entries each: groups `a` and `c` both occupy the
time band `[1,3)`, group `b` occupies `[5,7)`; no relationships at all. -/
def egThreeGroups : List Entry :=
  [ { id := "a1", start := 1, end_ := 3, group := some "a" },
    { id := "a2", start := 1, end_ := 3, group := some "a" },
    { id := "a3", start := 1, end_ := 3, group := some "a" },
    { id := "b1", start := 5, end_ := 7, group := some "b" },
    { id := "b2", start := 5, end_ := 7, group := some "b" },
    { id := "b3", start := 5, end_ := 7, group := some "b" },
    { id := "c1", start := 1, end_ := 3, group := some "c" },
    { id := "c2", start := 1, end_ := 3, group := some "c" },
    { id := "c3", start := 1, end_ := 3, group := some "c" } ]

/-- `P` continues as `b1` (`become`), `b1` splits from `c1` which sits in a
later group: the connection-repair pass moves `b1` but not `P`. -/
def egChainMove : List Entry :=
  [ { id := "P", start := 0, end_ := 1, group := some "b", become := some "b1" },
    { id := "b1", start := 1, end_ := 3, group := some "b", split := some "c1" },
    { id := "b2", start := 1, end_ := 3, group := some "b" },
    { id := "c1", start := 5, end_ := 7, group := some "c" } ]

/-- A grouped entry with a manually set `data-row`, plus an ungrouped
manually rowed entry that keeps the master grid's growth loop finite. -/
def egManualGrouped : List Entry :=
  [ { id := "A", start := 1, end_ := 3, group := some "g", row := some 2 },
    { id := "M", start := 5, end_ := 7, row := some 5 } ]

/-- Two groups: `a` needs two rows on band `[1,3)`, `b` one row on `[5,7)`. -/
def egTwoGroups : List Entry :=
  [ { id := "a1", start := 1, end_ := 3, group := some "a" },
    { id := "a2", start := 1, end_ := 3, group := some "a" },
    { id := "b1", start := 5, end_ := 7, group := some "b" } ]

/-- A mutual `merge` pair: `A.merge = B` and `B.merge = A`.  Neither entry
has a `split`, so the length-2 cycle guard of `_setEntryRow` fires for
neither direction. -/
def egMutualMerge : List Entry :=
  [ { id := "A", start := 1, end_ := 3, merge := some "B" },
    { id := "B", start := 5, end_ := 7, merge := some "A" } ]

/-- The guarded pair: `A.merge = B` while `B.split = A`. -/
def egGuardedPair : List Entry :=
  [ { id := "A", start := 1, end_ := 3, merge := some "B" },
    { id := "B", start := 5, end_ := 7, split := some "A" } ]

/-- `A` continues as `B`, and `B` carries a stale preset `data-group-row`
of `7`, far beyond its group's one-row scratch grid. -/
def egStaleGroupRow : List Entry :=
  [ { id := "A", start := 1, end_ := 3, group := some "g", become := some "B" },
    { id := "B", start := 5, end_ := 7, group := some "g", groupRow := some 7 } ]

/-- Ungrouped entries with manually preset rows `-3` and `2`, plus one
unrowed entry. -/
def egNegativeRow : List Entry :=
  [ { id := "X", start := 1, end_ := 3, row := some (-3) },
    { id := "Y", start := 1, end_ := 3, row := some 2 },
    { id := "Z", start := 5, end_ := 7 } ]

/-- A five-row grid: rows 0 and 3 free, rows 1, 2 and 4 fully blocked. -/
def egProbeGrid : DiagramGrid :=
  [ List.replicate 10 false, List.replicate 10 true, List.replicate 10 true,
    List.replicate 10 false, List.replicate 10 true ]

/-- One raw entry whose `become` names a non-existent id and whose end is
derived, as `_calcEnd` must dereference the missing target. -/
def egDanglingBecome : List RawEntry :=
  [ { id := "A", start := 1950, become := some "ghost" } ]

/-- `A` carries a dangling `merge`; `B` carries a valid `split`. -/
def egDanglingMerge : List RawEntry :=
  [ { id := "A", start := 1950, end_ := some 1960, merge := some "nonexistent" },
    { id := "B", start := 1955, split := some "A" } ]

end Timeline

/-- Decidable equality for thrown-or-returned results, so concrete runs can
be settled by `decide`. -/
instance {ε α : Type} [DecidableEq ε] [DecidableEq α] : DecidableEq (Except ε α)
  | .ok a, .ok b =>
    if h : a = b then .isTrue (by rw [h]) else .isFalse (fun hc => h (Except.ok.inj hc))
  | .ok _, .error _ => .isFalse (fun hc => Except.noConfusion hc)
  | .error _, .ok _ => .isFalse (fun hc => Except.noConfusion hc)
  | .error e, .error f =>
    if h : e = f then .isTrue (by rw [h]) else .isFalse (fun hc => h (Except.error.inj hc))

namespace Timeline

/-! ## General lemmas about the grid operations -/

theorem jsGetRow_some_bounds {grid : DiagramGrid} {y : Int} {r : GridRow}
    (h : jsGetRow grid y = some r) : 0 ≤ y ∧ y < (grid.length : Int) := by
  unfold jsGetRow at h
  split at h
  · exact absurd h (by simp)
  · rename_i hy
    have hlt := (List.get?_eq_some.mp h).1
    omega

theorem jsGetRow_inbounds {grid : DiagramGrid} {y : Int}
    (h0 : 0 ≤ y) (h1 : y < (grid.length : Int)) : (jsGetRow grid y).isSome := by
  unfold jsGetRow
  split
  · omega
  · rw [Option.isSome_iff_exists]
    have hlt : y.toNat < grid.length := by omega
    exact ⟨_, List.get?_eq_get hlt⟩

theorem checkGridSpace_okTrue_bounds {y s e : Int} {grid : DiagramGrid}
    (h : jsOkTrue (checkGridSpace y s e grid) = true) :
    0 ≤ y ∧ y < (grid.length : Int) := by
  unfold checkGridSpace at h
  rcases hrow : jsGetRow grid y with _ | r
  · rw [hrow] at h
    simp [jsOkTrue] at h
  · exact jsGetRow_some_bounds hrow

theorem findGridSpaceLoop_some {s e : Int} {grid : DiagramGrid} :
    ∀ steps test above i t, findGridSpaceLoop s e grid steps test above i = some t →
      0 ≤ t ∧ t < (grid.length : Int) ∧ jsOkTrue (checkGridSpace t s e grid) = true := by
  intro steps
  induction steps with
  | zero => intro test above i t h; simp [findGridSpaceLoop] at h
  | succ n ih =>
    intro test above i t h
    unfold findGridSpaceLoop at h
    set t' := probeStep test above i with ht'
    split at h
    · exact ih _ _ _ _ h
    · rename_i hrange
      rw [not_or] at hrange
      split at h
      · rename_i hchk
        rw [Option.some.injEq] at h
        subst h
        refine ⟨by omega, by omega, hchk⟩
      · exact ih _ _ _ _ h

theorem jsSlice_replicate_false (n : Nat) (s e : Int) :
    (jsSlice (List.replicate n false) s e).all (fun c => c == false) = true := by
  rw [List.all_eq_true]
  intro c hc
  unfold jsSlice at hc
  have h1 := List.mem_of_mem_take (List.mem_of_mem_drop hc)
  simp [List.eq_of_mem_replicate h1]

theorem jsOkTrue_ok (b : Bool) : jsOkTrue (.ok b) = b := by
  cases b <;> rfl

theorem jsGetRow_append_last (grid : DiagramGrid) (r : GridRow) :
    jsGetRow (grid ++ [r]) ((grid.length : Int)) = some r := by
  unfold jsGetRow
  rw [if_neg (by omega)]
  have htn : ((grid.length : Int)).toNat = grid.length := by omega
  rw [htn, List.get?_eq_getElem?, List.getElem?_append_right (le_refl _)]
  simp

theorem checkGridSpace_freshRow (xLen : Nat) (s e : Int) (grid : DiagramGrid) :
    jsOkTrue (checkGridSpace ((grid.length : Int)) s e (addGridRow xLen grid)) = true := by
  unfold checkGridSpace addGridRow
  rw [jsGetRow_append_last]
  unfold freshRow
  split <;> rw [jsOkTrue_ok] <;> exact jsSlice_replicate_false _ _ _

/-- The full specification of one `_findGridSpace` call: the returned row is
non-negative, exists on the returned grid, is free there for the span, and
the grid either is unchanged or gained exactly one fresh row. -/
theorem findGridSpace_spec (xLen : Nat) (s e : Int) (grid : DiagramGrid) (near : Option Int) :
    0 ≤ (findGridSpace xLen s e grid near).1
    ∧ (findGridSpace xLen s e grid near).1 < (((findGridSpace xLen s e grid near).2).length : Int)
    ∧ ((findGridSpace xLen s e grid near).2 = grid
        ∨ (findGridSpace xLen s e grid near).2 = addGridRow xLen grid)
    ∧ jsOkTrue (checkGridSpace (findGridSpace xLen s e grid near).1 s e
        (findGridSpace xLen s e grid near).2) = true := by
  unfold findGridSpace
  rcases hloop : findGridSpaceLoop s e grid grid.length (probeInit near grid.length) false 0
    with _ | t <;> simp only [hloop]
  · refine ⟨by omega, ?_, Or.inr trivial, checkGridSpace_freshRow xLen s e grid⟩
    simp [addGridRow]
  · obtain ⟨h0, h1, h2⟩ := findGridSpaceLoop_some _ _ _ _ _ hloop
    exact ⟨h0, h1, Or.inl trivial, h2⟩

theorem markGridSpace_missing_row {y s e : Int} {grid : DiagramGrid} {state : Bool}
    (h : jsGetRow grid y = none) : markGridSpace y s e grid state = .error .boundsErr := by
  unfold markGridSpace
  rw [h]

theorem markGridSpace_ok_of_row {y s e : Int} {grid : DiagramGrid} {state : Bool}
    (h : (jsGetRow grid y).isSome) : ∃ g', markGridSpace y s e grid state = .ok g' := by
  unfold markGridSpace
  rcases hrow : jsGetRow grid y with _ | r
  · rw [hrow] at h; simp at h
  · exact ⟨_, rfl⟩

theorem markGridSpace_length {y s e : Int} {grid g' : DiagramGrid} {state : Bool}
    (h : markGridSpace y s e grid state = .ok g') : g'.length = grid.length := by
  unfold markGridSpace at h
  rcases hrow : jsGetRow grid y with _ | r <;> rw [hrow] at h
  · exact absurd h (by simp)
  · cases h
    simp

/-! ## Base lemmas: entry lookup and update -/

theorem getEl_id {es : List Entry} {i : String} {e : Entry} (h : getEl es i = some e) :
    e.id = i := by
  unfold getEl at h
  have := List.find?_some h
  simpa using this

theorem getEl_mem {es : List Entry} {i : String} {e : Entry} (h : getEl es i = some e) :
    e ∈ es :=
  List.mem_of_find?_eq_some h

theorem updateEntry_length (es : List Entry) (i : String) (f : Entry → Entry) :
    (updateEntry es i f).length = es.length := by
  induction es with
  | nil => rfl
  | cons e rest ih =>
    unfold updateEntry
    split <;> simp [ih]

theorem updateEntry_get? (es : List Entry) (i : String) (f : Entry → Entry) (k : Nat) :
    (updateEntry es i f).get? k = (es.get? k).map (fun e => if (es.take k).all (fun x => ¬ x.id = i) ∧ e.id = i then f e else e)
    ∨ ((updateEntry es i f).get? k = es.get? k) := by
  induction es generalizing k with
  | nil => right; rfl
  | cons e rest ih =>
    unfold updateEntry
    by_cases hid : e.id = i
    · rw [if_pos hid]
      cases k with
      | zero => left; simp [hid]
      | succ k2 => right; simp
    · rw [if_neg hid]
      cases k with
      | zero => right; simp
      | succ k2 =>
        rcases ih k2 with h | h
        · left
          simp only [List.get?_cons_succ, List.take_succ_cons, List.all_cons, h]
          rcases hrk : rest.get? k2 with _ | x
          · simp
          · simp [hid]
        · right
          simpa using h

/-- The single positional characterisation actually used: the entry at a
position either stays or is rewritten by `f`. -/
theorem updateEntry_get?_cases (es : List Entry) (i : String) (f : Entry → Entry) (k : Nat)
    {e' : Entry} (h : (updateEntry es i f).get? k = some e') :
    ∃ e, es.get? k = some e ∧ (e' = e ∨ e' = f e) := by
  rcases updateEntry_get? es i f k with hc | hc
  · rw [hc] at h
    rcases he : es.get? k with _ | e
    · rw [he] at h
      simp at h
    · rw [he] at h
      simp only [Option.map_some', Option.some.injEq] at h
      refine ⟨e, rfl, ?_⟩
      split at h
      · exact Or.inr h.symm
      · exact Or.inl h.symm
  · rw [hc] at h
    exact ⟨e', h, Or.inl rfl⟩

theorem updateEntry_getEl_ne {es : List Entry} {i j : String} {f : Entry → Entry}
    (hpres : ∀ x, (f x).id = x.id) (hne : j ≠ i) :
    getEl (updateEntry es i f) j = getEl es j := by
  induction es with
  | nil => rfl
  | cons e rest ih =>
    unfold updateEntry
    by_cases hid : e.id = i
    · rw [if_pos hid]
      unfold getEl
      have hfe : decide ((f e).id = j) = false := by
        simp only [decide_eq_false_iff_not, hpres e, hid]
        exact Ne.symm hne
      have hee : decide (e.id = j) = false := by
        simp only [decide_eq_false_iff_not, hid]
        exact Ne.symm hne
      simp only [List.find?_cons, hfe, hee]
    · rw [if_neg hid]
      unfold getEl at ih ⊢
      by_cases hj : e.id = j
      · simp only [List.find?_cons, show decide (e.id = j) = true from by simp [hj]]
      · simp only [List.find?_cons, show decide (e.id = j) = false from by simp [hj]]
        exact ih

theorem updateEntry_map_of_key {κ : Type} (key : Entry → κ) {es : List Entry} {i : String}
    {f : Entry → Entry} (hpres : ∀ x, key (f x) = key x) :
    (updateEntry es i f).map key = es.map key := by
  induction es with
  | nil => rfl
  | cons e rest ih =>
    unfold updateEntry
    split <;> simp [hpres, ih]

/-! ## Preservation infrastructure: what the positioner's mutations keep -/

/-- The immutable reference structure of an entry: its id and its
`become`/`split`/`merge` attributes, which no positioner operation
writes. -/
def refKey (e : Entry) : String × Option String × Option String × Option String :=
  (e.id, e.become, e.split, e.merge)

/-- Provenance of one entry's mutable fields across an operation: each of
`row`/`groupRow` is unchanged, copied from some entry of the old state, or
fresh within the stated bounds; `group` is unchanged or a non-`none`
value. -/
def ProvE (st st' : PosState) (e e' : Entry) : Prop :=
  (e'.row = e.row ∨ ∃ r, e'.row = some r ∧
    ((∃ e2 ∈ st.entries, e2.row = some r) ∨ (0 ≤ r ∧ r < (st'.grid.length : Int))))
  ∧ (e'.groupRow = e.groupRow ∨ ∃ r, e'.groupRow = some r ∧
    ((∃ e2 ∈ st.entries, e2.groupRow = some r) ∨ 0 ≤ r))
  ∧ (e'.group = e.group ∨ e'.group.isSome = true)

/-- The bundle every state-transforming positioner operation preserves. -/
structure Pres (st st' : PosState) : Prop where
  refk : st'.entries.map refKey = st.entries.map refKey
  glen : st.grid.length ≤ st'.grid.length
  gglen : ∀ g gl, lookupGG st g = some gl →
    ∃ gl', lookupGG st' g = some gl' ∧ gl.length ≤ gl'.length
  ggkeys : st'.groupGrids.map Prod.fst = st.groupGrids.map Prod.fst
  prov : ∀ k e e', st.entries.get? k = some e → st'.entries.get? k = some e' → ProvE st st' e e'

theorem Pres.entries_length {st st' : PosState} (h : Pres st st') :
    st'.entries.length = st.entries.length := by
  have := congrArg List.length h.refk
  simpa using this

theorem Pres.same_state {st : PosState} : Pres st st :=
  ⟨rfl, le_refl _, fun g gl h => ⟨gl, h, le_refl _⟩, rfl,
    fun k e e' h h' => by
      rw [h] at h'
      cases h'
      exact ⟨Or.inl rfl, Or.inl rfl, Or.inl rfl⟩⟩

theorem Pres.of_entries_eq {st st' : PosState} (he : st'.entries = st.entries)
    (hg : st.grid.length ≤ st'.grid.length)
    (hgg : ∀ g gl, lookupGG st g = some gl →
      ∃ gl', lookupGG st' g = some gl' ∧ gl.length ≤ gl'.length)
    (hk : st'.groupGrids.map Prod.fst = st.groupGrids.map Prod.fst) : Pres st st' :=
  ⟨by rw [he], hg, hgg, hk, fun k e e' h h' => by
    rw [he, h] at h'
    cases h'
    exact ⟨Or.inl rfl, Or.inl rfl, Or.inl rfl⟩⟩

theorem Pres.trans {st1 st2 st3 : PosState} (a : Pres st1 st2) (b : Pres st2 st3) :
    Pres st1 st3 := by
  refine ⟨a.refk ▸ b.refk, le_trans a.glen b.glen, ?_, b.ggkeys.trans a.ggkeys, ?_⟩
  · intro g gl h
    obtain ⟨gl2, h2, hle2⟩ := a.gglen g gl h
    obtain ⟨gl3, h3, hle3⟩ := b.gglen g gl2 h2
    exact ⟨gl3, h3, le_trans hle2 hle3⟩
  · intro k e e'' h1 h3
    have hk2 : k < st2.entries.length := by
      have hlen := b.entries_length
      have : k < st3.entries.length := (List.get?_eq_some.mp h3).1
      omega
    obtain ⟨e', h2⟩ : ∃ e', st2.entries.get? k = some e' := by
      exact ⟨_, List.get?_eq_get hk2⟩
    obtain ⟨p1row, p1grow, p1grp⟩ := a.prov k e e' h1 h2
    obtain ⟨p2row, p2grow, p2grp⟩ := b.prov k e' e'' h2 h3
    refine ⟨?_, ?_, ?_⟩
    · rcases p2row with h | ⟨r, hr, hc⟩
      · rw [h]
        rcases p1row with h1' | ⟨r, hr, hc⟩
        · exact Or.inl h1'
        · refine Or.inr ⟨r, hr, ?_⟩
          rcases hc with hcopy | ⟨h0, hlt⟩
          · exact Or.inl hcopy
          · exact Or.inr ⟨h0, lt_of_lt_of_le hlt (by exact_mod_cast b.glen)⟩
      · refine Or.inr ⟨r, hr, ?_⟩
        rcases hc with ⟨e2', he2', hrow2⟩ | hfresh
        · obtain ⟨k2, hk2'⟩ := List.get?_of_mem he2'
          have hk2lt : k2 < st1.entries.length := by
            have := (List.get?_eq_some.mp hk2').1
            have hlen := a.entries_length
            omega
          obtain ⟨e2, hk2orig⟩ : ∃ e2, st1.entries.get? k2 = some e2 := by
            exact ⟨_, List.get?_eq_get hk2lt⟩
          obtain ⟨q1, _, _⟩ := a.prov k2 e2 e2' hk2orig hk2'
          rcases q1 with hq | ⟨r2, hr2, hc2⟩
          · rw [hq] at hrow2
            exact Or.inl ⟨e2, List.get?_mem hk2orig, hrow2⟩
          · rw [hrow2] at hr2
            rw [Option.some.injEq] at hr2
            subst hr2
            rcases hc2 with hcopy2 | ⟨h0, hlt⟩
            · exact Or.inl hcopy2
            · exact Or.inr ⟨h0, lt_of_lt_of_le hlt (by exact_mod_cast b.glen)⟩
        · exact Or.inr hfresh
    · rcases p2grow with h | ⟨r, hr, hc⟩
      · rw [h]
        exact p1grow.imp id (fun ⟨r, hr, hc⟩ => ⟨r, hr, hc⟩)
      · refine Or.inr ⟨r, hr, ?_⟩
        rcases hc with ⟨e2', he2', hrow2⟩ | hfresh
        · obtain ⟨k2, hk2'⟩ := List.get?_of_mem he2'
          have hk2lt : k2 < st1.entries.length := by
            have := (List.get?_eq_some.mp hk2').1
            have hlen := a.entries_length
            omega
          obtain ⟨e2, hk2orig⟩ : ∃ e2, st1.entries.get? k2 = some e2 := by
            exact ⟨_, List.get?_eq_get hk2lt⟩
          obtain ⟨_, q2, _⟩ := a.prov k2 e2 e2' hk2orig hk2'
          rcases q2 with hq | ⟨r2, hr2, hc2⟩
          · rw [hq] at hrow2
            exact Or.inl ⟨e2, List.get?_mem hk2orig, hrow2⟩
          · rw [hrow2] at hr2
            rw [Option.some.injEq] at hr2
            subst hr2
            exact hc2
        · exact Or.inr hfresh
    · rcases p2grp with h | h
      · rw [h]
        exact p1grp
      · exact Or.inr h

/-- Rows are non-negative and exist on the master grid (the invariant C10
needs from the growth step on). -/
def RowInv (st : PosState) : Prop :=
  ∀ k e, st.entries.get? k = some e → ∀ r, e.row = some r → 0 ≤ r ∧ r < (st.grid.length : Int)

/-- All `groupRow` values are non-negative. -/
def GInv (st : PosState) : Prop :=
  ∀ k e, st.entries.get? k = some e → ∀ r, e.groupRow = some r → 0 ≤ r

/-- All `row` values are non-negative. -/
def RowNonneg (st : PosState) : Prop :=
  ∀ k e, st.entries.get? k = some e → ∀ r, e.row = some r → 0 ≤ r

theorem Pres.get?_orig {st st' : PosState} (h : Pres st st') {k : Nat} {e' : Entry}
    (hk : st'.entries.get? k = some e') : ∃ e, st.entries.get? k = some e := by
  have hklt : k < st.entries.length := by
    have h1 := (List.get?_eq_some.mp hk).1
    have h2 := h.entries_length
    omega
  exact ⟨_, List.get?_eq_get hklt⟩

theorem Pres.rowInv {st st' : PosState} (h : Pres st st') (hi : RowInv st) : RowInv st' := by
  intro k e' hk r hr
  obtain ⟨e, hke⟩ := h.get?_orig hk
  obtain ⟨p, _, _⟩ := h.prov k e e' hke hk
  rcases p with hp | ⟨r2, hr2, hc⟩
  · rw [hp] at hr
    obtain ⟨h0, hlt⟩ := hi k e hke r hr
    exact ⟨h0, lt_of_lt_of_le hlt (by exact_mod_cast h.glen)⟩
  · rw [hr] at hr2
    rw [Option.some.injEq] at hr2
    subst hr2
    rcases hc with ⟨e2, he2, hrow2⟩ | hfresh
    · obtain ⟨k2, hk2⟩ := List.get?_of_mem he2
      obtain ⟨h0, hlt⟩ := hi k2 e2 hk2 r hrow2
      exact ⟨h0, lt_of_lt_of_le hlt (by exact_mod_cast h.glen)⟩
    · exact hfresh

theorem Pres.gInv {st st' : PosState} (h : Pres st st') (hi : GInv st) : GInv st' := by
  intro k e' hk r hr
  obtain ⟨e, hke⟩ := h.get?_orig hk
  obtain ⟨_, p, _⟩ := h.prov k e e' hke hk
  rcases p with hp | ⟨r2, hr2, hc⟩
  · rw [hp] at hr
    exact hi k e hke r hr
  · rw [hr] at hr2
    rw [Option.some.injEq] at hr2
    subst hr2
    rcases hc with ⟨e2, he2, hrow2⟩ | hfresh
    · obtain ⟨k2, hk2⟩ := List.get?_of_mem he2
      exact hi k2 e2 hk2 r hrow2
    · exact hfresh

theorem Pres.rowNonneg {st st' : PosState} (h : Pres st st') (hi : RowNonneg st) :
    RowNonneg st' := by
  intro k e' hk r hr
  obtain ⟨e, hke⟩ := h.get?_orig hk
  obtain ⟨p, _, _⟩ := h.prov k e e' hke hk
  rcases p with hp | ⟨r2, hr2, hc⟩
  · rw [hp] at hr
    exact hi k e hke r hr
  · rw [hr] at hr2
    rw [Option.some.injEq] at hr2
    subst hr2
    rcases hc with ⟨e2, he2, hrow2⟩ | hfresh
    · obtain ⟨k2, hk2⟩ := List.get?_of_mem he2
      exact hi k2 e2 hk2 r hrow2
    · exact hfresh.1

theorem Pres.rowSome {st st' : PosState} (h : Pres st st') {k : Nat} {e e' : Entry}
    (hk : st.entries.get? k = some e) (hk' : st'.entries.get? k = some e')
    (hs : e.row.isSome) : e'.row.isSome := by
  obtain ⟨p, _, _⟩ := h.prov k e e' hk hk'
  rcases p with hp | ⟨r, hr, _⟩
  · rw [hp]; exact hs
  · rw [hr]; rfl

theorem Pres.groupSome {st st' : PosState} (h : Pres st st') {k : Nat} {e e' : Entry}
    (hk : st.entries.get? k = some e) (hk' : st'.entries.get? k = some e')
    (hs : e.group.isSome) : e'.group.isSome := by
  obtain ⟨_, _, p⟩ := h.prov k e e' hk hk'
  rcases p with hp | hp
  · rw [hp]; exact hs
  · exact hp

theorem refKey_setRP (x : Entry) (rp : RowProp) (v : Int) : refKey (x.setRP rp v) = refKey x := by
  cases rp <;> rfl

theorem refKey_setGroupFrom (x src : Entry) : refKey (x.setGroupFrom src) = refKey x := rfl

theorem refKey_copyRP (src : Entry) (rp : RowProp) (x : Entry) :
    refKey (copyRP src rp x) = refKey x := by
  unfold copyRP
  split
  · exact refKey_setRP x rp _
  · rfl

theorem id_of_refKey {f : Entry → Entry} (h : ∀ x, refKey (f x) = refKey x) :
    ∀ x, (f x).id = x.id := by
  intro x
  have := h x
  unfold refKey at this
  exact congrArg Prod.fst this

/-- `Pres` across one `updateEntry` whose function keeps the reference
structure, with the provenance of whatever it writes supplied. -/
theorem pres_updateEntry {st : PosState} {i : String} {f : Entry → Entry}
    (hrefk : ∀ x, refKey (f x) = refKey x)
    (hprove : ∀ x ∈ st.entries, ProvE st { st with entries := updateEntry st.entries i f } x (f x)) :
    Pres st { st with entries := updateEntry st.entries i f } := by
  refine ⟨updateEntry_map_of_key refKey hrefk, le_refl _,
    fun g gl h => ⟨gl, h, le_refl _⟩, rfl, fun k e e' hk hk' => ?_⟩
  obtain ⟨e0, hk0, hcase⟩ := updateEntry_get?_cases st.entries i f k hk'
  rw [hk] at hk0
  rw [Option.some.injEq] at hk0
  subst hk0
  rcases hcase with hsame | hupd
  · subst hsame
    exact ⟨Or.inl rfl, Or.inl rfl, Or.inl rfl⟩
  · subst hupd
    exact hprove e (List.get?_mem hk)

/-! ## Per-operation preservation lemmas -/

theorem jsm_bind_ok {α β : Type} (a : α) (f : α → JsM β) :
    (Except.ok a >>= f : JsM β) = f a := rfl

theorem jsm_pure_bind {α β : Type} (a : α) (f : α → JsM β) :
    ((pure a : JsM α) >>= f : JsM β) = f a := rfl

theorem jsm_pure_eq_ok {α : Type} (a : α) : (pure a : JsM α) = .ok a := rfl

theorem jsm_bind_error {α β : Type} (e : JsErr) (f : α → JsM β) :
    (Except.error e >>= f : JsM β) = .error e := rfl

theorem jsm_bind_ok_iff {α β : Type} {m : JsM α} {f : α → JsM β} {b : β} :
    (m >>= f) = .ok b ↔ ∃ a, m = .ok a ∧ f a = .ok b := by
  constructor
  · intro h
    rcases m with e | a
    · rw [show ((Except.error e : JsM α) >>= f) = .error e from rfl] at h
      exact absurd h (by simp)
    · exact ⟨a, rfl, h⟩
  · rintro ⟨a, ha, hf⟩
    rw [ha]
    exact hf

theorem checkGridRangeAux_some_bounds {y2 s e : Int} {grid : DiagramGrid} {r : Int} :
    ∀ (fuel : Nat) (y1 : Int), checkGridRangeAux y2 s e grid fuel y1 = .ok (some r) →
      0 ≤ r ∧ r < (grid.length : Int) := by
  intro fuel
  induction fuel with
  | zero =>
    intro y1 h
    exact absurd h (by simp [checkGridRangeAux])
  | succ n ih =>
    intro y1 h
    unfold checkGridRangeAux at h
    split at h
    · exact absurd h (by simp)
    · obtain ⟨free, hcs, hf⟩ := jsm_bind_ok_iff.mp h
      cases free with
      | true =>
        simp only [if_pos] at hf
        rw [Except.ok.injEq, Option.some.injEq] at hf
        subst hf
        exact checkGridSpace_okTrue_bounds (by rw [hcs]; rfl)
      | false =>
        simp only [Bool.false_eq_true, if_false] at hf
        exact ih _ hf

theorem checkGridRange_some_bounds {y1 y2 s e : Int} {grid : DiagramGrid} {r : Int}
    (h : checkGridRange y1 y2 s e grid = .ok (some r)) :
    0 ≤ r ∧ r < (grid.length : Int) :=
  checkGridRangeAux_some_bounds _ _ h

theorem find?_set_grid (l : List (String × DiagramGrid)) (g g2 : String) (ng : DiagramGrid) :
    (l.map (fun p => if p.1 = g then (g, ng) else p)).find? (fun p => p.1 = g2) =
      if g2 = g then (l.find? (fun p => p.1 = g)).map (fun _ => (g, ng))
      else l.find? (fun p => p.1 = g2) := by
  induction l with
  | nil =>
    simp only [List.map_nil, List.find?_nil]
    split <;> rfl
  | cons p rest ih =>
    by_cases hp : p.1 = g
    · by_cases hg2 : g2 = g
      · rw [if_pos hg2]
        simp only [List.map_cons, if_pos hp, List.find?_cons,
          show (decide ((g, ng).1 = g2)) = true from by simp [hg2.symm],
          show (decide (p.1 = g)) = true from by simp [hp]]
        rfl
      · rw [if_neg hg2]
        simp only [List.map_cons, if_pos hp, List.find?_cons,
          show (decide ((g, ng).1 = g2)) = false from by
            simp only [decide_eq_false_iff_not]
            exact fun h => hg2 h.symm,
          show (decide (p.1 = g2)) = false from by
            simp only [decide_eq_false_iff_not]
            rw [hp]
            exact fun h => hg2 h.symm]
        rw [ih, if_neg hg2]
    · by_cases hg2 : g2 = g
      · rw [if_pos hg2]
        simp only [List.map_cons, if_neg hp, List.find?_cons,
          show (decide (p.1 = g2)) = false from by simp [hg2 ▸ hp],
          show (decide (p.1 = g)) = false from by simp [hp]]
        rw [ih, if_pos hg2]
      · rw [if_neg hg2]
        by_cases hpg : p.1 = g2
        · simp only [List.map_cons, if_neg hp, List.find?_cons,
            show (decide (p.1 = g2)) = true from by simp [hpg]]
        · simp only [List.map_cons, if_neg hp, List.find?_cons,
            show (decide (p.1 = g2)) = false from by simp [hpg]]
          rw [ih, if_neg hg2]

theorem lookupGG_setGroup (st : PosState) (g g2 : String) (ng : DiagramGrid) :
    lookupGG (setGridRef st (.group g) ng) g2 =
      if g2 = g then (lookupGG st g).map (fun _ => ng) else lookupGG st g2 := by
  show ((st.groupGrids.map (fun p => if p.1 = g then (g, ng) else p)).find?
      (fun p => p.1 = g2)).map (·.2) = _
  rw [find?_set_grid]
  unfold lookupGG
  split
  · cases st.groupGrids.find? (fun p => p.1 = g) <;> rfl
  · rfl

theorem pres_setGridRef {st : PosState} {gr : GridRef} {g0 ng : DiagramGrid}
    (hget : getGridRef st gr = some g0) (hlen : g0.length ≤ ng.length) :
    Pres st (setGridRef st gr ng) := by
  cases gr with
  | master =>
    refine Pres.of_entries_eq rfl ?_ ?_ rfl
    · unfold getGridRef at hget
      rw [Option.some.injEq] at hget
      subst hget
      exact hlen
    · intro g gl h
      exact ⟨gl, h, le_refl _⟩
  | group gname =>
    refine Pres.of_entries_eq rfl (le_refl _) ?_ ?_
    · intro g2 gl h
      rw [lookupGG_setGroup]
      by_cases hg2 : g2 = gname
      · subst hg2
        have hget' : lookupGG st g2 = some g0 := hget
        rw [hget'] at h
        rw [Option.some.injEq] at h
        subst h
        rw [if_pos rfl, hget']
        exact ⟨ng, rfl, hlen⟩
      · rw [if_neg hg2]
        exact ⟨gl, h, le_refl _⟩
    · show (st.groupGrids.map (fun p => if p.1 = gname then (gname, ng) else p)).map Prod.fst
        = st.groupGrids.map Prod.fst
      rw [List.map_map]
      refine List.map_congr_left ?_
      intro p _
      show (if p.1 = gname then (gname, ng) else p).1 = p.1
      split
      · rename_i hp
        rw [← hp]
      · rfl

theorem freeGridSpace_length {y s e : Int} {grid g' : DiagramGrid}
    (h : freeGridSpace y s e grid = .ok g') : g'.length = grid.length :=
  markGridSpace_length h

theorem blockGridSpace_length {y s e : Int} {grid g' : DiagramGrid}
    (h : blockGridSpace y s e grid = .ok g') : g'.length = grid.length :=
  markGridSpace_length h

theorem lineRowFree_cases {st : PosState} {nxt : Entry} {rp : RowProp} {gr : GridRef}
    {st' : PosState} (h : lineRowFree st nxt rp gr = .ok st') :
    st' = st ∨ ∃ g0 ng, getGridRef st gr = some g0 ∧ ng.length = g0.length
      ∧ st' = setGridRef st gr ng := by
  unfold lineRowFree at h
  split at h
  · rename_i oldRow heq
    split at h
    · exact absurd h (by simp)
    · rename_i grid hgr
      obtain ⟨g2, hf, hpure⟩ := jsm_bind_ok_iff.mp h
      rw [jsm_pure_eq_ok, Except.ok.injEq] at hpure
      subst hpure
      exact Or.inr ⟨grid, g2, hgr, freeGridSpace_length hf, rfl⟩
  · rename_i heq
    rw [jsm_pure_eq_ok, Except.ok.injEq] at h
    subst h
    exact Or.inl rfl

theorem pres_lineRowFree {st : PosState} {nxt : Entry} {rp : RowProp} {gr : GridRef}
    {st' : PosState} (h : lineRowFree st nxt rp gr = .ok st') : Pres st st' := by
  rcases lineRowFree_cases h with hsame | ⟨g0, ng, hget, hlen, hset⟩
  · subst hsame
    exact Pres.same_state
  · subst hset
    exact pres_setGridRef hget (le_of_eq hlen.symm)

theorem lineRowFree_entries {st : PosState} {nxt : Entry} {rp : RowProp} {gr : GridRef}
    {st' : PosState} (h : lineRowFree st nxt rp gr = .ok st') : st'.entries = st.entries := by
  rcases lineRowFree_cases h with hsame | ⟨g0, ng, hget, hlen, hset⟩
  · subst hsame
    rfl
  · subst hset
    cases gr <;> rfl

theorem getRP_setGroupFrom (x src : Entry) (rp : RowProp) :
    (x.setGroupFrom src).getRP rp = x.getRP rp := by
  cases rp <;> rfl

theorem updateEntry_exists_getRP {rp : RowProp} {es : List Entry} {i : String}
    {f : Entry → Entry} (hgrp : ∀ x, (f x).getRP rp = x.getRP rp) {e : Entry} (he : e ∈ es) :
    ∃ e2 ∈ updateEntry es i f, e2.getRP rp = e.getRP rp := by
  obtain ⟨k, hk⟩ := List.get?_of_mem he
  rcases updateEntry_get? es i f k with hc | hc
  · rw [hk] at hc
    simp only [Option.map_some'] at hc
    refine ⟨_, List.get?_mem hc, ?_⟩
    split
    · exact hgrp e
    · rfl
  · rw [hk] at hc
    exact ⟨e, List.get?_mem hc, rfl⟩

theorem pres_update_setGroupFrom {st : PosState} {i : String} {src : Entry} :
    Pres st { st with entries := updateEntry st.entries i (fun n => n.setGroupFrom src) } := by
  refine pres_updateEntry (fun x => refKey_setGroupFrom x src) ?_
  intro x _
  exact ⟨Or.inl rfl, Or.inl rfl, Or.inr rfl⟩

theorem pres_update_copyRP {st : PosState} {i : String} {e : Entry} {rp : RowProp}
    (hsrc : ∀ v, e.getRP rp = some v → ∃ e2 ∈ st.entries, e2.getRP rp = some v) :
    Pres st { st with entries := updateEntry st.entries i (copyRP e rp) } := by
  refine pres_updateEntry (refKey_copyRP e rp) ?_
  intro x _
  unfold copyRP
  rcases hv : e.getRP rp with _ | v
  · exact ⟨Or.inl rfl, Or.inl rfl, Or.inl rfl⟩
  · obtain ⟨e2, he2, hrp2⟩ := hsrc v hv
    cases rp with
    | row => exact ⟨Or.inr ⟨v, rfl, Or.inl ⟨e2, he2, hrp2⟩⟩, Or.inl rfl, Or.inl rfl⟩
    | groupRow => exact ⟨Or.inl rfl, Or.inr ⟨v, rfl, Or.inl ⟨e2, he2, hrp2⟩⟩, Or.inl rfl⟩

theorem pres_setLineRow : ∀ (fuel : Nat) (st : PosState) (eId : String) (rp : RowProp)
    (gr : GridRef) (st' : PosState), setLineRow fuel st eId rp gr = .ok st' → Pres st st' := by
  intro fuel
  induction fuel with
  | zero =>
    intro st eId rp gr st' h
    exact absurd h (by simp [setLineRow])
  | succ fuel ih =>
    intro st eId rp gr st' h
    unfold setLineRow at h
    split at h
    · exact absurd h (by simp)
    · rename_i e hge
      split at h
      · -- become truthy
        split at h
        · exact absurd h (by simp)
        · rename_i nxt hgn
          rw [show (if e.group ≠ nxt.group then
              { st with entries := updateEntry st.entries nxt.id (fun n => n.setGroupFrom e) }
              else st) = (if e.group ≠ nxt.group then
              { st with entries := updateEntry st.entries nxt.id (fun n => n.setGroupFrom e) }
              else st) from rfl] at h
          set stA := (if e.group ≠ nxt.group then
              { st with entries := updateEntry st.entries nxt.id (fun n => n.setGroupFrom e) }
              else st) with hstA
          obtain ⟨stB, hlf, hrest⟩ := jsm_bind_ok_iff.mp h
          have pA : Pres st stA := by
            rw [hstA]
            split
            · exact pres_update_setGroupFrom
            · exact Pres.same_state
          have pB : Pres stA stB := pres_lineRowFree hlf
          have hBents : stB.entries = stA.entries := lineRowFree_entries hlf
          have pC : Pres stB
              { stB with entries := updateEntry stB.entries nxt.id (copyRP e rp) } := by
            refine pres_update_copyRP ?_
            intro v hv
            have heStA : ∃ e2 ∈ stA.entries, e2.getRP rp = e.getRP rp := by
              rw [hstA]
              split
              · exact updateEntry_exists_getRP (fun x => getRP_setGroupFrom x e rp)
                  (getEl_mem hge)
              · exact ⟨e, getEl_mem hge, rfl⟩
            obtain ⟨e2, he2, hrp2⟩ := heStA
            rw [hBents]
            exact ⟨e2, he2, hv ▸ hrp2⟩
          have pD : Pres { stB with entries := updateEntry stB.entries nxt.id (copyRP e rp) }
              st' := ih _ _ _ _ _ hrest
          exact ((pA.trans pB).trans pC).trans pD
      · rw [Except.ok.injEq] at h
        subst h
        exact Pres.same_state

theorem pres_entryBlock {st : PosState} {gr : GridRef} {rowV s e2 : Int} {st' : PosState}
    (h : entryBlock st gr rowV s e2 = .ok st') : Pres st st' := by
  unfold entryBlock at h
  split at h
  · exact absurd h (by simp)
  · rename_i grid hgr
    split at h
    · rename_i g hb
      rw [Except.ok.injEq] at h
      subst h
      exact pres_setGridRef hgr (le_of_eq (blockGridSpace_length hb).symm)
    · rw [Except.ok.injEq] at h
      subst h
      exact Pres.same_state

theorem pres_update_setRP {st : PosState} {i : String} {rp : RowProp} {v : Int}
    (hv : (∃ e2 ∈ st.entries, e2.getRP rp = some v) ∨
      (0 ≤ v ∧ (rp = .row → v < (st.grid.length : Int)))) :
    Pres st { st with entries := updateEntry st.entries i (fun x => x.setRP rp v) } := by
  refine pres_updateEntry (fun x => refKey_setRP x rp v) ?_
  intro x _
  cases rp with
  | row =>
    refine ⟨Or.inr ⟨v, rfl, ?_⟩, Or.inl rfl, Or.inl rfl⟩
    rcases hv with ⟨e2, he2, hrp⟩ | ⟨h0, hlt⟩
    · exact Or.inl ⟨e2, he2, hrp⟩
    · exact Or.inr ⟨h0, hlt rfl⟩
  | groupRow =>
    refine ⟨Or.inl rfl, Or.inr ⟨v, rfl, ?_⟩, Or.inl rfl⟩
    rcases hv with ⟨e2, he2, hrp⟩ | ⟨h0, _⟩
    · exact Or.inl ⟨e2, he2, hrp⟩
    · exact Or.inr h0

theorem pres_placeEntry {st1 : PosState} {eId : String} {rp : RowProp} {gr : GridRef}
    {s e2 : Int} {near : Option Int} {st' : PosState}
    (hrpgr : rp = .row → gr = .master)
    (h : placeEntry st1 eId rp gr s e2 near = .ok st') : Pres st1 st' := by
  unfold placeEntry at h
  split at h
  · exact absurd h (by simp)
  · rename_i grid hgr
    simp only [] at h
    obtain ⟨hfg0, hfg1, hfg2, _⟩ := findGridSpace_spec st1.xLength s e2 grid near
    set fg := findGridSpace st1.xLength s e2 grid near with hfgdef
    have p2 : Pres st1 (setGridRef st1 gr fg.2) := by
      refine pres_setGridRef hgr ?_
      rcases hfg2 with hcase | hcase
      · rw [hcase]
      · rw [hcase]
        simp [addGridRow]
    set stg := setGridRef st1 gr fg.2 with hstg
    have hstglen : gr = .master → stg.grid = fg.2 := by
      intro hm
      rw [hstg, hm]
      rfl
    set stu := { stg with entries := updateEntry stg.entries eId (fun x => x.setRP rp fg.1) }
      with hstu
    have p3 : Pres stg stu := by
      rw [hstu]
      refine pres_update_setRP (Or.inr ⟨hfg0, fun hrp => ?_⟩)
      rw [hstglen (hrpgr hrp)]
      exact hfg1
    obtain ⟨st3, hsl, hblk⟩ := jsm_bind_ok_iff.mp h
    have p4 : Pres stu st3 := pres_setLineRow _ _ _ _ _ _ hsl
    have p5 : Pres st3 st' := pres_entryBlock hblk
    exact (p2.trans p3).trans (p4.trans p5)

theorem pres_setEntryRow : ∀ (fuel : Nat) (st : PosState) (eId : String) (group : Bool)
    (st' : PosState), setEntryRow fuel st eId group = .ok st' → Pres st st' := by
  intro fuel
  induction fuel with
  | zero =>
    intro st eId group st' h
    exact absurd h (by simp [setEntryRow])
  | succ fuel ih =>
    intro st eId group st' h
    unfold setEntryRow at h
    split at h
    · exact absurd h (by simp)
    · rename_i e hge
      split at h
      · rw [Except.ok.injEq] at h
        subst h
        exact Pres.same_state
      · simp only [] at h
        set rp := (if group then RowProp.groupRow else RowProp.row) with hrpdef
        set gr := (if group then GridRef.group (e.group.getD "") else GridRef.master) with hgrdef
        have hrpgr : rp = RowProp.row → gr = GridRef.master := by
          intro hr
          cases group with
          | true =>
            rw [hrpdef] at hr
            exact absurd hr (by simp)
          | false =>
            rw [hgrdef]
            simp
        split at h
        · rw [Except.ok.injEq] at h
          subst h
          exact Pres.same_state
        · rcases hcle : calcLineEnd st.entries (st.entries.length + 1) e with errv | lineEnd
          · rw [hcle, jsm_bind_error] at h
            exact absurd h (by simp)
          rw [hcle, jsm_bind_ok] at h
          rcases hseek : seekEl st.entries e with errv | seek
          · rw [hseek, jsm_bind_error] at h
            exact absurd h (by simp)
          rw [hseek, jsm_bind_ok] at h
          have hplace : ∀ (stx : PosState) (nr : Option Int), Pres st stx →
              placeEntry stx eId rp gr (yearToGrid st.axisStart e.start)
                (yearToGrid st.axisStart lineEnd) nr = .ok st' → Pres st st' :=
            fun stx nr hp hpl => hp.trans (pres_placeEntry hrpgr hpl)
          split at h
          · rename_i sk
            split at h
            · split at h
              · obtain ⟨st1, hrec, hpl⟩ := jsm_bind_ok_iff.mp h
                exact hplace st1 _ (ih _ _ _ _ hrec) hpl
              · exact hplace st _ Pres.same_state h
            · exact hplace st _ Pres.same_state h
          · exact hplace st _ Pres.same_state h

theorem pres_moveEntry {st : PosState} {eId : String} {rowV : Int} {st' : PosState}
    (hrv : 0 ≤ rowV ∧ rowV < (st.grid.length : Int))
    (h : moveEntry st eId rowV = .ok st') : Pres st st' := by
  unfold moveEntry at h
  split at h
  · exact absurd h (by simp)
  · rename_i e hge
    simp only [] at h
    rcases hcle : calcLineEnd st.entries (st.entries.length + 1) e with errv | lineEnd
    · rw [hcle, jsm_bind_error] at h
      exact absurd h (by simp)
    rw [hcle, jsm_bind_ok] at h
    split at h
    · rw [jsm_bind_error] at h
      exact absurd h (by simp)
    · rename_i oldRow hrow
      rcases hfree : freeGridSpace oldRow (yearToGrid st.axisStart e.start)
          (yearToGrid st.axisStart lineEnd) st.grid with errv | grid1
      · rw [hfree, jsm_bind_error] at h
        exact absurd h (by simp)
      rw [hfree, jsm_bind_ok] at h
      have pA : Pres st { st with grid := grid1 } :=
        @pres_setGridRef st GridRef.master st.grid grid1 rfl
          (le_of_eq (freeGridSpace_length hfree).symm)
      set stA : PosState := { st with grid := grid1 } with hstA
      set stB : PosState :=
        { stA with entries := updateEntry stA.entries eId (fun x => { x with row := some rowV }) }
        with hstB
      have pB : Pres stA stB := by
        rw [hstB]
        refine pres_updateEntry (fun x => rfl) ?_
        intro x _
        refine ⟨Or.inr ⟨rowV, rfl, Or.inr ⟨hrv.1, ?_⟩⟩, Or.inl rfl, Or.inl rfl⟩
        have hlen := freeGridSpace_length hfree
        have hq : stA.grid = grid1 := rfl
        rw [hq]
        omega
      obtain ⟨st3, hsl, h2⟩ := jsm_bind_ok_iff.mp h
      have pC : Pres stB st3 := pres_setLineRow _ _ _ _ _ _ hsl
      obtain ⟨grid2, hblk, hpure⟩ := jsm_bind_ok_iff.mp h2
      have hpure2 : (Except.ok { st3 with grid := grid2 } : JsM PosState) = .ok st' := hpure
      rw [Except.ok.injEq] at hpure2
      subst hpure2
      exact ((pA.trans pB).trans pC).trans
        (@pres_setGridRef st3 GridRef.master st3.grid grid2 rfl
          (le_of_eq (blockGridSpace_length hblk).symm))

theorem pres_foldlM {β : Type} (f : PosState → β → JsM PosState)
    (hf : ∀ st b st', f st b = .ok st' → Pres st st') :
    ∀ (l : List β) (st st' : PosState), l.foldlM f st = .ok st' → Pres st st' := by
  intro l
  induction l with
  | nil =>
    intro st st' h
    rw [List.foldlM_nil, jsm_pure_eq_ok, Except.ok.injEq] at h
    subst h
    exact Pres.same_state
  | cons b rest ih =>
    intro st st' h
    rw [List.foldlM_cons] at h
    obtain ⟨st1, h1, h2⟩ := jsm_bind_ok_iff.mp h
    exact (hf st b st1 h1).trans (ih st1 st' h2)

theorem pres_adjStep {eId : String} {st : PosState} {lId : String} {st' : PosState}
    (h : adjStep eId st lId = .ok st') : Pres st st' := by
  unfold adjStep at h
  split at h
  · rename_i e' link hge1 hgl1
    split at h
    · split at h
      · rename_i er lr her hlr
        rcases hcl2 : calcLineEnd st.entries (st.entries.length + 1) link with errv | lEnd
        · rw [hcl2, jsm_bind_error] at h
          exact absurd h (by simp)
        rw [hcl2, jsm_bind_ok] at h
        rcases hcg2 : checkGridRange er lr (yearToGrid st.axisStart link.start)
            (yearToGrid st.axisStart lEnd) st.grid with errv | mv
        · rw [hcg2, jsm_bind_error] at h
          exact absurd h (by simp)
        rw [hcg2, jsm_bind_ok] at h
        split at h
        · exact pres_moveEntry (checkGridRange_some_bounds hcg2) h
        · rw [Except.ok.injEq] at h
          subst h
          exact Pres.same_state
      all_goals exact absurd h (by simp)
    · rw [Except.ok.injEq] at h
      subst h
      exact Pres.same_state
  all_goals exact absurd h (by simp)

theorem pres_adjustConnectedEntry {st : PosState} {eId : String} {st' : PosState}
    (h : adjustConnectedEntry st eId = .ok st') : Pres st st' := by
  unfold adjustConnectedEntry at h
  split at h
  · exact absurd h (by simp)
  · rename_i e hge
    simp only [] at h
    split at h
    · exact absurd h (by simp)
    · rename_i target htgt
      split at h
      · rcases hrg : requireRange (st.groupRange.find? (fun p => p.1 = e.group.getD ""))
            with errv | range
        · rw [hrg, jsm_bind_error] at h
          exact absurd h (by simp)
        rw [hrg, jsm_bind_ok] at h
        rcases hrr : requireRow e.row with errv | eRow
        · rw [hrr, jsm_bind_error] at h
          exact absurd h (by simp)
        rw [hrr, jsm_bind_ok] at h
        rcases hcle : calcLineEnd st.entries (st.entries.length + 1) e with errv | lineEnd
        · rw [hcle, jsm_bind_error] at h
          exact absurd h (by simp)
        rw [hcle, jsm_bind_ok] at h
        rcases hcgr : checkGridRange (adjTargetRow target eRow range) eRow
            (yearToGrid st.axisStart e.start) (yearToGrid st.axisStart lineEnd) st.grid
            with errv | newRow
        · rw [hcgr, jsm_bind_error] at h
          exact absurd h (by simp)
        rw [hcgr, jsm_bind_ok] at h
        split at h
        · rw [Except.ok.injEq] at h
          subst h
          exact Pres.same_state
        · obtain ⟨st1, hmv, hfold⟩ := jsm_bind_ok_iff.mp h
          have p1 : Pres st st1 := pres_moveEntry (checkGridRange_some_bounds hcgr) hmv
          have p2 : Pres st1 st' :=
            pres_foldlM (adjStep eId) (fun stx b stx' hs => pres_adjStep hs) _ _ _ hfold
          exact p1.trans p2
      · rw [Except.ok.injEq] at h
        subst h
        exact Pres.same_state

/-! ## Row-bound invariants for the full `calculate` pipeline -/

theorem getGridOverlapAux_le (g1 g2 : DiagramGrid) : ∀ k, getGridOverlapAux g1 g2 k ≤ k := by
  intro k
  induction k with
  | zero => simp [getGridOverlapAux]
  | succ n ih =>
    unfold getGridOverlapAux
    split
    · exact le_refl _
    · exact Nat.le_succ_of_le ih

theorem getGridOverlap_bounds (g1 g2 : DiagramGrid)
    (h1 : 1 ≤ g1.length) (h2 : 1 ≤ g2.length) :
    0 ≤ getGridOverlap g1 g2
    ∧ getGridOverlap g1 g2 ≤ ((min g1.length g2.length : Nat) : Int) - 1 := by
  unfold getGridOverlap
  rw [if_neg (by omega)]
  have := getGridOverlapAux_le g1 g2 (min g1.length g2.length - 1)
  omega


/-- All rows lie strictly below the master grid's row count. -/
def RowUB (st : PosState) : Prop :=
  ∀ k e, st.entries.get? k = some e → ∀ r, e.row = some r → r < (st.grid.length : Int)

/-- Every group scratch grid is non-empty (as the constructor makes them). -/
def GGNE (st : PosState) : Prop :=
  ∀ g gl, lookupGG st g = some gl → gl ≠ []

theorem Pres.rowUB {st st' : PosState} (h : Pres st st') (hi : RowUB st) : RowUB st' := by
  intro k e' hk r hr
  obtain ⟨e, hke⟩ := h.get?_orig hk
  obtain ⟨p, _, _⟩ := h.prov k e e' hke hk
  rcases p with hp | ⟨r2, hr2, hc⟩
  · rw [hp] at hr
    exact lt_of_lt_of_le (hi k e hke r hr) (by exact_mod_cast h.glen)
  · rw [hr] at hr2
    rw [Option.some.injEq] at hr2
    subst hr2
    rcases hc with ⟨e2, he2, hrow2⟩ | hfresh
    · obtain ⟨k2, hk2⟩ := List.get?_of_mem he2
      exact lt_of_lt_of_le (hi k2 e2 hk2 r hrow2) (by exact_mod_cast h.glen)
    · exact hfresh.2

theorem lookupGG_isSome_iff_mem (st : PosState) (g : String) :
    (lookupGG st g).isSome = true ↔ g ∈ st.groupGrids.map Prod.fst := by
  unfold lookupGG
  rcases hf : st.groupGrids.find? (fun p => p.1 = g) with _ | p
  · simp only [hf, Option.map_none', Option.isSome_none, Bool.false_eq_true, false_iff]
    intro hmem
    rw [List.mem_map] at hmem
    obtain ⟨q, hq, hqg⟩ := hmem
    have hnone := List.find?_eq_none.mp hf q hq
    simp [hqg] at hnone
  · simp only [hf, Option.map_some', Option.isSome_some, true_iff]
    have hmem := List.mem_of_find?_eq_some hf
    have hpg := List.find?_some hf
    rw [List.mem_map]
    exact ⟨p, hmem, by simpa using hpg⟩

theorem Pres.ggne {st st' : PosState} (h : Pres st st') (hg : GGNE st) : GGNE st' := by
  intro g gl' hl'
  have hsome' : (lookupGG st' g).isSome = true := by
    rw [hl']
    rfl
  have hsome : (lookupGG st g).isSome = true := by
    rw [lookupGG_isSome_iff_mem, ← h.ggkeys, ← lookupGG_isSome_iff_mem]
    exact hsome'
  obtain ⟨gl, hgl⟩ := Option.isSome_iff_exists.mp hsome
  obtain ⟨gl'', hgl'', hlen⟩ := h.gglen g gl hgl
  rw [hl'] at hgl''
  rw [Option.some.injEq] at hgl''
  subst hgl''
  have h1 : 0 < gl.length := List.length_pos.mpr (hg g gl hgl)
  exact List.ne_nil_of_length_pos (by omega)

theorem le_foldl_max (l : List Int) (a : Int) :
    a ≤ l.foldl max a ∧ ∀ x ∈ l, x ≤ l.foldl max a := by
  induction l generalizing a with
  | nil => exact ⟨le_refl _, by simp⟩
  | cons b rest ih =>
    refine ⟨le_trans (le_max_left a b) (ih (max a b)).1, ?_⟩
    intro x hx
    rcases List.mem_cons.mp hx with hxb | hxr
    · subst hxb
      exact le_trans (le_max_right a x) (ih (max a x)).1
    · exact (ih (max a b)).2 x hxr

theorem getRowCount_gt {es : List Entry} {k : Nat} {e : Entry} {r : Int}
    (hk : es.get? k = some e) (hr : e.row = some r) : r < getRowCount es := by
  unfold getRowCount
  have hmem : r ∈ (es.filter (fun e => e.row.isSome)).filterMap (·.row) := by
    rw [List.mem_filterMap]
    refine ⟨e, ?_, hr⟩
    rw [List.mem_filter]
    exact ⟨List.get?_mem hk, by simp [hr]⟩
  rcases hsr : (es.filter (fun e => e.row.isSome)).filterMap (·.row) with _ | ⟨r0, rs⟩
  · rw [hsr] at hmem
    simp at hmem
  · rw [hsr] at hmem
    rw [hsr]
    show r < rs.foldl max r0 + 1
    rcases List.mem_cons.mp hmem with h0 | hrs
    · subst h0
      have := (le_foldl_max rs r).1
      omega
    · have := (le_foldl_max rs r0).2 r hrs
      omega

theorem addGridRowsUntil_ok {xLength : Nat} {grid g' : DiagramGrid} {rows : Int}
    (h : addGridRowsUntil xLength grid rows = .ok g') :
    grid.length ≤ g'.length ∧ rows < (g'.length : Int) := by
  unfold addGridRowsUntil at h
  split at h
  · exact absurd h (by simp)
  · rename_i hle
    rw [Except.ok.injEq] at h
    subst h
    rw [List.length_append, List.length_replicate]
    constructor
    · omega
    · push_cast
      omega

theorem pres_blockStep {st : PosState} {id : String} {st' : PosState}
    (h : blockStep st id = .ok st') : Pres st st' := by
  unfold blockStep at h
  split at h
  · exact absurd h (by simp)
  · rename_i e hge
    split at h
    · rw [jsm_bind_error] at h
      exact absurd h (by simp)
    · rename_i r hrow
      rcases hb : blockGridSpace r (yearToGrid st.axisStart e.start)
          (yearToGrid st.axisStart e.end_) st.grid with errv | g2
      · rw [hb, jsm_bind_error] at h
        exact absurd h (by simp)
      rw [hb, jsm_bind_ok] at h
      have h2 : (Except.ok { st with grid := g2 } : JsM PosState) = .ok st' := h
      rw [Except.ok.injEq] at h2
      subst h2
      exact @pres_setGridRef st GridRef.master st.grid g2 rfl
        (le_of_eq (blockGridSpace_length hb).symm)

theorem pres_repairStep {st : PosState} {id : String} {st' : PosState}
    (h : repairStep st id = .ok st') : Pres st st' := by
  unfold repairStep at h
  split at h
  · exact absurd h (by simp)
  · split at h
    · exact pres_adjustConnectedEntry h
    · rw [Except.ok.injEq] at h
      subst h
      exact Pres.same_state

/-- Entry-list-only rewrites leave every grid lookup untouched. -/
theorem lookupGG_entries_update (st : PosState) (es : List Entry)
    (gr' : List (String × (Int × Int))) (g : String) :
    lookupGG { st with entries := es, groupRange := gr' } g = lookupGG st g := rfl

/-- `RowNonneg` through the whole stacking loop: each stacked row is a
non-negative `groupRow` plus a non-negative increment, and the increment
stays non-negative because each grid can overlap its predecessor by at most
its height minus one. -/
theorem stackGroupsAux_rowNonneg (gs : List String) :
    ∀ (prevName : Option String) (inc : Int) (st st' : PosState),
      stackGroupsAux prevName inc st gs = .ok st' →
      GInv st → GGNE st → RowNonneg st →
      (match prevName with
        | none => 0 ≤ inc
        | some p => ∃ pg, lookupGG st p = some pg ∧ pg ≠ [] ∧ (pg.length : Int) ≤ inc) →
      RowNonneg st' := by
  induction gs with
  | nil =>
    intro prevName inc st st' h _ _ hrn _
    simp only [stackGroupsAux] at h
    rw [Except.ok.injEq] at h
    subst h
    exact hrn
  | cons g rest ih =>
    intro prevName inc st st' h hgi hne hrn hprev
    rcases hcg : lookupGG st g with _ | cg
    · simp only [stackGroupsAux, hcg, requireGrid, jsm_bind_error] at h
      exact absurd h (by simp)
    simp only [stackGroupsAux, hcg, requireGrid, jsm_pure_bind] at h
    rcases hsi : stackIncrement st prevName inc cg with errv | inc'
    · rw [hsi, jsm_bind_error] at h
      exact absurd h (by simp)
    rw [hsi, jsm_bind_ok] at h
    have hcgne : cg ≠ [] := hne g cg hcg
    have hinc' : 0 ≤ inc' := by
      cases prevName with
      | none =>
        simp only [stackIncrement, jsm_pure_eq_ok, Except.ok.injEq] at hsi
        subst hsi
        exact hprev
      | some p =>
        obtain ⟨pg, hpg, hpgne, hple⟩ := hprev
        simp only [stackIncrement, hpg, jsm_pure_eq_ok, Except.ok.injEq] at hsi
        subst hsi
        have hb := getGridOverlap_bounds pg cg
          (by have := List.length_pos.mpr hpgne; omega)
          (by have := List.length_pos.mpr hcgne; omega)
        have hm : ((min pg.length cg.length : Nat) : Int) ≤ (pg.length : Int) := by
          have : min pg.length cg.length ≤ pg.length := Nat.min_le_left _ _
          exact_mod_cast this
        omega
    rcases hsr : stackRows st g inc' with errv | st1
    · rw [hsr, jsm_bind_error] at h
      exact absurd h (by simp)
    rw [hsr, jsm_bind_ok] at h
    have hsr2 := hsr
    unfold stackRows at hsr2
    by_cases hall :
        ((st.entries.filter (fun e => e.group = some g)).all (fun e => e.groupRow.isSome)) = true
    swap
    · rw [if_neg hall] at hsr2
      exact absurd hsr2 (by simp)
    rw [if_pos hall, Except.ok.injEq] at hsr2
    subst hsr2
    set f : Entry → Entry := fun e =>
      if e.group = some g then { e with row := some (e.groupRow.getD 0 + inc') } else e with hf
    set st2 : PosState :=
      { st with
        entries := st.entries.map f,
        groupRange := st.groupRange ++ [(g, (inc', inc' + (cg.length : Int)))] } with hst2
    have hlk2 : ∀ g2, lookupGG st2 g2 = lookupGG st g2 := fun g2 => rfl
    have hgi2 : GInv st2 := by
      intro k e' hk r hr
      have hk' : (st.entries.map f).get? k = some e' := hk
      rw [List.get?_map] at hk'
      rcases hke : st.entries.get? k with _ | e
      · rw [hke] at hk'
        exact absurd hk' (by simp)
      · rw [hke] at hk'
        rw [Option.map_some', Option.some.injEq] at hk'
        subst hk'
        have hgr : (f e).groupRow = e.groupRow := by
          by_cases hgrp : e.group = some g <;> simp [hf, hgrp]
        rw [hgr] at hr
        exact hgi k e hke r hr
    have hne2 : GGNE st2 := by
      intro g2 gl hl
      rw [hlk2] at hl
      exact hne g2 gl hl
    have hrn2 : RowNonneg st2 := by
      intro k e' hk r hr
      have hk' : (st.entries.map f).get? k = some e' := hk
      rw [List.get?_map] at hk'
      rcases hke : st.entries.get? k with _ | e
      · rw [hke] at hk'
        exact absurd hk' (by simp)
      · rw [hke] at hk'
        rw [Option.map_some', Option.some.injEq] at hk'
        subst hk'
        have hfe : f e =
            if e.group = some g then { e with row := some (e.groupRow.getD 0 + inc') } else e :=
          congrFun hf e
        rw [hfe] at hr
        by_cases hgrp : e.group = some g
        · rw [if_pos hgrp] at hr
          have hmem : e ∈ st.entries.filter (fun e2 => e2.group = some g) := by
            rw [List.mem_filter]
            exact ⟨List.get?_mem hke, by simp [hgrp]⟩
          have hsome : e.groupRow.isSome := by
            rw [List.all_eq_true] at hall
            exact hall e hmem
          obtain ⟨gr0, hgr0⟩ := Option.isSome_iff_exists.mp hsome
          have hg0 : 0 ≤ gr0 := hgi k e hke gr0 hgr0
          simp only [Option.some.injEq] at hr
          rw [← hr, hgr0]
          simp only [Option.getD_some]
          omega
        · rw [if_neg hgrp] at hr
          exact hrn k e hke r hr
    refine ih (some g) (inc' + (cg.length : Int)) st2 st' h hgi2 hne2 hrn2 ?_
    refine ⟨cg, ?_, hcgne, ?_⟩
    · rw [hlk2]
      exact hcg
    · have := List.length_pos.mpr hcgne
      omega

theorem groupGridsFold_len (xLength : Int) :
    ∀ (gs : List String) (acc acc' : List (String × DiagramGrid)),
      gs.foldlM (fun acc g => do
        let gg ← createGrid xLength 1
        pure (acc ++ [(g, gg)])) acc = .ok acc' →
      (∀ p ∈ acc, p.2 ≠ []) → ∀ p ∈ acc', p.2 ≠ [] := by
  intro gs
  induction gs with
  | nil =>
    intro acc acc' h hacc
    rw [List.foldlM_nil, jsm_pure_eq_ok, Except.ok.injEq] at h
    subst h
    exact hacc
  | cons g rest ih =>
    intro acc acc' h hacc
    rw [List.foldlM_cons] at h
    obtain ⟨acc1, h1, h2⟩ := jsm_bind_ok_iff.mp h
    obtain ⟨gg, hgg, hpure⟩ := jsm_bind_ok_iff.mp h1
    have hpure2 : (Except.ok (acc ++ [(g, gg)]) : JsM (List (String × DiagramGrid)))
        = .ok acc1 := hpure
    rw [Except.ok.injEq] at hpure2
    subst hpure2
    refine ih _ _ h2 ?_
    intro p hp
    rcases List.mem_append.mp hp with hp1 | hp2
    · exact hacc p hp1
    · have hp2' : p = (g, gg) := by simpa using hp2
      subst hp2'
      unfold createGrid at hgg
      split at hgg
      · exact absurd hgg (by simp)
      · rw [Except.ok.injEq] at hgg
        subst hgg
        intro hcontra
        have hlen := congrArg List.length hcontra
        simp at hlen

theorem newDiagramPositioner_spec {entries : List Entry} {startY endY : Int} {st0 : PosState}
    (h : newDiagramPositioner entries startY endY = .ok st0) :
    st0.entries = entries ∧ st0.groups = listGroups entries ∧ GGNE st0 := by
  unfold newDiagramPositioner at h
  simp only [] at h
  rcases hcg : createGrid (endY - startY) (getRowCount entries) with errv | grid
  · rw [hcg, jsm_bind_error] at h
    exact absurd h (by simp)
  rw [hcg, jsm_bind_ok] at h
  rcases hfold : (listGroups entries).foldlM
      (fun acc g => do
        let gg ← createGrid (endY - startY) 1
        pure (acc ++ [(g, gg)])) ([] : List (String × DiagramGrid)) with errv | ggs
  · rw [hfold, jsm_bind_error] at h
    exact absurd h (by simp)
  rw [hfold, jsm_bind_ok] at h
  have h2 : (Except.ok
      { entries := entries, xLength := (endY - startY).toNat, axisStart := startY,
        grid := grid, groups := listGroups entries, groupGrids := ggs }
      : JsM PosState) = .ok st0 := h
  rw [Except.ok.injEq] at h2
  subst h2
  refine ⟨rfl, rfl, ?_⟩
  intro g gl hl
  have hmem : ∃ p ∈ ggs, p.2 = gl := by
    have hl' : (ggs.find? (fun p => p.1 = g)).map (·.2) = some gl := hl
    rcases hf : ggs.find? (fun p => p.1 = g) with _ | p
    · rw [hf] at hl'
      exact absurd hl' (by simp)
    · rw [hf] at hl'
      rw [Option.map_some', Option.some.injEq] at hl'
      exact ⟨p, List.mem_of_find?_eq_some hf, hl'⟩
  obtain ⟨p, hp, hpeq⟩ := hmem
  have hne := groupGridsFold_len (endY - startY) (listGroups entries) [] ggs hfold
    (by simp) p hp
  rw [hpeq] at hne
  exact hne

/-- The row bounds `calculate` guarantees: rows below the final master row
count unconditionally, and additionally non-negative when the incoming
state has non-negative presets and the constructor-shaped group grids. -/
theorem calculate_row_bounds {st st' : PosState} (h : calculate st = .ok st') :
    RowUB st' ∧ (GGNE st → GInv st → RowNonneg st → RowNonneg st') := by
  unfold calculate at h
  simp only [] at h
  obtain ⟨stA, hA, h⟩ := jsm_bind_ok_iff.mp h
  obtain ⟨stB, hB, h⟩ := jsm_bind_ok_iff.mp h
  obtain ⟨g', hG, h⟩ := jsm_bind_ok_iff.mp h
  obtain ⟨stD, hC, h⟩ := jsm_bind_ok_iff.mp h
  obtain ⟨stE, hD, h⟩ := jsm_bind_ok_iff.mp h
  obtain ⟨stF, hF, hpure⟩ := jsm_bind_ok_iff.mp h
  have hpure2 : (Except.ok stF : JsM PosState) = .ok st' := hpure
  rw [Except.ok.injEq] at hpure2
  subst hpure2
  have hub : RowUB { stB with grid := g' } := by
    intro k e hk r hr
    have h1 : r < getRowCount stB.entries := @getRowCount_gt stB.entries k e r hk hr
    have h2 := (addGridRowsUntil_ok hG).2
    show r < (g'.length : Int)
    omega
  have pC : Pres { stB with grid := g' } stD :=
    pres_foldlM blockStep (fun stx b stx' hs => pres_blockStep hs) _ _ _ hC
  have pD : Pres stD stE :=
    pres_foldlM repairStep (fun stx b stx' hs => pres_repairStep hs) _ _ _ hD
  have pF : Pres stE stF :=
    pres_foldlM _ (fun stx b stx' hs => pres_setEntryRow _ _ _ _ _ hs) _ _ _ hF
  have pCF : Pres { stB with grid := g' } stF := (pC.trans pD).trans pF
  constructor
  · exact pCF.rowUB hub
  · intro hggne hgi hrn
    have pA : Pres { st with groupRange := [] } stA :=
      pres_foldlM _ (fun stx b stx' hs => pres_setEntryRow _ _ _ _ _ hs) _ _ _ hA
    have hgi0 : GInv { st with groupRange := [] } := fun k e hk => hgi k e hk
    have hne0 : GGNE { st with groupRange := [] } := fun g gl hl => hggne g gl hl
    have hrn0 : RowNonneg { st with groupRange := [] } := fun k e hk => hrn k e hk
    have hgiA : GInv stA := pA.gInv hgi0
    have hneA : GGNE stA := pA.ggne hne0
    have hrnA : RowNonneg stA := pA.rowNonneg hrn0
    have hB' : stackGroupsAux none 0 stA stA.groups = .ok stB := hB
    have hrnB : RowNonneg stB :=
      stackGroupsAux_rowNonneg stA.groups none 0 stA stB hB' hgiA hneA hrnA
        (le_refl (0 : Int))
    have hrnC : RowNonneg { stB with grid := g' } := fun k e hk => hrnB k e hk
    exact pCF.rowNonneg hrnC

/-- The state a successful layout returned (a failed one yields a dummy);
lets a concrete run's result be named without writing the state out. -/
def okState (m : JsM PosState) : PosState :=
  match m with
  | .ok st => st
  | .error _ =>
    { entries := [], xLength := 0, axisStart := 0, grid := [], groups := [], groupGrids := [] }

/-! ## By-id transport along `refKey`-preserving mutations -/

theorem map_get?_refKey {es es' : List Entry} (h : es'.map refKey = es.map refKey)
    {k : Nat} {e e' : Entry} (hk : es.get? k = some e) (hk' : es'.get? k = some e') :
    refKey e' = refKey e := by
  have h1 : (es'.map refKey).get? k = some (refKey e') := by
    rw [List.get?_map, hk', Option.map_some']
  have h2 : (es.map refKey).get? k = some (refKey e) := by
    rw [List.get?_map, hk, Option.map_some']
  rw [h, h2] at h1
  rw [Option.some.injEq] at h1
  exact h1.symm

theorem getEl_of_refk {es es' : List Entry} (h : es'.map refKey = es.map refKey)
    {i : String} {e : Entry} (he : getEl es i = some e) :
    ∃ k e', es.get? k = some e ∧ es'.get? k = some e' ∧ getEl es' i = some e' := by
  induction es generalizing es' with
  | nil => exact absurd he (by simp [getEl])
  | cons a rest ih =>
    rcases es' with _ | ⟨a', rest'⟩
    · exact absurd h (by simp)
    · simp only [List.map_cons, List.cons.injEq] at h
      obtain ⟨hhead, htail⟩ := h
      have hid : a'.id = a.id := congrArg Prod.fst hhead
      by_cases hai : a.id = i
      · have he2 : e = a := by
          unfold getEl at he
          rw [List.find?_cons, show decide (a.id = i) = true from by simp [hai],
            Option.some.injEq] at he
          exact he.symm
        subst he2
        refine ⟨0, a', rfl, rfl, ?_⟩
        unfold getEl
        rw [List.find?_cons, show decide (a'.id = i) = true from by simp [hid, hai]]
      · have he2 : getEl rest i = some e := by
          unfold getEl at he ⊢
          rw [List.find?_cons, show decide (a.id = i) = false from by simp [hai]] at he
          exact he
        obtain ⟨k, e', hk, hk', hfind⟩ := ih htail he2
        refine ⟨k + 1, e', by simpa using hk, by simpa using hk', ?_⟩
        unfold getEl at hfind ⊢
        rw [List.find?_cons, show decide (a'.id = i) = false from by
          simp only [decide_eq_false_iff_not, hid]
          exact hai]
        exact hfind

/-- One successful operation transports any by-id lookup: the matched
position is the same, so the new entry has the same `refKey` and its
mutable fields are provenance-related. -/
theorem Pres.getEl_rel {st st' : PosState} (h : Pres st st') {i : String} {e : Entry}
    (he : getEl st.entries i = some e) :
    ∃ e', getEl st'.entries i = some e' ∧ refKey e' = refKey e ∧ ProvE st st' e e' := by
  obtain ⟨k, e', hk, hk', hfind⟩ := getEl_of_refk h.refk he
  exact ⟨e', hfind, map_get?_refKey h.refk hk hk', h.prov k e e' hk hk'⟩

theorem Pres.getEl_rowSome {st st' : PosState} (h : Pres st st') {i : String} {e : Entry}
    (he : getEl st.entries i = some e) (hr : e.row.isSome) :
    ∃ e', getEl st'.entries i = some e' ∧ e'.row.isSome := by
  obtain ⟨e', hfind, _, hrow, _, _⟩ := h.getEl_rel he
  rcases hrow with hsame | ⟨r, hr', _⟩
  · exact ⟨e', hfind, by rw [hsame]; exact hr⟩
  · exact ⟨e', hfind, by rw [hr']; rfl⟩

theorem Pres.getEl_groupSome {st st' : PosState} (h : Pres st st') {i : String}
    (hg : ∀ q, getEl st.entries i = some q → q.group.isSome) :
    ∀ q', getEl st'.entries i = some q' → q'.group.isSome := by
  intro q' hq'
  obtain ⟨k, q, hk', hk, hfind⟩ := getEl_of_refk h.refk.symm hq'
  obtain ⟨_, _, hgrp⟩ := h.prov k q q' hk hk'
  rcases hgrp with hsame | hsome
  · rw [hsame]
    exact hg q hfind
  · exact hsome

theorem NB_of_refk {pid : String} {es es' : List Entry}
    (h : es'.map refKey = es.map refKey)
    (hnb : ∀ x ∈ es, x.become ≠ some pid) : ∀ x ∈ es', x.become ≠ some pid := by
  intro x hx
  obtain ⟨k, hk⟩ := List.get?_of_mem hx
  have hklt : k < es.length := by
    have h1 := (List.get?_eq_some.mp hk).1
    have h2 : es'.length = es.length := by
      have := congrArg List.length h
      simpa using this
    omega
  obtain ⟨y, hy⟩ : ∃ y, es.get? k = some y := ⟨_, List.get?_eq_get hklt⟩
  have hkey := map_get?_refKey h hy hk
  have hbec : x.become = y.become := congrArg (fun q => q.2.1) hkey
  rw [hbec]
  exact hnb y (List.get?_mem hy)

theorem getEl_isSome_of_mem {es : List Entry} {x : Entry} (hx : x ∈ es) :
    (getEl es x.id).isSome := by
  unfold getEl
  rw [List.find?_isSome]
  exact ⟨x, hx, by simp⟩

theorem updateEntry_getEl_self {es : List Entry} {i : String} {e : Entry}
    (f : Entry → Entry) (hid : ∀ x, (f x).id = x.id)
    (he : getEl es i = some e) : getEl (updateEntry es i f) i = some (f e) := by
  induction es with
  | nil => exact absurd he (by simp [getEl])
  | cons a rest ih =>
    by_cases hai : a.id = i
    · have he2 : e = a := by
        unfold getEl at he
        rw [List.find?_cons, show decide (a.id = i) = true from by simp [hai],
          Option.some.injEq] at he
        exact he.symm
      subst he2
      unfold updateEntry getEl
      rw [if_pos hai, List.find?_cons,
        show decide ((f e).id = i) = true from by simp [hid, hai]]
    · have he2 : getEl rest i = some e := by
        unfold getEl at he ⊢
        rw [List.find?_cons, show decide (a.id = i) = false from by simp [hai]] at he
        exact he
      unfold updateEntry getEl
      rw [if_neg hai, List.find?_cons, show decide (a.id = i) = false from by simp [hai]]
      exact ih he2

theorem getEl_map_of_id {es : List Entry} {f : Entry → Entry}
    (hid : ∀ x, (f x).id = x.id) (i : String) :
    getEl (es.map f) i = (getEl es i).map f := by
  induction es with
  | nil => rfl
  | cons a rest ih =>
    unfold getEl at ih ⊢
    rw [List.map_cons, List.find?_cons, List.find?_cons]
    by_cases hai : a.id = i
    · rw [show decide ((f a).id = i) = true from by simp [hid, hai],
        show decide (a.id = i) = true from by simp [hai]]
      rfl
    · rw [show decide ((f a).id = i) = false from by simp [hid, hai],
        show decide (a.id = i) = false from by simp [hai]]
      exact ih

theorem foldlM_inv {β : Type} (f : PosState → β → JsM PosState) (P : PosState → Prop)
    (hstep : ∀ st b st', P st → f st b = .ok st' → P st') :
    ∀ (l : List β) (st st' : PosState), l.foldlM f st = .ok st' → P st → P st' := by
  intro l
  induction l with
  | nil =>
    intro st st' h hp
    rw [List.foldlM_nil, jsm_pure_eq_ok, Except.ok.injEq] at h
    subst h
    exact hp
  | cons b rest ih =>
    intro st st' h hp
    rw [List.foldlM_cons] at h
    obtain ⟨st1, h1, h2⟩ := jsm_bind_ok_iff.mp h
    exact ih st1 st' h2 (hstep st b st1 hp h1)

/-! ## Termination of the seek/become recursion under a decreasing rank -/

theorem jsm_bind_error_iff {α β : Type} {m : JsM α} {f : α → JsM β} {e : JsErr} :
    (m >>= f) = .error e ↔ m = .error e ∨ ∃ a, m = .ok a ∧ f a = .error e := by
  constructor
  · intro h
    rcases m with e' | a
    · rw [show ((Except.error e' : JsM α) >>= f) = .error e' from rfl] at h
      rw [Except.error.injEq] at h
      subst h
      exact Or.inl rfl
    · exact Or.inr ⟨a, rfl, h⟩
  · rintro (h | ⟨a, ha, hf⟩)
    · rw [h]
      rfl
    · rw [ha]
      exact hf

/-- The seek reference decreases the rank: whenever `_setEntryRow` would
recurse from `x` into a seek target, the target's rank is smaller. -/
def seekRankB (rank : String → Nat) (es : List Entry) (x : Entry) : Bool :=
  match seekEl es x with
  | .ok (some sk) => rank sk.id < rank x.id
  | _ => true

/-- The become reference decreases the rank. -/
def becomeRankB (rank : String → Nat) (es : List Entry) (x : Entry) : Bool :=
  if strTruthy x.become then
    match getEl es (x.become.getD "") with
    | some nxt => rank nxt.id < rank x.id
    | none => true
  else true

theorem becomeRankB_of_refk {rank : String → Nat} {es es' : List Entry}
    (h : es'.map refKey = es.map refKey)
    (hb : ∀ x ∈ es, becomeRankB rank es x = true) :
    ∀ x ∈ es', becomeRankB rank es' x = true := by
  intro x' hx'
  obtain ⟨k, hk⟩ := List.get?_of_mem hx'
  have hlen : es'.length = es.length := by
    have := congrArg List.length h
    simpa using this
  have hklt : k < es.length := by
    have := (List.get?_eq_some.mp hk).1
    omega
  obtain ⟨y, hy⟩ : ∃ y, es.get? k = some y := ⟨_, List.get?_eq_get hklt⟩
  have hkey := map_get?_refKey h hy hk
  have hbec : x'.become = y.become := congrArg (fun q => q.2.1) hkey
  have hid : x'.id = y.id := congrArg Prod.fst hkey
  have hby := hb y (List.get?_mem hy)
  unfold becomeRankB at hby ⊢
  split
  · rename_i ht
    split
    · rename_i nxt' hq'
      rw [hbec] at hq' ht
      rw [if_pos ht] at hby
      obtain ⟨k2, e2, hk2', hk2, hfind⟩ := getEl_of_refk h.symm hq'
      rw [hfind] at hby
      have hlt := of_decide_eq_true hby
      have hkey2 := map_get?_refKey h hk2 hk2'
      have hid2 : nxt'.id = e2.id := congrArg Prod.fst hkey2
      rw [hid2, hid]
      exact decide_eq_true hlt
    · rfl
  · rfl

theorem markGridSpace_not_fuel {y s e : Int} {grid : DiagramGrid} {state : Bool} :
    markGridSpace y s e grid state ≠ .error .fuelErr := by
  unfold markGridSpace
  split
  · decide
  · simp

theorem lineRowFree_not_fuel {st : PosState} {nxt : Entry} {rp : RowProp} {gr : GridRef} :
    lineRowFree st nxt rp gr ≠ .error .fuelErr := by
  unfold lineRowFree
  split
  · split
    · decide
    · intro hcontra
      rcases jsm_bind_error_iff.mp hcontra with hf | ⟨g2, hf, hp⟩
      · exact markGridSpace_not_fuel hf
      · rw [jsm_pure_eq_ok] at hp
        exact absurd hp (by simp)
  · intro hcontra
    rw [jsm_pure_eq_ok] at hcontra
    exact absurd hcontra (by simp)

theorem entryBlock_not_fuel {st : PosState} {gr : GridRef} {rowV s e2 : Int} :
    entryBlock st gr rowV s e2 ≠ .error .fuelErr := by
  unfold entryBlock
  split
  · decide
  · split
    · simp
    · simp

theorem seekEl_not_fuel {es : List Entry} {e : Entry} : seekEl es e ≠ .error .fuelErr := by
  unfold seekEl
  simp only []
  split
  · split
    · decide
    · intro hcontra
      rw [jsm_pure_eq_ok] at hcontra
      exact absurd hcontra (by simp)
  · intro hcontra
    rw [jsm_pure_eq_ok] at hcontra
    exact absurd hcontra (by simp)

theorem calcLineEnd_no_fuel {rank : String → Nat} {es : List Entry}
    (hb : ∀ x ∈ es, becomeRankB rank es x = true) :
    ∀ (fuel : Nat) (e : Entry), e ∈ es → rank e.id < fuel →
      calcLineEnd es fuel e ≠ .error .fuelErr := by
  intro fuel
  induction fuel with
  | zero =>
    intro e _ hr
    exact absurd hr (Nat.not_lt_zero _)
  | succ n ih =>
    intro e hmem hr hcontra
    unfold calcLineEnd at hcontra
    split at hcontra
    · rename_i htruthy
      split at hcontra
      · exact absurd hcontra (by simp)
      · rename_i nxt hgn
        have hbx := hb e hmem
        unfold becomeRankB at hbx
        rw [if_pos htruthy, hgn] at hbx
        have hlt := of_decide_eq_true hbx
        exact ih nxt (getEl_mem hgn) (by omega) hcontra
    · exact absurd hcontra (by simp)

theorem setLineRow_no_fuel {rank : String → Nat} :
    ∀ (fuel : Nat) (st : PosState) (eId : String) (rp : RowProp) (gr : GridRef),
      (∀ x ∈ st.entries, becomeRankB rank st.entries x = true) →
      rank eId < fuel →
      setLineRow fuel st eId rp gr ≠ .error .fuelErr := by
  intro fuel
  induction fuel with
  | zero =>
    intro st eId rp gr _ hr
    exact absurd hr (Nat.not_lt_zero _)
  | succ n ih =>
    intro st eId rp gr hb hr hcontra
    unfold setLineRow at hcontra
    split at hcontra
    · exact absurd hcontra (by simp)
    · rename_i e hge
      split at hcontra
      · rename_i htruthy
        split at hcontra
        · exact absurd hcontra (by simp)
        · rename_i nxt hgn
          set stA := (if e.group ≠ nxt.group then
              { st with entries := updateEntry st.entries nxt.id (fun n2 => n2.setGroupFrom e) }
              else st) with hstA
          rcases jsm_bind_error_iff.mp hcontra with hlf | ⟨stB, hlf, hrest⟩
          · exact lineRowFree_not_fuel hlf
          · have hrefkA : stA.entries.map refKey = st.entries.map refKey := by
              rw [hstA]
              split
              · exact updateEntry_map_of_key refKey (fun x => refKey_setGroupFrom x e)
              · rfl
            have hrefkB : stB.entries.map refKey = st.entries.map refKey := by
              rw [lineRowFree_entries hlf]
              exact hrefkA
            have hrefkC : (updateEntry stB.entries nxt.id (copyRP e rp)).map refKey
                = st.entries.map refKey := by
              rw [updateEntry_map_of_key refKey (refKey_copyRP e rp)]
              exact hrefkB
            have hbx := hb e (getEl_mem hge)
            unfold becomeRankB at hbx
            rw [if_pos htruthy, hgn] at hbx
            have hlt := of_decide_eq_true hbx
            have heid : e.id = eId := getEl_id hge
            refine ih _ nxt.id rp gr (becomeRankB_of_refk hrefkC hb) ?_ hrest
            rw [heid] at hlt
            omega
      · exact absurd hcontra (by simp)

theorem placeEntry_no_fuel {rank : String → Nat} {st1 : PosState} {eId : String}
    {rp : RowProp} {gr : GridRef} {s e2 : Int} {near : Option Int}
    (hb : ∀ x ∈ st1.entries, becomeRankB rank st1.entries x = true)
    (hre : rank eId < st1.entries.length + 1) :
    placeEntry st1 eId rp gr s e2 near ≠ .error .fuelErr := by
  intro hcontra
  unfold placeEntry at hcontra
  split at hcontra
  · exact absurd hcontra (by simp)
  · rename_i grid hgr
    simp only [] at hcontra
    have hgen : ∀ (stu : PosState), stu.entries.map refKey = st1.entries.map refKey →
        setLineRow (stu.entries.length + 1) stu eId rp gr ≠ .error .fuelErr := by
      intro stu hrefk
      have hlen : stu.entries.length = st1.entries.length := by
        have := congrArg List.length hrefk
        simpa using this
      refine setLineRow_no_fuel _ _ _ _ _ (becomeRankB_of_refk hrefk hb) ?_
      omega
    rcases jsm_bind_error_iff.mp hcontra with hsl | ⟨st3, hsl, hblk⟩
    · refine hgen _ ?_ hsl
      rw [updateEntry_map_of_key refKey (fun x => refKey_setRP x rp _)]
      cases gr <;> rfl
    · exact entryBlock_not_fuel hblk

theorem setEntryRow_no_fuel {rank : String → Nat} :
    ∀ (fuel : Nat) (st : PosState) (eId : String) (group : Bool),
      (∀ x ∈ st.entries, becomeRankB rank st.entries x = true) →
      (∀ x ∈ st.entries, seekRankB rank st.entries x = true) →
      (∀ x ∈ st.entries, rank x.id ≤ st.entries.length) →
      0 < fuel →
      (∀ q, getEl st.entries eId = some q → rank q.id < fuel) →
      setEntryRow fuel st eId group ≠ .error .fuelErr := by
  intro fuel
  induction fuel with
  | zero =>
    intro st eId group _ _ _ hpos _
    exact absurd hpos (Nat.lt_irrefl 0)
  | succ n ih =>
    intro st eId group hb hs hr _ hre hcontra
    unfold setEntryRow at hcontra
    split at hcontra
    · exact absurd hcontra (by simp)
    · rename_i e hge
      split at hcontra
      · exact absurd hcontra (by simp)
      · simp only [] at hcontra
        set rp := (if group then RowProp.groupRow else RowProp.row) with hrpdef
        set gr := (if group then GridRef.group (e.group.getD "") else GridRef.master) with hgrdef
        split at hcontra
        · exact absurd hcontra (by simp)
        · rcases hcle : calcLineEnd st.entries (st.entries.length + 1) e with errv | lineEnd
          · rw [hcle, jsm_bind_error] at hcontra
            rw [Except.error.injEq] at hcontra
            subst hcontra
            exact calcLineEnd_no_fuel hb (st.entries.length + 1) e (getEl_mem hge)
              (by have := hr e (getEl_mem hge); omega) hcle
          · rw [hcle, jsm_bind_ok] at hcontra
            rcases hseek : seekEl st.entries e with errv | seek
            · rw [hseek, jsm_bind_error] at hcontra
              rw [Except.error.injEq] at hcontra
              subst hcontra
              exact seekEl_not_fuel hseek
            · rw [hseek, jsm_bind_ok] at hcontra
              have hplace : ∀ (stx : PosState) (nr : Option Int), Pres st stx →
                  placeEntry stx eId rp gr (yearToGrid st.axisStart e.start)
                    (yearToGrid st.axisStart lineEnd) nr ≠ .error .fuelErr := by
                intro stx nr hpres
                refine placeEntry_no_fuel (becomeRankB_of_refk hpres.refk hb) ?_
                have hlen := hpres.entries_length
                have hbnd := hr e (getEl_mem hge)
                have heid := getEl_id hge
                rw [← heid]
                omega
              split at hcontra
              · rename_i sk
                split at hcontra
                · split at hcontra
                  · rcases jsm_bind_error_iff.mp hcontra with hrec | ⟨st1, hrec, hpl⟩
                    · have hsx := hs e (getEl_mem hge)
                      unfold seekRankB at hsx
                      rw [hseek] at hsx
                      have hlt := of_decide_eq_true hsx
                      have hre' := hre e hge
                      refine ih st sk.id group hb hs hr (by omega) ?_ hrec
                      intro q hq
                      have hqid := getEl_id hq
                      rw [hqid]
                      omega
                    · exact hplace st1 _ (pres_setEntryRow _ _ _ _ _ hrec) hpl
                  · rw [jsm_pure_bind] at hcontra
                    exact hplace st _ Pres.same_state hcontra
                · rw [jsm_pure_bind] at hcontra
                  exact hplace st _ Pres.same_state hcontra
              · rw [jsm_pure_bind] at hcontra
                exact hplace st _ Pres.same_state hcontra

/-- The state the witness runs the guarded split/merge pair in. -/
def egGuardedState : PosState :=
  { entries := egGuardedPair, xLength := 10, axisStart := 0,
    grid := [List.replicate 10 false], groups := [], groupGrids := [] }

/-- A concrete decreasing rank for `egGuardedPair`. -/
def egRank : String → Nat := fun i => if i = "B" then 1 else 0

/-! ## The frame of an ungrouped, non-become-target entry -/

/-- The frame the C3 amendment tracks: the first entry matching `pid` has
its manual row `r0` and no group, and no entry's `become` points at
`pid`. -/
def PFrame (pid : String) (r0 : Int) (st : PosState) : Prop :=
  (∃ p, getEl st.entries pid = some p ∧ p.row = some r0 ∧ p.group = none)
  ∧ ∀ x ∈ st.entries, x.become ≠ some pid

theorem pframe_entries_eq {pid : String} {r0 : Int} {st st' : PosState}
    (he : st'.entries = st.entries) (hpf : PFrame pid r0 st) : PFrame pid r0 st' := by
  obtain ⟨⟨p, hp, h1, h2⟩, hnb⟩ := hpf
  refine ⟨⟨p, ?_, h1, h2⟩, ?_⟩
  · show getEl st'.entries pid = some p
    rw [he]
    exact hp
  · show ∀ x ∈ st'.entries, x.become ≠ some pid
    rw [he]
    exact hnb

theorem pframe_update_ne {pid : String} {r0 : Int} {st : PosState} {i : String}
    {f : Entry → Entry} (hne : i ≠ pid) (hrefk : ∀ x, refKey (f x) = refKey x)
    (hpf : PFrame pid r0 st) :
    PFrame pid r0 { st with entries := updateEntry st.entries i f } := by
  obtain ⟨⟨p, hp, h1, h2⟩, hnb⟩ := hpf
  constructor
  · refine ⟨p, ?_, h1, h2⟩
    show getEl (updateEntry st.entries i f) pid = some p
    rw [updateEntry_getEl_ne (id_of_refKey hrefk) (fun hcontra => hne hcontra.symm)]
    exact hp
  · show ∀ x ∈ updateEntry st.entries i f, x.become ≠ some pid
    exact NB_of_refk (updateEntry_map_of_key refKey hrefk) hnb

theorem entryBlock_entries {st : PosState} {gr : GridRef} {rowV s e2 : Int} {st' : PosState}
    (h : entryBlock st gr rowV s e2 = .ok st') : st'.entries = st.entries := by
  unfold entryBlock at h
  split at h
  · exact absurd h (by simp)
  · split at h
    · rw [Except.ok.injEq] at h
      subst h
      cases gr <;> rfl
    · rw [Except.ok.injEq] at h
      subst h
      rfl

theorem blockStep_entries {st : PosState} {id : String} {st' : PosState}
    (h : blockStep st id = .ok st') : st'.entries = st.entries := by
  unfold blockStep at h
  split at h
  · exact absurd h (by simp)
  · split at h
    · rw [jsm_bind_error] at h
      exact absurd h (by simp)
    · rcases jsm_bind_ok_iff.mp h with ⟨g2, hb, hp⟩
      have hp2 : (Except.ok { st with grid := g2 } : JsM PosState) = .ok st' := hp
      rw [Except.ok.injEq] at hp2
      subst hp2
      rfl

theorem pframe_setLineRow {pid : String} {r0 : Int} :
    ∀ (fuel : Nat) (st : PosState) (eId : String) (rp : RowProp) (gr : GridRef)
      (st' : PosState),
      PFrame pid r0 st → setLineRow fuel st eId rp gr = .ok st' → PFrame pid r0 st' := by
  intro fuel
  induction fuel with
  | zero =>
    intro st eId rp gr st' _ h
    exact absurd h (by simp [setLineRow])
  | succ n ih =>
    intro st eId rp gr st' hpf h
    unfold setLineRow at h
    split at h
    · exact absurd h (by simp)
    · rename_i e hge
      split at h
      · rename_i htruthy
        split at h
        · exact absurd h (by simp)
        · rename_i nxt hgn
          have hnxt : nxt.id ≠ pid := by
            have hnb := hpf.2 e (getEl_mem hge)
            have hid := getEl_id hgn
            intro hcontra
            rcases hbec : e.become with _ | s
            · rw [hbec] at htruthy
              exact absurd htruthy (by simp [strTruthy])
            · rw [hbec] at hid
              simp only [Option.getD_some] at hid
              apply hnb
              rw [hbec]
              exact congrArg some (hid.symm.trans hcontra)
          set stA := (if e.group ≠ nxt.group then
              { st with entries := updateEntry st.entries nxt.id (fun n2 => n2.setGroupFrom e) }
              else st) with hstA
          obtain ⟨stB, hlf, hrest⟩ := jsm_bind_ok_iff.mp h
          have hpfA : PFrame pid r0 stA := by
            rw [hstA]
            split
            · exact pframe_update_ne hnxt (fun x => refKey_setGroupFrom x e) hpf
            · exact hpf
          have hpfB : PFrame pid r0 stB := pframe_entries_eq (lineRowFree_entries hlf) hpfA
          have hpfC : PFrame pid r0
              { stB with entries := updateEntry stB.entries nxt.id (copyRP e rp) } :=
            pframe_update_ne hnxt (refKey_copyRP e rp) hpfB
          exact ih _ _ _ _ _ hpfC hrest
      · rw [Except.ok.injEq] at h
        subst h
        exact hpf

theorem pframe_placeEntry {pid : String} {r0 : Int} {st1 : PosState} {eId : String}
    {rp : RowProp} {gr : GridRef} {s e2 : Int} {near : Option Int} {st' : PosState}
    (hne : eId ≠ pid) (hpf : PFrame pid r0 st1)
    (h : placeEntry st1 eId rp gr s e2 near = .ok st') : PFrame pid r0 st' := by
  unfold placeEntry at h
  split at h
  · exact absurd h (by simp)
  · rename_i grid hgr
    simp only [] at h
    set fg := findGridSpace st1.xLength s e2 grid near with hfg
    set stg := setGridRef st1 gr fg.2 with hstg
    have hpfg : PFrame pid r0 stg := by
      refine pframe_entries_eq ?_ hpf
      rw [hstg]
      cases gr <;> rfl
    set stu := { stg with entries := updateEntry stg.entries eId (fun x => x.setRP rp fg.1) }
      with hstu
    have hpfu : PFrame pid r0 stu := by
      rw [hstu]
      exact pframe_update_ne hne (fun x => refKey_setRP x rp fg.1) hpfg
    obtain ⟨st3, hsl, hblk⟩ := jsm_bind_ok_iff.mp h
    have hpf3 : PFrame pid r0 st3 := pframe_setLineRow _ _ _ _ _ _ hpfu hsl
    exact pframe_entries_eq (entryBlock_entries hblk) hpf3

theorem pframe_setEntryRow {pid : String} {r0 : Int} :
    ∀ (fuel : Nat) (st : PosState) (eId : String) (group : Bool) (st' : PosState),
      PFrame pid r0 st → setEntryRow fuel st eId group = .ok st' → PFrame pid r0 st' := by
  intro fuel
  induction fuel with
  | zero =>
    intro st eId group st' _ h
    exact absurd h (by simp [setEntryRow])
  | succ n ih =>
    intro st eId group st' hpf h
    unfold setEntryRow at h
    split at h
    · exact absurd h (by simp)
    · rename_i e hge
      split at h
      · rw [Except.ok.injEq] at h
        subst h
        exact hpf
      · rename_i hc1
        simp only [] at h
        set rp := (if group then RowProp.groupRow else RowProp.row) with hrpdef
        set gr := (if group then GridRef.group (e.group.getD "") else GridRef.master) with hgrdef
        split at h
        · rw [Except.ok.injEq] at h
          subst h
          exact hpf
        · rename_i hc2
          have hne : eId ≠ pid := by
            intro heq
            subst heq
            obtain ⟨⟨p, hp, hprow, hpgrp⟩, _⟩ := hpf
            rw [hp] at hge
            rw [Option.some.injEq] at hge
            subst hge
            cases group with
            | true =>
              exact hc1 ⟨rfl, by rw [hpgrp]; simp [strTruthy]⟩
            | false =>
              apply hc2
              rw [hrpdef]
              show (p.getRP RowProp.row).isSome = true
              rw [show p.getRP RowProp.row = p.row from rfl, hprow]
              rfl
          rcases hcle : calcLineEnd st.entries (st.entries.length + 1) e with errv | lineEnd
          · rw [hcle, jsm_bind_error] at h
            exact absurd h (by simp)
          rw [hcle, jsm_bind_ok] at h
          rcases hseek : seekEl st.entries e with errv | seek
          · rw [hseek, jsm_bind_error] at h
            exact absurd h (by simp)
          rw [hseek, jsm_bind_ok] at h
          have hplace : ∀ (stx : PosState) (nr : Option Int), PFrame pid r0 stx →
              placeEntry stx eId rp gr (yearToGrid st.axisStart e.start)
                (yearToGrid st.axisStart lineEnd) nr = .ok st' → PFrame pid r0 st' :=
            fun stx nr hpx hpl => pframe_placeEntry hne hpx hpl
          split at h
          · rename_i sk
            split at h
            · split at h
              · obtain ⟨st1, hrec, hpl⟩ := jsm_bind_ok_iff.mp h
                exact hplace st1 _ (ih _ _ _ _ hpf hrec) hpl
              · rw [jsm_pure_bind] at h
                exact hplace st _ hpf h
            · rw [jsm_pure_bind] at h
              exact hplace st _ hpf h
          · rw [jsm_pure_bind] at h
            exact hplace st _ hpf h

theorem pframe_moveEntry {pid : String} {r0 : Int} {st : PosState} {eId : String}
    {rowV : Int} {st' : PosState} (hne : eId ≠ pid)
    (hpf : PFrame pid r0 st) (h : moveEntry st eId rowV = .ok st') : PFrame pid r0 st' := by
  unfold moveEntry at h
  split at h
  · exact absurd h (by simp)
  · rename_i e hge
    simp only [] at h
    rcases hcle : calcLineEnd st.entries (st.entries.length + 1) e with errv | lineEnd
    · rw [hcle, jsm_bind_error] at h
      exact absurd h (by simp)
    rw [hcle, jsm_bind_ok] at h
    split at h
    · rw [jsm_bind_error] at h
      exact absurd h (by simp)
    · rename_i oldRow hrow
      rcases hfree : freeGridSpace oldRow (yearToGrid st.axisStart e.start)
          (yearToGrid st.axisStart lineEnd) st.grid with errv | grid1
      · rw [hfree, jsm_bind_error] at h
        exact absurd h (by simp)
      rw [hfree, jsm_bind_ok] at h
      set stA : PosState := { st with grid := grid1 } with hstA
      have hpfA : PFrame pid r0 stA := pframe_entries_eq (by rw [hstA]) hpf
      set stB : PosState :=
        { stA with entries := updateEntry stA.entries eId (fun x => { x with row := some rowV }) }
        with hstB
      have hpfB : PFrame pid r0 stB := by
        rw [hstB]
        exact pframe_update_ne hne (fun x => rfl) hpfA
      obtain ⟨st3, hsl, h2⟩ := jsm_bind_ok_iff.mp h
      have hpf3 : PFrame pid r0 st3 := pframe_setLineRow _ _ _ _ _ _ hpfB hsl
      obtain ⟨grid2, hblk, hpure⟩ := jsm_bind_ok_iff.mp h2
      have hpure2 : (Except.ok { st3 with grid := grid2 } : JsM PosState) = .ok st' := hpure
      rw [Except.ok.injEq] at hpure2
      subst hpure2
      exact pframe_entries_eq rfl hpf3

theorem pframe_adjStep {pid : String} {r0 : Int} {eId : String} {st : PosState}
    {lId : String} {st' : PosState}
    (hg : ∀ q, getEl st.entries eId = some q → q.group.isSome = true)
    (hpf : PFrame pid r0 st) (h : adjStep eId st lId = .ok st') : PFrame pid r0 st' := by
  unfold adjStep at h
  split at h
  · rename_i e' link hge1 hgl1
    split at h
    · rename_i hgeq
      have hlne : lId ≠ pid := by
        intro hcontra
        subst hcontra
        obtain ⟨⟨p, hp, hprow, hpgrp⟩, _⟩ := hpf
        rw [hp] at hgl1
        rw [Option.some.injEq] at hgl1
        subst hgl1
        have hsome := hg e' hge1
        rw [← hgeq] at hsome
        rw [hpgrp] at hsome
        exact absurd hsome (by simp)
      split at h
      · rename_i er lr her hlr
        rcases hcl2 : calcLineEnd st.entries (st.entries.length + 1) link with errv | lEnd
        · rw [hcl2, jsm_bind_error] at h
          exact absurd h (by simp)
        rw [hcl2, jsm_bind_ok] at h
        rcases hcg2 : checkGridRange er lr (yearToGrid st.axisStart link.start)
            (yearToGrid st.axisStart lEnd) st.grid with errv | mv
        · rw [hcg2, jsm_bind_error] at h
          exact absurd h (by simp)
        rw [hcg2, jsm_bind_ok] at h
        split at h
        · exact pframe_moveEntry hlne hpf h
        · rw [Except.ok.injEq] at h
          subst h
          exact hpf
      all_goals exact absurd h (by simp)
    · rw [Except.ok.injEq] at h
      subst h
      exact hpf
  all_goals exact absurd h (by simp)

theorem pframe_adjust {pid : String} {r0 : Int} {st : PosState} {eId : String}
    {st' : PosState} (hne : eId ≠ pid)
    (hg : ∀ q, getEl st.entries eId = some q → q.group.isSome = true)
    (hpf : PFrame pid r0 st) (h : adjustConnectedEntry st eId = .ok st') :
    PFrame pid r0 st' := by
  unfold adjustConnectedEntry at h
  split at h
  · exact absurd h (by simp)
  · rename_i e hge
    simp only [] at h
    split at h
    · exact absurd h (by simp)
    · rename_i target htgt
      split at h
      · rcases hrg : requireRange (st.groupRange.find? (fun p => p.1 = e.group.getD ""))
            with errv | range
        · rw [hrg, jsm_bind_error] at h
          exact absurd h (by simp)
        rw [hrg, jsm_bind_ok] at h
        rcases hrr : requireRow e.row with errv | eRow
        · rw [hrr, jsm_bind_error] at h
          exact absurd h (by simp)
        rw [hrr, jsm_bind_ok] at h
        rcases hcle : calcLineEnd st.entries (st.entries.length + 1) e with errv | lineEnd
        · rw [hcle, jsm_bind_error] at h
          exact absurd h (by simp)
        rw [hcle, jsm_bind_ok] at h
        rcases hcgr : checkGridRange (adjTargetRow target eRow range) eRow
            (yearToGrid st.axisStart e.start) (yearToGrid st.axisStart lineEnd) st.grid
            with errv | newRow
        · rw [hcgr, jsm_bind_error] at h
          exact absurd h (by simp)
        rw [hcgr, jsm_bind_ok] at h
        split at h
        · rw [Except.ok.injEq] at h
          subst h
          exact hpf
        · obtain ⟨st1, hmv, hfold⟩ := jsm_bind_ok_iff.mp h
          have hq1 : PFrame pid r0 st1 ∧
              (∀ q, getEl st1.entries eId = some q → q.group.isSome = true) := by
            refine ⟨pframe_moveEntry hne hpf hmv, ?_⟩
            exact (pres_moveEntry (checkGridRange_some_bounds hcgr) hmv).getEl_groupSome hg
          have hfinal := foldlM_inv (adjStep eId)
            (fun stx => PFrame pid r0 stx ∧
              (∀ q, getEl stx.entries eId = some q → q.group.isSome = true))
            (fun stx b stx' hq hs =>
              ⟨pframe_adjStep hq.2 hq.1 hs, (pres_adjStep hs).getEl_groupSome hq.2⟩)
            _ _ _ hfold hq1
          exact hfinal.1
      · rw [Except.ok.injEq] at h
        subst h
        exact hpf

theorem foldlM_inv_sub {β : Type} (f : PosState → β → JsM PosState) (l0 : List β)
    (P : PosState → Prop)
    (hstep : ∀ st b st', b ∈ l0 → P st → f st b = .ok st' → P st') :
    ∀ (l : List β), (∀ b ∈ l, b ∈ l0) → ∀ (st st' : PosState),
      l.foldlM f st = .ok st' → P st → P st' := by
  intro l
  induction l with
  | nil =>
    intro _ st st' h hp
    rw [List.foldlM_nil, jsm_pure_eq_ok, Except.ok.injEq] at h
    subst h
    exact hp
  | cons b rest ih =>
    intro hsub st st' h hp
    rw [List.foldlM_cons] at h
    obtain ⟨st1, h1, h2⟩ := jsm_bind_ok_iff.mp h
    exact ih (fun b2 hb2 => hsub b2 (List.mem_cons_of_mem b hb2)) st1 st' h2
      (hstep st b st1 (hsub b (List.mem_cons_self b rest)) hp h1)

theorem foldlM_inv_mem {β : Type} (f : PosState → β → JsM PosState) (l0 : List β)
    (P : PosState → Prop)
    (hstep : ∀ st b st', b ∈ l0 → P st → f st b = .ok st' → P st') :
    ∀ (st st' : PosState), l0.foldlM f st = .ok st' → P st → P st' :=
  foldlM_inv_sub f l0 P hstep l0 (fun b hb => hb)

theorem map_refKey_of_pointwise {es : List Entry} {f : Entry → Entry}
    (hrefk : ∀ x, refKey (f x) = refKey x) :
    (es.map f).map refKey = es.map refKey := by
  rw [List.map_map]
  refine List.map_congr_left ?_
  intro x _
  exact hrefk x

theorem stackGroupsAux_frame {pid : String} {r0 : Int} {ids : List String} (gs : List String) :
    ∀ (prevName : Option String) (inc : Int) (st st' : PosState),
      stackGroupsAux prevName inc st gs = .ok st' →
      PFrame pid r0 st →
      (∀ i ∈ ids, ∀ q, getEl st.entries i = some q → q.group.isSome = true) →
      PFrame pid r0 st' ∧
        (∀ i ∈ ids, ∀ q, getEl st'.entries i = some q → q.group.isSome = true) := by
  induction gs with
  | nil =>
    intro prevName inc st st' h hpf hgs
    simp only [stackGroupsAux] at h
    rw [Except.ok.injEq] at h
    subst h
    exact ⟨hpf, hgs⟩
  | cons g rest ih =>
    intro prevName inc st st' h hpf hgs
    rcases hcg : lookupGG st g with _ | cg
    · simp only [stackGroupsAux, hcg, requireGrid, jsm_bind_error] at h
      exact absurd h (by simp)
    simp only [stackGroupsAux, hcg, requireGrid, jsm_pure_bind] at h
    rcases hsi : stackIncrement st prevName inc cg with errv | inc'
    · rw [hsi, jsm_bind_error] at h
      exact absurd h (by simp)
    rw [hsi, jsm_bind_ok] at h
    rcases hsr : stackRows st g inc' with errv | st1
    · rw [hsr, jsm_bind_error] at h
      exact absurd h (by simp)
    rw [hsr, jsm_bind_ok] at h
    have hsr2 := hsr
    unfold stackRows at hsr2
    by_cases hall :
        ((st.entries.filter (fun e => e.group = some g)).all (fun e => e.groupRow.isSome)) = true
    swap
    · rw [if_neg hall] at hsr2
      exact absurd hsr2 (by simp)
    rw [if_pos hall, Except.ok.injEq] at hsr2
    subst hsr2
    set f : Entry → Entry := fun e =>
      if e.group = some g then { e with row := some (e.groupRow.getD 0 + inc') } else e with hf
    have hid : ∀ x, (f x).id = x.id := by
      intro x
      by_cases hgx : x.group = some g <;> simp [hf, hgx]
    have hrefk : ∀ x, refKey (f x) = refKey x := by
      intro x
      by_cases hgx : x.group = some g <;> simp [hf, hgx, refKey]
    have hgrp : ∀ x, (f x).group = x.group := by
      intro x
      by_cases hgx : x.group = some g <;> simp [hf, hgx]
    set st2 : PosState :=
      { st with
        entries := st.entries.map f,
        groupRange := st.groupRange ++ [(g, (inc', inc' + (cg.length : Int)))] } with hst2
    have hents2 : st2.entries = st.entries.map f := rfl
    have hpf2 : PFrame pid r0 st2 := by
      obtain ⟨⟨p, hp, h1, h2⟩, hnb⟩ := hpf
      constructor
      · refine ⟨p, ?_, h1, h2⟩
        show getEl (st.entries.map f) pid = some p
        rw [getEl_map_of_id hid, hp, Option.map_some']
        have hfp : f p = p := by
          rw [hf]
          simp [h2]
        rw [hfp]
      · show ∀ x ∈ st.entries.map f, x.become ≠ some pid
        exact NB_of_refk (map_refKey_of_pointwise hrefk) hnb
    have hgs2 : ∀ i ∈ ids, ∀ q, getEl st2.entries i = some q → q.group.isSome = true := by
      intro i hi q hq
      rw [hents2, getEl_map_of_id hid] at hq
      rcases hgq : getEl st.entries i with _ | q0
      · rw [hgq] at hq
        exact absurd hq (by simp)
      · rw [hgq, Option.map_some', Option.some.injEq] at hq
        subst hq
        rw [hgrp]
        exact hgs i hi q0 hgq
    exact ih _ _ _ _ h hpf2 hgs2

/-- `PFrame` through the whole `calculate` run, provided no grouped id is
`pid` and every grouped id's first match is actually grouped. -/
theorem pframe_calculate {pid : String} {r0 : Int} {st st' : PosState}
    (h : calculate st = .ok st')
    (hpf : PFrame pid r0 st)
    (hgids : ∀ i ∈ (st.entries.filter (fun e => strTruthy e.group)).map (·.id),
      i ≠ pid ∧ (∀ q, getEl st.entries i = some q → q.group.isSome = true)) :
    PFrame pid r0 st' := by
  unfold calculate at h
  simp only [] at h
  obtain ⟨stA, hA, h⟩ := jsm_bind_ok_iff.mp h
  obtain ⟨stB, hB, h⟩ := jsm_bind_ok_iff.mp h
  obtain ⟨g', hG, h⟩ := jsm_bind_ok_iff.mp h
  obtain ⟨stD, hC, h⟩ := jsm_bind_ok_iff.mp h
  obtain ⟨stE, hD, h⟩ := jsm_bind_ok_iff.mp h
  obtain ⟨stF, hF, hpure⟩ := jsm_bind_ok_iff.mp h
  have hpure2 : (Except.ok stF : JsM PosState) = .ok st' := hpure
  rw [Except.ok.injEq] at hpure2
  subst hpure2
  set grouped := (st.entries.filter (fun e => strTruthy e.group)).map (·.id) with hgrouped
  have hQ0 : PFrame pid r0 { st with groupRange := [] } ∧
      (∀ i ∈ grouped, ∀ q, getEl ({ st with groupRange := [] } : PosState).entries i = some q →
        q.group.isSome = true) :=
    ⟨pframe_entries_eq rfl hpf, fun i hi q hq => (hgids i hi).2 q hq⟩
  have hQA : PFrame pid r0 stA ∧
      (∀ i ∈ grouped, ∀ q, getEl stA.entries i = some q → q.group.isSome = true) := by
    refine foldlM_inv _ (fun stx => PFrame pid r0 stx ∧
      (∀ i ∈ grouped, ∀ q, getEl stx.entries i = some q → q.group.isSome = true))
      ?_ _ _ _ hA hQ0
    intro stx b stx' hq hs
    exact ⟨pframe_setEntryRow _ _ _ _ _ hq.1 hs,
      fun i hi => (pres_setEntryRow _ _ _ _ _ hs).getEl_groupSome (hq.2 i hi)⟩
  have hB' : stackGroupsAux none 0 stA stA.groups = .ok stB := hB
  have hQB := stackGroupsAux_frame stA.groups none 0 stA stB hB' hQA.1 hQA.2
  have hQC : PFrame pid r0 { stB with grid := g' } ∧
      (∀ i ∈ grouped, ∀ q, getEl ({ stB with grid := g' } : PosState).entries i = some q →
        q.group.isSome = true) :=
    ⟨pframe_entries_eq rfl hQB.1, fun i hi q hq => hQB.2 i hi q hq⟩
  have hQD : PFrame pid r0 stD ∧
      (∀ i ∈ grouped, ∀ q, getEl stD.entries i = some q → q.group.isSome = true) := by
    refine foldlM_inv _ (fun stx => PFrame pid r0 stx ∧
      (∀ i ∈ grouped, ∀ q, getEl stx.entries i = some q → q.group.isSome = true))
      ?_ _ _ _ hC hQC
    intro stx b stx' hq hs
    have hents := blockStep_entries hs
    exact ⟨pframe_entries_eq hents hq.1, fun i hi q hqq => hq.2 i hi q (by rw [← hents]; exact hqq)⟩
  have hQE : PFrame pid r0 stE ∧
      (∀ i ∈ grouped, ∀ q, getEl stE.entries i = some q → q.group.isSome = true) := by
    refine foldlM_inv_mem _ grouped (fun stx => PFrame pid r0 stx ∧
      (∀ i ∈ grouped, ∀ q, getEl stx.entries i = some q → q.group.isSome = true))
      ?_ _ _ hD hQD
    intro stx b stx' hb hq hs
    have hstep : PFrame pid r0 stx' := by
      unfold repairStep at hs
      split at hs
      · exact absurd hs (by simp)
      · split at hs
        · exact pframe_adjust (hgids b hb).1 (hq.2 b hb) hq.1 hs
        · rw [Except.ok.injEq] at hs
          subst hs
          exact hq.1
    exact ⟨hstep, fun i hi => (pres_repairStep hs).getEl_groupSome (hq.2 i hi)⟩
  have hQF : PFrame pid r0 stF := by
    refine (foldlM_inv _ (fun stx => PFrame pid r0 stx) ?_ _ _ _ hF hQE.1)
    intro stx b stx' hq hs
    exact pframe_setEntryRow _ _ _ _ _ hq hs
  exact hQF

/-! ## Group-free runs: nothing ever writes a `data-group` -/

/-- No entry carries a group. -/
def NoGroups (st : PosState) : Prop := ∀ x ∈ st.entries, x.group = none

theorem nogroups_entries_eq {st st' : PosState} (he : st'.entries = st.entries)
    (h : NoGroups st) : NoGroups st' := by
  intro x hx
  rw [he] at hx
  exact h x hx

theorem mem_updateEntry_cases {es : List Entry} {i : String} {f : Entry → Entry} {x : Entry}
    (hx : x ∈ updateEntry es i f) : ∃ y ∈ es, x = y ∨ x = f y := by
  obtain ⟨k, hk⟩ := List.get?_of_mem hx
  obtain ⟨y, hky, hcase⟩ := updateEntry_get?_cases es i f k hk
  exact ⟨y, List.get?_mem hky, hcase⟩

theorem nogroups_update {st : PosState} {i : String} {f : Entry → Entry}
    (hf : ∀ x, (f x).group = x.group) (h : NoGroups st) :
    NoGroups { st with entries := updateEntry st.entries i f } := by
  intro x hx
  obtain ⟨y, hy, hc⟩ := mem_updateEntry_cases hx
  rcases hc with h1 | h1
  · rw [h1]
    exact h y hy
  · rw [h1, hf]
    exact h y hy

theorem copyRP_group (e : Entry) (rp : RowProp) (x : Entry) :
    (copyRP e rp x).group = x.group := by
  unfold copyRP
  split
  · cases rp <;> rfl
  · rfl

theorem setRP_group (x : Entry) (rp : RowProp) (v : Int) : (x.setRP rp v).group = x.group := by
  cases rp <;> rfl

theorem nogroups_setLineRow :
    ∀ (fuel : Nat) (st : PosState) (eId : String) (rp : RowProp) (gr : GridRef)
      (st' : PosState),
      NoGroups st → setLineRow fuel st eId rp gr = .ok st' → NoGroups st' := by
  intro fuel
  induction fuel with
  | zero =>
    intro st eId rp gr st' _ h
    exact absurd h (by simp [setLineRow])
  | succ n ih =>
    intro st eId rp gr st' hng h
    unfold setLineRow at h
    split at h
    · exact absurd h (by simp)
    · rename_i e hge
      split at h
      · rename_i htruthy
        split at h
        · exact absurd h (by simp)
        · rename_i nxt hgn
          set stA := (if e.group ≠ nxt.group then
              { st with entries := updateEntry st.entries nxt.id (fun n2 => n2.setGroupFrom e) }
              else st) with hstA
          obtain ⟨stB, hlf, hrest⟩ := jsm_bind_ok_iff.mp h
          have hngA : NoGroups stA := by
            rw [hstA]
            split
            · rename_i hcond
              exact absurd ((hng e (getEl_mem hge)).trans (hng nxt (getEl_mem hgn)).symm) hcond
            · exact hng
          have hngB : NoGroups stB := nogroups_entries_eq (lineRowFree_entries hlf) hngA
          have hngC : NoGroups
              { stB with entries := updateEntry stB.entries nxt.id (copyRP e rp) } :=
            nogroups_update (copyRP_group e rp) hngB
          exact ih _ _ _ _ _ hngC hrest
      · rw [Except.ok.injEq] at h
        subst h
        exact hng

theorem nogroups_placeEntry {st1 : PosState} {eId : String} {rp : RowProp} {gr : GridRef}
    {s e2 : Int} {near : Option Int} {st' : PosState}
    (hng : NoGroups st1) (h : placeEntry st1 eId rp gr s e2 near = .ok st') : NoGroups st' := by
  unfold placeEntry at h
  split at h
  · exact absurd h (by simp)
  · rename_i grid hgr
    simp only [] at h
    set fg := findGridSpace st1.xLength s e2 grid near with hfg
    set stg := setGridRef st1 gr fg.2 with hstg
    have hngg : NoGroups stg := by
      refine nogroups_entries_eq ?_ hng
      rw [hstg]
      cases gr <;> rfl
    set stu := { stg with entries := updateEntry stg.entries eId (fun x => x.setRP rp fg.1) }
      with hstu
    have hngu : NoGroups stu := by
      rw [hstu]
      exact nogroups_update (fun x => setRP_group x rp fg.1) hngg
    obtain ⟨st3, hsl, hblk⟩ := jsm_bind_ok_iff.mp h
    have hng3 : NoGroups st3 := nogroups_setLineRow _ _ _ _ _ _ hngu hsl
    exact nogroups_entries_eq (entryBlock_entries hblk) hng3

theorem nogroups_setEntryRow :
    ∀ (fuel : Nat) (st : PosState) (eId : String) (group : Bool) (st' : PosState),
      NoGroups st → setEntryRow fuel st eId group = .ok st' → NoGroups st' := by
  intro fuel
  induction fuel with
  | zero =>
    intro st eId group st' _ h
    exact absurd h (by simp [setEntryRow])
  | succ n ih =>
    intro st eId group st' hng h
    unfold setEntryRow at h
    split at h
    · exact absurd h (by simp)
    · rename_i e hge
      split at h
      · rw [Except.ok.injEq] at h
        subst h
        exact hng
      · simp only [] at h
        set rp := (if group then RowProp.groupRow else RowProp.row) with hrpdef
        set gr := (if group then GridRef.group (e.group.getD "") else GridRef.master) with hgrdef
        split at h
        · rw [Except.ok.injEq] at h
          subst h
          exact hng
        · rcases hcle : calcLineEnd st.entries (st.entries.length + 1) e with errv | lineEnd
          · rw [hcle, jsm_bind_error] at h
            exact absurd h (by simp)
          rw [hcle, jsm_bind_ok] at h
          rcases hseek : seekEl st.entries e with errv | seek
          · rw [hseek, jsm_bind_error] at h
            exact absurd h (by simp)
          rw [hseek, jsm_bind_ok] at h
          have hplace : ∀ (stx : PosState) (nr : Option Int), NoGroups stx →
              placeEntry stx eId rp gr (yearToGrid st.axisStart e.start)
                (yearToGrid st.axisStart lineEnd) nr = .ok st' → NoGroups st' :=
            fun stx nr hpx hpl => nogroups_placeEntry hpx hpl
          split at h
          · rename_i sk
            split at h
            · split at h
              · obtain ⟨st1, hrec, hpl⟩ := jsm_bind_ok_iff.mp h
                exact hplace st1 _ (ih _ _ _ _ hng hrec) hpl
              · rw [jsm_pure_bind] at h
                exact hplace st _ hng h
            · rw [jsm_pure_bind] at h
              exact hplace st _ hng h
          · rw [jsm_pure_bind] at h
            exact hplace st _ hng h

/-! ## After a group-free run every id has its row set -/

theorem placeEntry_sets_row {st1 : PosState} {eId : String} {gr : GridRef} {s e2 : Int}
    {near : Option Int} {st' : PosState}
    (h : placeEntry st1 eId RowProp.row gr s e2 near = .ok st')
    (hsome : (getEl st1.entries eId).isSome = true) :
    ∃ q, getEl st'.entries eId = some q ∧ q.row.isSome = true := by
  unfold placeEntry at h
  split at h
  · exact absurd h (by simp)
  · rename_i grid hgr
    simp only [] at h
    set fg := findGridSpace st1.xLength s e2 grid near with hfg
    set stg := setGridRef st1 gr fg.2 with hstg
    obtain ⟨e0, he0⟩ := Option.isSome_iff_exists.mp hsome
    have hstgents : stg.entries = st1.entries := by
      rw [hstg]
      cases gr <;> rfl
    have hstg0 : getEl stg.entries eId = some e0 := by
      rw [hstgents]
      exact he0
    set stu := { stg with entries := updateEntry stg.entries eId (fun x => x.setRP RowProp.row fg.1) } with hstu
    have hstu0 : getEl stu.entries eId = some (e0.setRP RowProp.row fg.1) :=
      updateEntry_getEl_self _ (fun x => rfl) hstg0
    have hstu0s : (e0.setRP RowProp.row fg.1).row.isSome = true := rfl
    obtain ⟨st3, hsl, hblk⟩ := jsm_bind_ok_iff.mp h
    have hpres3 : Pres stu st3 := pres_setLineRow _ _ _ _ _ _ hsl
    obtain ⟨q3, hq3, hq3s⟩ := hpres3.getEl_rowSome hstu0 hstu0s
    refine ⟨q3, ?_, hq3s⟩
    rw [entryBlock_entries hblk]
    exact hq3

theorem setEntryRow_sets_row :
    ∀ (fuel : Nat) (st : PosState) (eId : String) (st' : PosState),
      setEntryRow fuel st eId false = .ok st' →
      (getEl st.entries eId).isSome = true →
      ∃ q, getEl st'.entries eId = some q ∧ q.row.isSome = true := by
  intro fuel
  induction fuel with
  | zero =>
    intro st eId st' h _
    exact absurd h (by simp [setEntryRow])
  | succ n ih =>
    intro st eId st' h hsome
    unfold setEntryRow at h
    split at h
    · exact absurd h (by simp)
    · rename_i e hge
      split at h
      · rename_i hcond
        exact absurd hcond.1 (by simp)
      · simp only [] at h
        set rp := ((if false = true then RowProp.groupRow else RowProp.row) : RowProp)
          with hrpdef
        set gr := ((if false = true then GridRef.group (e.group.getD "") else GridRef.master)
          : GridRef) with hgrdef
        have hrpr : rp = RowProp.row := by
          rw [hrpdef]
          simp
        split at h
        · rename_i hc2
          rw [Except.ok.injEq] at h
          subst h
          rw [hrpr] at hc2
          exact ⟨e, hge, hc2⟩
        · rcases hcle : calcLineEnd st.entries (st.entries.length + 1) e with errv | lineEnd
          · rw [hcle, jsm_bind_error] at h
            exact absurd h (by simp)
          rw [hcle, jsm_bind_ok] at h
          rcases hseek : seekEl st.entries e with errv | seek
          · rw [hseek, jsm_bind_error] at h
            exact absurd h (by simp)
          rw [hseek, jsm_bind_ok] at h
          rw [hrpr] at h
          have hplace : ∀ (stx : PosState) (nr : Option Int),
              (getEl stx.entries eId).isSome = true →
              placeEntry stx eId RowProp.row gr (yearToGrid st.axisStart e.start)
                (yearToGrid st.axisStart lineEnd) nr = .ok st' →
              ∃ q, getEl st'.entries eId = some q ∧ q.row.isSome = true :=
            fun stx nr hsx hpl => placeEntry_sets_row hpl hsx
          split at h
          · rename_i sk
            split at h
            · split at h
              · obtain ⟨st1, hrec, hpl⟩ := jsm_bind_ok_iff.mp h
                have hpres1 : Pres st st1 := pres_setEntryRow _ _ _ _ _ hrec
                obtain ⟨e', he', _, _⟩ := hpres1.getEl_rel hge
                refine hplace st1 _ ?_ hpl
                rw [he']
                rfl
              · rw [jsm_pure_bind] at h
                exact hplace st _ hsome h
            · rw [jsm_pure_bind] at h
              exact hplace st _ hsome h
          · rw [jsm_pure_bind] at h
            exact hplace st _ hsome h

theorem foldSetsRows (ids : List String) :
    ∀ (st st' : PosState),
      ids.foldlM (fun st2 id => setEntryRow (st2.entries.length + 1) st2 id false) st
        = .ok st' →
      (∀ i ∈ ids, (getEl st.entries i).isSome = true) →
      ∀ i ∈ ids, ∃ q, getEl st'.entries i = some q ∧ q.row.isSome = true := by
  induction ids with
  | nil =>
    intro st st' _ _ i hi
    exact absurd hi (List.not_mem_nil i)
  | cons b rest ih =>
    intro st st' h hs i hi
    rw [List.foldlM_cons] at h
    obtain ⟨st1, h1, h2⟩ := jsm_bind_ok_iff.mp h
    have hpres1 : Pres st st1 := pres_setEntryRow _ _ _ _ _ h1
    rcases List.mem_cons.mp hi with hib | hir
    · subst hib
      have hpresR : Pres st1 st' :=
        pres_foldlM _ (fun a b2 c hd => pres_setEntryRow _ _ _ _ _ hd) _ _ _ h2
      obtain ⟨q1, hq1, hq1s⟩ := setEntryRow_sets_row _ _ _ _ h1 (hs i (List.mem_cons_self i rest))
      exact hpresR.getEl_rowSome hq1 hq1s
    · refine ih st1 st' h2 ?_ i hir
      intro j hj
      obtain ⟨qj, hqj⟩ := Option.isSome_iff_exists.mp (hs j (List.mem_cons_of_mem b hj))
      obtain ⟨qj', hqj', _, _⟩ := hpres1.getEl_rel hqj
      rw [hqj']
      rfl

theorem newDiagramPositioner_axis_ok {entries : List Entry} {startY endY : Int}
    {st0 : PosState} (h : newDiagramPositioner entries startY endY = .ok st0) :
    ¬ (endY - startY < 0) ∧ ¬ (getRowCount entries < 0) := by
  unfold newDiagramPositioner at h
  simp only [] at h
  rcases hcg : createGrid (endY - startY) (getRowCount entries) with errv | grid
  · rw [hcg, jsm_bind_error] at h
    exact absurd h (by simp)
  · unfold createGrid at hcg
    split at hcg
    · exact absurd hcg (by simp)
    · rename_i hcond
      rw [not_or] at hcond
      exact hcond

theorem listGroups_nil {es : List Entry} (h : ∀ x ∈ es, x.group = none) :
    listGroups es = [] := by
  unfold listGroups
  have hgen : ∀ (es2 : List Entry) (acc : List String), (∀ x ∈ es2, x.group = none) →
      es2.foldl (fun acc e => match e.group with
        | some g => if g ≠ "" ∧ ¬ acc.contains g then acc ++ [g] else acc
        | none => acc) acc = acc := by
    intro es2
    induction es2 with
    | nil =>
      intro acc _
      rfl
    | cons a rest ih =>
      intro acc h2
      rw [List.foldl_cons, h2 a (List.mem_cons_self a rest)]
      exact ih acc (fun x hx => h2 x (List.mem_cons_of_mem a hx))
  exact hgen es [] h

theorem filter_truthy_nil {es : List Entry} (h : ∀ x ∈ es, x.group = none) :
    es.filter (fun e => strTruthy e.group) = [] := by
  rw [List.filter_eq_nil]
  intro a ha
  rw [h a ha]
  simp [strTruthy]

theorem filter_untruthy_self {es : List Entry} (h : ∀ x ∈ es, x.group = none) :
    es.filter (fun e => ¬ strTruthy e.group) = es := by
  rw [List.filter_eq_self]
  intro a ha
  rw [h a ha]
  simp [strTruthy]

theorem getRowCount_nonneg {es : List Entry}
    (h : ∀ x ∈ es, ∀ r, x.row = some r → 0 ≤ r) : 0 ≤ getRowCount es := by
  unfold getRowCount
  rcases hsr : (es.filter (fun e => e.row.isSome)).filterMap (·.row) with _ | ⟨r0, rs⟩
  · rw [hsr]
    show (0 : Int) ≤ 1
    norm_num
  · rw [hsr]
    show (0 : Int) ≤ rs.foldl max r0 + 1
    have hr0 : r0 ∈ (es.filter (fun e => e.row.isSome)).filterMap (·.row) := by
      rw [hsr]
      exact List.mem_cons_self r0 rs
    rw [List.mem_filterMap] at hr0
    obtain ⟨e, hef, her⟩ := hr0
    rw [List.mem_filter] at hef
    have h0 : 0 ≤ r0 := h e hef.1 r0 her
    have := (le_foldl_max rs r0).1
    omega

theorem map_id_of_refk {es es' : List Entry} (h : es'.map refKey = es.map refKey) :
    es'.map (fun e => e.id) = es.map (fun e => e.id) := by
  have h1 : (es'.map refKey).map Prod.fst = (es.map refKey).map Prod.fst := by
    rw [h]
  rw [List.map_map, List.map_map] at h1
  exact h1

theorem setEntryRow_row_set {st : PosState} {eId : String} {q : Entry} (fuel : Nat)
    (hq : getEl st.entries eId = some q) (hrow : q.row.isSome = true) :
    setEntryRow (fuel + 1) st eId false = .ok st := by
  unfold setEntryRow
  split
  · rename_i heq
    rw [hq] at heq
    exact absurd heq (by simp)
  · rename_i e heq
    rw [hq] at heq
    rw [Option.some.injEq] at heq
    subst heq
    split
    · rfl
    · simp only [show (false = true) = False from by simp, if_false]
      split
      · rfl
      · rename_i hc2
        exact absurd hrow hc2

theorem foldlM_id {β : Type} (f : PosState → β → JsM PosState) (st : PosState) :
    ∀ (l : List β), (∀ b ∈ l, f st b = .ok st) → l.foldlM f st = .ok st := by
  intro l
  induction l with
  | nil =>
    intro _
    rfl
  | cons b rest ih =>
    intro hsteps
    rw [List.foldlM_cons, hsteps b (List.mem_cons_self b rest), jsm_bind_ok]
    exact ih (fun b2 hb2 => hsteps b2 (List.mem_cons_of_mem b hb2))

/-- The state the constructor builds for a group-free entry list. -/
def freshPositioner (es : List Entry) (startY endY : Int) : PosState :=
  { entries := es,
    xLength := (endY - startY).toNat,
    axisStart := startY,
    grid := List.replicate (getRowCount es).toNat (freshRow (endY - startY).toNat),
    groups := [],
    groupGrids := [] }

theorem newDiagramPositioner_nogroups {es : List Entry} {startY endY : Int}
    (hng : ∀ x ∈ es, x.group = none)
    (hx : ¬ (endY - startY < 0)) (hrc : ¬ (getRowCount es < 0)) :
    newDiagramPositioner es startY endY = .ok (freshPositioner es startY endY) := by
  unfold newDiagramPositioner
  simp only []
  have hcg : createGrid (endY - startY) (getRowCount es) = .ok
      (List.replicate (getRowCount es).toNat (freshRow (endY - startY).toNat)) := by
    unfold createGrid
    rw [if_neg (not_or.mpr ⟨hx, hrc⟩)]
  rw [hcg, jsm_bind_ok, listGroups_nil hng, List.foldlM_nil, jsm_pure_bind]
  rfl

/-- The state a group-free, all-rows-set `calculate` run ends in: entries
unchanged, master grid grown to the row count. -/
def grownState (st : PosState) : PosState :=
  { st with
    groupRange := [],
    grid := st.grid ++
      List.replicate (getRowCount st.entries + 1 - st.grid.length).toNat
        (freshRow st.xLength) }

/-- A group-free state whose rows are all set runs `calculate` as a no-op
on the entries: every phase is empty or early-returns, and only the master
grid grows by the `_addGridRowsUntil` step. -/
theorem calculate_nogroups {st : PosState}
    (hng : NoGroups st)
    (hgroups : st.groups = [])
    (hars : ∀ x ∈ st.entries, ∃ q, getEl st.entries x.id = some q ∧ q.row.isSome = true)
    (hrc : ¬ ((st.grid.length : Int) - 1 > getRowCount st.entries)) :
    calculate st = .ok (grownState st) := by
  have hfilnil : st.entries.filter (fun e => strTruthy e.group) = [] := filter_truthy_nil hng
  have hfilself : st.entries.filter (fun e => ¬ strTruthy e.group) = st.entries :=
    filter_untruthy_self hng
  unfold calculate
  simp only [hfilnil, hfilself, List.map_nil, List.foldlM_nil, jsm_pure_bind]
  have hsg : stackGroups ({ st with groupRange := [] } : PosState)
      = .ok ({ st with groupRange := [] } : PosState) := by
    unfold stackGroups
    rw [show ({ st with groupRange := [] } : PosState).groups = ([] : List String)
      from hgroups]
    simp only [stackGroupsAux]
  rw [hsg, jsm_bind_ok]
  have hag : addGridRowsUntil st.xLength st.grid (getRowCount st.entries) = .ok
      (st.grid ++
        List.replicate (getRowCount st.entries + 1 - st.grid.length).toNat
          (freshRow st.xLength)) := by
    unfold addGridRowsUntil
    rw [if_neg hrc]
  rw [hag, jsm_bind_ok]
  have hsteps : ∀ b ∈ st.entries.map (fun e => e.id),
      (fun st2 id => setEntryRow (st2.entries.length + 1) st2 id false) (grownState st) b
      = .ok (grownState st) := by
    intro b hb
    rw [List.mem_map] at hb
    obtain ⟨x, hx, hxb⟩ := hb
    obtain ⟨q, hq, hqs⟩ := hars x hx
    subst hxb
    exact setEntryRow_row_set _ hq hqs
  rw [foldlM_id _ _ _ hsteps, jsm_bind_ok]
  rfl

/-! ## The spec's description of group stacking (for comparison with
`stackGroups`) -/

/-- Modelled from the spec's words (§4.2 step 3), generalised to a running
state: the offsets of the groups still to stack, given the running
`increment` and the grid of the previously stacked group.  The head offset
is `increment` minus the overlap with the previous grid (just `increment`
when there is no previous group), and later offsets continue from
`offset + height`. -/
def specStackOffsets (increment : Int) (prev : Option DiagramGrid) :
    List DiagramGrid → List Int
  | [] => []
  | g :: rest =>
    let off : Int :=
      match prev with
      | none => increment
      | some p => increment - getGridOverlap p g
    off :: specStackOffsets (off + (g.length : Int)) (some g) rest

/-- Modelled from the spec's words: the first group's offset is `0`, and
each subsequent group's offset is
`previousOffset + previousGroupHeight − overlap(previousGrid, thisGrid)`. -/
def specGroupOffsets (grids : List DiagramGrid) : List Int :=
  specStackOffsets 0 none grids

/-- The `groupRange` records the stacking step appends: group `g` with
offset `off` and height `len` becomes `(g, (off, off + len))`. -/
def specStackRanges : List String → List Int → List Nat → List (String × (Int × Int))
  | g :: gs, off :: offs, len :: lens =>
    (g, (off, off + (len : Int))) :: specStackRanges gs offs lens
  | _, _, _ => []

/-- The stacking loop, characterised against the spec's offsets: on
success the recorded `groupRange`s carry exactly the spec's offsets, an
entry of none of the groups is untouched, and an entry of group `i` gets
`row = groupRow + offsetᵢ`. -/
theorem stackGroupsAux_spec (gs : List String) :
    ∀ (prevName : Option String) (inc : Int) (st st' : PosState) (grids : List DiagramGrid),
      stackGroupsAux prevName inc st gs = .ok st' →
      gs.mapM (lookupGG st) = some grids →
      gs.Nodup →
      (st'.groupRange = st.groupRange ++
        specStackRanges gs (specStackOffsets inc (prevName.bind (lookupGG st)) grids)
          (grids.map List.length))
      ∧ (∀ k e, st.entries.get? k = some e → (∀ g, g ∈ gs → e.group ≠ some g) →
          st'.entries.get? k = some e)
      ∧ (∀ k e i g, st.entries.get? k = some e → gs.get? i = some g → e.group = some g →
          ∃ gr, e.groupRow = some gr ∧
            st'.entries.get? k = some { e with row := some (gr +
              (specStackOffsets inc (prevName.bind (lookupGG st)) grids).getD i 0) }) := by
  induction gs with
  | nil =>
    intro prevName inc st st' grids h hm hnd
    simp only [stackGroupsAux] at h
    rw [Except.ok.injEq] at h
    subst h
    simp only [List.mapM_nil, pure, Option.some.injEq] at hm
    subst hm
    refine ⟨by simp [specStackRanges], fun k e hk _ => hk, fun k e i g hk hi => ?_⟩
    simp at hi
  | cons g rest ih =>
    intro prevName inc st st' grids h hm hnd
    rcases hcg : lookupGG st g with _ | cg
    · rw [List.mapM_cons, hcg] at hm
      simp at hm
    rcases hrest : rest.mapM (lookupGG st) with _ | grids'
    · rw [List.mapM_cons, hcg, hrest] at hm
      simp at hm
    rw [List.mapM_cons, hcg, hrest] at hm
    simp only [Option.bind_some, Option.bind_eq_bind, Option.some_bind, pure,
      Option.some.injEq] at hm
    subst hm
    simp only [stackGroupsAux, hcg, requireGrid, jsm_pure_bind] at h
    rcases hsi : stackIncrement st prevName inc cg with errv | inc'
    · rw [hsi, jsm_bind_error] at h
      exact absurd h (by simp)
    rw [hsi, jsm_bind_ok] at h
    have hoff : (match prevName.bind (lookupGG st) with
        | none => inc
        | some pg => inc - getGridOverlap pg cg) = inc' := by
      cases prevName with
      | none =>
        simp only [stackIncrement, jsm_pure_eq_ok] at hsi
        rw [Except.ok.injEq] at hsi
        simpa using hsi
      | some p =>
        rcases hp : lookupGG st p with _ | pg
        · simp only [stackIncrement, hp] at hsi
          exact absurd hsi (by simp)
        · simp only [stackIncrement, hp, jsm_pure_eq_ok] at hsi
          rw [Except.ok.injEq] at hsi
          simp only [Option.bind_eq_bind, Option.some_bind, hp]
          exact hsi
    set f : Entry → Entry := fun e =>
      if e.group = some g then { e with row := some (e.groupRow.getD 0 + inc') } else e with hf
    rcases hsr : stackRows st g inc' with errv | st1
    · rw [hsr, jsm_bind_error] at h
      exact absurd h (by simp)
    rw [hsr, jsm_bind_ok] at h
    have hsr2 := hsr
    unfold stackRows at hsr2
    by_cases hall :
        ((st.entries.filter (fun e => e.group = some g)).all (fun e => e.groupRow.isSome)) = true
    swap
    · rw [if_neg hall] at hsr2
      exact absurd hsr2 (by simp)
    rw [if_pos hall, Except.ok.injEq] at hsr2
    subst hsr2
    set st2 : PosState :=
      { st with
        entries := st.entries.map f,
        groupRange := st.groupRange ++ [(g, (inc', inc' + (cg.length : Int)))] } with hst2
    have h2 : stackGroupsAux (some g) (inc' + (cg.length : Int)) st2 rest = .ok st' := h
    have hm2 : rest.mapM (lookupGG st2) = some grids' := hrest
    obtain ⟨ihr, ihu, ihm⟩ := ih (some g) (inc' + (cg.length : Int)) st2 st' grids' h2 hm2
      hnd.of_cons
    have hcg2 : lookupGG st2 g = some cg := hcg
    simp only [Option.bind_eq_bind, Option.some_bind, hcg2] at ihr ihu ihm
    have hoffs : specStackOffsets inc (prevName.bind (lookupGG st)) (cg :: grids')
        = inc' :: specStackOffsets (inc' + (cg.length : Int)) (some cg) grids' := by
      simp only [specStackOffsets]
      rw [hoff]
    have hgnotrest : g ∉ rest := by
      have hx := hnd
      rw [List.nodup_cons] at hx
      exact hx.1
    refine ⟨?_, ?_, ?_⟩
    · rw [ihr, hoffs]
      simp only [hst2, specStackRanges, List.map_cons, List.append_assoc,
        List.singleton_append]
    · intro k e hk hung
      have hne : ¬ (e.group = some g) := fun hcontra => hung g (List.mem_cons_self g rest) hcontra
      have hfe : f e = e := by
        simp only [hf]
        exact if_neg hne
      have hk2 : (List.map f st.entries).get? k = some e := by
        rw [List.get?_map, hk, Option.map_some', hfe]
      exact ihu k e hk2 (fun g2 hg2 => hung g2 (List.mem_cons_of_mem g hg2))
    · intro k e i gq hk hi hgrp
      rw [hoffs]
      cases i with
      | zero =>
        simp only [List.get?] at hi
        rw [Option.some.injEq] at hi
        subst hi
        have hmem : e ∈ st.entries.filter (fun e2 => e2.group = some g) := by
          rw [List.mem_filter]
          exact ⟨List.get?_mem hk, by simp [hgrp]⟩
        have hsome : e.groupRow.isSome := by
          rw [List.all_eq_true] at hall
          exact hall e hmem
        obtain ⟨gr, hgr⟩ := Option.isSome_iff_exists.mp hsome
        refine ⟨gr, hgr, ?_⟩
        have hfe : f e = { e with row := some (gr + inc') } := by
          simp only [hf, hgrp, if_pos]
          rw [hgr]
          simp [Int.add_comm]
        have hk2 : (List.map f st.entries).get? k = some { e with row := some (gr + inc') } := by
          rw [List.get?_map, hk, Option.map_some', hfe]
        have hfinal := ihu k { e with row := some (gr + inc') } hk2 (fun g2 hg2 => by
          simp only []
          intro hcontra
          rw [hgrp] at hcontra
          rw [Option.some.injEq] at hcontra
          subst hcontra
          exact hgnotrest hg2)
        simpa using hfinal
      | succ i2 =>
        have hi2 : rest.get? i2 = some gq := hi
        have hne : ¬ e.group = some g := by
          rw [hgrp]
          intro hcontra
          rw [Option.some.injEq] at hcontra
          subst hcontra
          exact hgnotrest (List.get?_mem hi2)
        have hfe : f e = e := by
          simp only [hf]
          exact if_neg hne
        have hk2 : (List.map f st.entries).get? k = some e := by
          rw [List.get?_map, hk, Option.map_some', hfe]
        obtain ⟨gr, hgr, hres⟩ := ihm k e i2 gq hk2 hi2 hgrp
        exact ⟨gr, hgr, by simpa using hres⟩

/-! ## Claim theorems -/

/-- C1: the claim says every pair of temporally overlapping, structurally
unrelated entries ends on distinct rows, including across non-adjacent
stacked groups.  The code violates it: on `egThreeGroups`, `a3` (group `a`)
and `c1` (group `c`, not adjacent to `a`) both occupy `[1,3)`, carry no
relationship, and both end on final row 2 — group compaction only compares
each group with its immediate predecessor, so the accumulated offsets let
group `c` collide with group `a`. -/
theorem C1_nonAdjacentGroupsCollide :
    ((runLayout egThreeGroups 0 10).map (fun st =>
        ((getEl st.entries "a3").bind Entry.row, (getEl st.entries "c1").bind Entry.row))
      = .ok (some 2, some 2))
    ∧ getEl egThreeGroups "a3" = some { id := "a3", start := 1, end_ := 3, group := some "a" }
    ∧ getEl egThreeGroups "c1" = some { id := "c1", start := 1, end_ := 3, group := some "c" }
      := by decide

/-- C2: the claim says every `become` chain shares one final row even after
the cross-group repair pass.  On `egChainMove`, `P.become = b1`, the repair
pass moves `b1` from row 0 to row 2 (toward its split target `c1`), and `P`
is left behind on row 0: `_moveEntry` re-propagates only forward along
`become`, never to a chain predecessor. -/
theorem C2_repairBreaksBecomeChain :
    ((runLayout egChainMove 0 10).map (fun st =>
        ((getEl st.entries "P").bind Entry.row, (getEl st.entries "b1").bind Entry.row))
      = .ok (some 0, some 2))
    ∧ (getEl egChainMove "P").map Entry.become = some (some "b1") := by decide

/-- C3 counterexample: entry `A` of `egManualGrouped` has a manually set
`data-row` of 2 and belongs to group `g`; after `calculate` its row is 0
(`groupRow + offset` overwrites every grouped entry's row), refuting the
claim that a manually set row is always left unchanged. -/
theorem C3_counterexample_groupOverwrites :
    ((getEl egManualGrouped "A").map (fun e => (e.row, e.group)) = some (some 2, some "g"))
    ∧ ((runLayout egManualGrouped 0 10).map (fun st => (getEl st.entries "A").bind Entry.row)
        = .ok (some 0)) := by decide

/-- C4 counterexample: on `egChainMove`, group `b` has offset 0
(`groupRange` entry `("b", (0, 2))`) and `b1.groupRow = 0`, yet `b1`'s
final row is 2 ≠ 0 + 0: the cross-group repair pass moved it after the
stacking step, so "each grouped entry's final row equals its groupRow plus
its group's offset" fails. -/
theorem C4_counterexample_movedEntry :
    (runLayout egChainMove 0 10).map (fun st =>
        ((getEl st.entries "b1").map (fun e => (e.row, e.groupRow)),
          st.groupRange.find? (fun p => p.1 = "b")))
      = .ok (some (some 2, some 0), some ("b", 0, 2)) := by decide

/-- C5 counterexample: on the five-row `egProbeGrid`, row 0 is free for the
span `[2,4)`, and `findGridSpace` is called with `near = 0`; the claim says
the probe starts at `near` (including `near = 0`) and returns the first
free row, i.e. row 0 — but `near` is tested for JS truthiness, `0` is
falsy, so the probe starts at the middle row 2 and returns row 3. -/
theorem C5_counterexample_nearZeroIgnored :
    findGridSpace 10 2 4 egProbeGrid (some 0) = (3, egProbeGrid)
    ∧ checkGridSpace 0 2 4 egProbeGrid = .ok true := by decide

/-- C4 as amended: `maxOverlap` on nonempty grids is non-negative and at
most `min(height1, height2) - 1`; and the stacking step realises exactly
the spec's offset recurrence (`specGroupOffsets`: first offset `0`, each
next one `previousOffset + previousHeight − overlap`), recording
`(offset, offset + height)` per group in `groupRange` and assigning each
grouped entry `row = groupRow + offset`.  The claim's further assertion
that this is each grouped entry's *final* row fails only because the
cross-group repair pass may move the entry afterwards (see the
counterexample). -/
theorem C4_amended_stackingMatchesSpecOffsets :
    (∀ g1 g2 : DiagramGrid, 1 ≤ g1.length → 1 ≤ g2.length →
        0 ≤ getGridOverlap g1 g2
        ∧ getGridOverlap g1 g2 ≤ ((min g1.length g2.length : Nat) : Int) - 1)
    ∧ (∀ st st' grids, stackGroups st = .ok st' →
        st.groups.mapM (lookupGG st) = some grids →
        st.groups.Nodup →
        (st'.groupRange = st.groupRange ++
          specStackRanges st.groups (specGroupOffsets grids) (grids.map List.length))
        ∧ (∀ k e i g, st.entries.get? k = some e → st.groups.get? i = some g →
            e.group = some g →
            ∃ gr, e.groupRow = some gr ∧
              st'.entries.get? k = some { e with row := some (gr +
                (specGroupOffsets grids).getD i 0) })) := by
  refine ⟨getGridOverlap_bounds, fun st st' grids h hm hnd => ?_⟩
  obtain ⟨hr, _, hrows⟩ := stackGroupsAux_spec st.groups none 0 st st' grids h hm hnd
  exact ⟨hr, hrows⟩

/-- C5 as amended: `near = 0` is JS-falsy and treated exactly like an
omitted `near` (the probe starts from the middle row); a given nonzero
in-range `near` whose row is free is returned at once (the probe starts
there); and every call returns a row that exists on — and is free on — the
returned grid, which is either unchanged or grown by exactly one fresh
row (so a row is appended only when the probe sequence finds no free
row). -/
theorem C5_amended_findSpace :
    (∀ xLen s e grid, findGridSpace xLen s e grid (some 0) = findGridSpace xLen s e grid none)
    ∧ (∀ xLen s e grid (n : Int), n ≠ 0 → jsOkTrue (checkGridSpace n s e grid) = true →
        findGridSpace xLen s e grid (some n) = (n, grid))
    ∧ (∀ xLen s e grid near,
        0 ≤ (findGridSpace xLen s e grid near).1
        ∧ (findGridSpace xLen s e grid near).1 < (((findGridSpace xLen s e grid near).2).length : Int)
        ∧ ((findGridSpace xLen s e grid near).2 = grid
            ∨ (findGridSpace xLen s e grid near).2 = addGridRow xLen grid)
        ∧ jsOkTrue (checkGridSpace (findGridSpace xLen s e grid near).1 s e
            (findGridSpace xLen s e grid near).2) = true) := by
  refine ⟨fun xLen s e grid => rfl, fun xLen s e grid n hn hchk => ?_,
    fun xLen s e grid near => findGridSpace_spec xLen s e grid near⟩
  obtain ⟨hn0, hnlt⟩ := checkGridSpace_okTrue_bounds hchk
  have hpi : probeInit (some n) grid.length = n := by
    simp only [probeInit]
    rw [if_pos hn]
  have hstep : probeStep n false 0 = n := by
    unfold probeStep
    simp
  have hl : findGridSpaceLoop s e grid grid.length n false 0 = some n := by
    rcases hk : grid.length with _ | k
    · rw [hk] at hnlt
      omega
    · rw [findGridSpaceLoop, hstep, if_neg (by rw [hk] at hnlt ⊢; push_cast; omega),
        if_pos hchk]
  unfold findGridSpace
  rw [hpi]
  simp only [hl]

/-- C8: reserving or releasing a span on a row index missing from the grid
always produces the thrown `Error` (never a silent no-op), and with the
row present the call succeeds; the one call site that catches this error
(the final reservation of `_setEntryRow`) is handed a row `_findGridSpace`
guarantees to exist on the grid it returns, so the catch never swallows a
bounds violation; and from every other site the error escapes `calculate`
to the caller, shown concretely on `egStaleGroupRow`, where `_setLineRow`
releases a `become`-target's stale preset `groupRow` 7 on a one-row
scratch grid and the layout aborts with the error. -/
theorem C8_gridBoundsErrorPropagates :
    (∀ y s e g state, jsGetRow g y = none → markGridSpace y s e g state = .error .boundsErr)
    ∧ (∀ y s e g state, (jsGetRow g y).isSome → ∃ g', markGridSpace y s e g state = .ok g')
    ∧ (∀ xLen s e g near,
        0 ≤ (findGridSpace xLen s e g near).1
        ∧ (findGridSpace xLen s e g near).1 < (((findGridSpace xLen s e g near).2).length : Int))
    ∧ runLayout egStaleGroupRow 0 10 = .error .boundsErr := by
  refine ⟨fun y s e g state h => markGridSpace_missing_row h,
    fun y s e g state h => markGridSpace_ok_of_row h,
    fun xLen s e g near =>
      ⟨(findGridSpace_spec xLen s e g near).1, (findGridSpace_spec xLen s e g near).2.1⟩,
    by decide⟩

/-- C6 counterexample: running the layout on `egTwoGroups` yields rows
0, 1, 2; running a fresh layout again on the resulting entries yields rows
0, 1, 1 — the second run skips group resolution (`groupRow` is already
set), leaves every scratch grid at its initial single empty row, and so
computes different group offsets. -/
theorem C6_counterexample_rerunDiffers :
    ((runLayout egTwoGroups 0 10).map (fun st => st.entries.map fun e => (e.id, e.row))
        = .ok [("a1", some 0), ("a2", some 1), ("b1", some 2)])
    ∧ (((runLayout egTwoGroups 0 10).bind (fun st => runLayout st.entries 0 10)).map
          (fun st => st.entries.map fun e => (e.id, e.row))
        = .ok [("a1", some 0), ("a2", some 1), ("b1", some 1)]) := by decide

/-- C7 counterexample: on the mutual-merge pair `egMutualMerge` the seek
recursion of `_setEntryRow` revisits `A` (neither merge target's `split`
points back, so the guard never fires) and the layout diverges — under the
exact-fuel embedding, `runLayout` and the direct `_setEntryRow` call both
exhaust the fuel that suffices for every terminating chain. -/
theorem C7_counterexample_mutualMergeDiverges :
    runLayout egMutualMerge 0 10 = .error .fuelErr
    ∧ ((newDiagramPositioner egMutualMerge 0 10).bind
          (fun st => setEntryRow (st.entries.length + 1) st "A" false)
        = .error .fuelErr) := by decide

/-- C9: the claim says a `become` naming a non-existent entry is recovered
with a warning and no exception.  But `_prepareEntries` computes
`data-end` (line 943) before the validation loop (line 951), and
`_calcEnd` dereferences the missing `become` target: on `egDanglingBecome`
preparation throws a TypeError.  For the other attributes the recovery
does work: the dangling `merge` of `egDanglingMerge` is dropped while the
valid `split` is kept. -/
theorem C9_becomeDereferencedBeforeValidation :
    prepareEntries 1940 2000 egDanglingBecome = .error .typeErr
    ∧ ((prepareEntries 1940 2000 egDanglingMerge).map (fun es =>
          es.map (fun e => (e.id, e.merge, e.split)))
        = .ok [("A", none, none), ("B", none, some "A")]) := by decide

/-- C10 counterexample: `egNegativeRow` carries a manually preset row `-3`;
the run completes (`rows = 4`) and the final row of `X` is `-3`, which is
not a non-negative integer, refuting the unconditional claim. -/
theorem C10_counterexample_negativePresetRow :
    (runLayout egNegativeRow 0 10).map (fun st =>
        (st.rows, (getEl st.entries "X").bind Entry.row))
      = .ok (4, some (-3)) := by decide

/-- C10 (amended): when `calculate()` completes, every assigned row is
strictly below the `rows` getter, and — provided every manually preset
`data-row` and `data-groupRow` on the input entries is non-negative —
every assigned row is also non-negative (so it lies on the grid). -/
theorem C10_amended_rowsWithinBounds (entries : List Entry) (startY endY : Int)
    (st' : PosState) (h : runLayout entries startY endY = .ok st') :
    (∀ k e, st'.entries.get? k = some e → ∀ r, e.row = some r → r < (st'.rows : Int))
    ∧ ((∀ x ∈ entries, (∀ r, x.row = some r → 0 ≤ r) ∧ (∀ r, x.groupRow = some r → 0 ≤ r)) →
        ∀ k e, st'.entries.get? k = some e → ∀ r, e.row = some r → 0 ≤ r) := by
  unfold runLayout at h
  obtain ⟨st0, h0, hcalc⟩ := jsm_bind_ok_iff.mp h
  obtain ⟨hents, _, hggne⟩ := newDiagramPositioner_spec h0
  obtain ⟨hub, hcond⟩ := calculate_row_bounds hcalc
  constructor
  · exact fun k e hk r hr => hub k e hk r hr
  · intro hnn
    have hrn' : RowNonneg st' := hcond hggne
      (fun k e hk r hr => (hnn e (by rw [← hents]; exact List.get?_mem hk)).2 r hr)
      (fun k e hk r hr => (hnn e (by rw [← hents]; exact List.get?_mem hk)).1 r hr)
    exact fun k e hk r hr => hrn' k e hk r hr

/-- C3 (amended): a manually set row IS preserved for an entry that is
ungrouped and is not the `become`-target of any entry (with distinct entry
ids); grouped entries and become-targets are overwritten, as the
counterexample shows. -/
theorem C3_amended_ungroupedManualRowPreserved (entries : List Entry) (startY endY : Int)
    (pid : String) (r0 : Int) (p : Entry) (st' : PosState)
    (hids : (entries.map Entry.id).Nodup)
    (hp : getEl entries pid = some p) (hrow : p.row = some r0) (hgrp : p.group = none)
    (hnb : ∀ x ∈ entries, x.become ≠ some pid)
    (h : runLayout entries startY endY = .ok st') :
    ∃ p', getEl st'.entries pid = some p' ∧ p'.row = some r0 := by
  unfold runLayout at h
  obtain ⟨st0, h0, hcalc⟩ := jsm_bind_ok_iff.mp h
  obtain ⟨hents, _, _⟩ := newDiagramPositioner_spec h0
  have huniq : ∀ x ∈ entries, ∀ y ∈ entries, x.id = y.id → x = y :=
    fun x hx y hy hxy => List.inj_on_of_nodup_map hids hx hy hxy
  have hpid : p.id = pid := getEl_id hp
  have hpmem : p ∈ entries := getEl_mem hp
  have hpf0 : PFrame pid r0 st0 := by
    refine ⟨⟨p, ?_, hrow, hgrp⟩, ?_⟩
    · show getEl st0.entries pid = some p
      rw [hents]
      exact hp
    · show ∀ x ∈ st0.entries, x.become ≠ some pid
      rw [hents]
      exact hnb
  have hgids : ∀ i ∈ (st0.entries.filter (fun e => strTruthy e.group)).map (·.id),
      i ≠ pid ∧ (∀ q, getEl st0.entries i = some q → q.group.isSome = true) := by
    rw [hents]
    intro i hi
    rw [List.mem_map] at hi
    obtain ⟨x, hxf, hxi⟩ := hi
    rw [List.mem_filter] at hxf
    obtain ⟨hxmem, hxtruthy⟩ := hxf
    constructor
    · intro hcontra
      subst hcontra
      have hxp : x = p := huniq x hxmem p hpmem (hxi.trans hpid.symm)
      subst hxp
      rw [hgrp] at hxtruthy
      exact absurd hxtruthy (by simp [strTruthy])
    · intro q hq
      have hqx : q = x := huniq q (getEl_mem hq) x hxmem ((getEl_id hq).trans hxi.symm)
      subst hqx
      rcases hqg : q.group with _ | s
      · rw [hqg] at hxtruthy
        exact absurd hxtruthy (by simp [strTruthy])
      · rfl
  obtain ⟨⟨p', hp', hrow', _⟩, _⟩ := pframe_calculate hcalc hpf0 hgids
  exact ⟨p', hp', hrow'⟩

/-- Witness for C3's amended theorem: on `egManualGrouped` the ungrouped
entry `M` (manual row 5, no incoming `become`) keeps row 5 through the
layout. -/
theorem C3_amended_ungroupedManualRowPreserved_witness :
    ((egManualGrouped.map Entry.id).Nodup
      ∧ getEl egManualGrouped "M" = some { id := "M", start := 5, end_ := 7, row := some 5 }
      ∧ ({ id := "M", start := 5, end_ := 7, row := some 5 } : Entry).row = some 5
      ∧ ({ id := "M", start := 5, end_ := 7, row := some 5 } : Entry).group = none
      ∧ (∀ x ∈ egManualGrouped, x.become ≠ some "M")
      ∧ runLayout egManualGrouped 0 10 = .ok (okState (runLayout egManualGrouped 0 10)))
    ∧ ∃ p', getEl (okState (runLayout egManualGrouped 0 10)).entries "M" = some p'
        ∧ p'.row = some 5 :=
  ⟨⟨by decide, by decide, by decide, by decide, by decide, by decide⟩,
    C3_amended_ungroupedManualRowPreserved egManualGrouped 0 10 "M" 5
      { id := "M", start := 5, end_ := 7, row := some 5 } _ (by decide) (by decide)
      (by decide) (by decide) (by decide) (by decide)⟩

/-- C7 (amended): the `_setEntryRow` recursion (and the become-chain walks
it triggers) terminates whenever a rank decreases along every seek
reference (`split`, overridden by an unguarded `merge`) and every `become`
reference: with such a rank, the exact-fuel model never exhausts its fuel
of `entries.length + 1`, which is precisely JS termination.  The mutual
merge 2-cycle of the counterexample admits no such rank and diverges. -/
theorem C7_amended_terminationUnderRank (st : PosState) (rank : String → Nat)
    (eId : String) (group : Bool)
    (hb : ∀ x ∈ st.entries, becomeRankB rank st.entries x = true)
    (hs : ∀ x ∈ st.entries, seekRankB rank st.entries x = true)
    (hr : ∀ x ∈ st.entries, rank x.id ≤ st.entries.length) :
    setEntryRow (st.entries.length + 1) st eId group ≠ .error .fuelErr := by
  refine setEntryRow_no_fuel (st.entries.length + 1) st eId group hb hs hr
    (Nat.succ_pos _) ?_
  intro q hq
  have := hr q (getEl_mem hq)
  omega

/-- Witness for C7's amended theorem: on the guarded split/merge pair the
rank hypotheses hold by evaluation, so resolving `B` cannot run out of
fuel. -/
theorem C7_amended_terminationUnderRank_witness :
    ((∀ x ∈ egGuardedState.entries, becomeRankB egRank egGuardedState.entries x = true)
      ∧ (∀ x ∈ egGuardedState.entries, seekRankB egRank egGuardedState.entries x = true)
      ∧ (∀ x ∈ egGuardedState.entries, egRank x.id ≤ egGuardedState.entries.length))
    ∧ setEntryRow (egGuardedState.entries.length + 1) egGuardedState "B" false
        ≠ .error .fuelErr :=
  ⟨⟨by decide, by decide, by decide⟩,
    C7_amended_terminationUnderRank egGuardedState egRank "B" false
      (by decide) (by decide) (by decide)⟩

/-- Witness for C10's amended theorem: the concrete run on `egTwoGroups`
completes, its hypotheses hold by evaluation, and the bounds follow by the
theorem. -/
theorem C10_amended_rowsWithinBounds_witness :
    runLayout egTwoGroups 0 10 = .ok (okState (runLayout egTwoGroups 0 10))
    ∧ ((∀ k e, (okState (runLayout egTwoGroups 0 10)).entries.get? k = some e →
          ∀ r, e.row = some r → r < ((okState (runLayout egTwoGroups 0 10)).rows : Int))
      ∧ ((∀ x ∈ egTwoGroups,
            (∀ r, x.row = some r → 0 ≤ r) ∧ (∀ r, x.groupRow = some r → 0 ≤ r)) →
          ∀ k e, (okState (runLayout egTwoGroups 0 10)).entries.get? k = some e →
            ∀ r, e.row = some r → 0 ≤ r)) :=
  ⟨by decide, C10_amended_rowsWithinBounds egTwoGroups 0 10 _ (by decide)⟩


/-- A group-free entry list with non-negative presets: one free entry and
one manually rowed entry. -/
def egPlain : List Entry :=
  [{ id := "p1", start := 1, end_ := 3 },
   { id := "p2", start := 2, end_ := 5, row := some 1 }]

/-- C6 (amended): for a group-free entry list with non-negative preset
rows and group-rows, re-running a fresh layout on the first run's output
entries succeeds and returns the same entries — every row is set after the
first run, so `_setEntryRow` returns early everywhere in the second. -/
theorem C6_amended_rerunStableWithoutGroups (entries : List Entry) (startY endY : Int)
    (st1 : PosState)
    (hng : ∀ x ∈ entries, x.group = none)
    (hnn : ∀ x ∈ entries, (∀ r, x.row = some r → 0 ≤ r) ∧ (∀ r, x.groupRow = some r → 0 ≤ r))
    (h1 : runLayout entries startY endY = .ok st1) :
    ∃ st2, runLayout st1.entries startY endY = .ok st2 ∧ st2.entries = st1.entries := by
  unfold runLayout at h1
  obtain ⟨st0, hndp, hcalc⟩ := jsm_bind_ok_iff.mp h1
  obtain ⟨hE0, hG0, hGGNE⟩ := newDiagramPositioner_spec hndp
  obtain ⟨hx, hrcx⟩ := newDiagramPositioner_axis_ok hndp
  have hng0 : ∀ x ∈ st0.entries, x.group = none := by
    rw [hE0]
    exact hng
  have hG0nil : st0.groups = [] := hG0.trans (listGroups_nil hng)
  have hfilnil : st0.entries.filter (fun e => strTruthy e.group) = [] := filter_truthy_nil hng0
  have hfilself : st0.entries.filter (fun e => ¬ strTruthy e.group) = st0.entries :=
    filter_untruthy_self hng0
  unfold calculate at hcalc
  simp only [hfilnil, hfilself, List.map_nil, List.foldlM_nil, jsm_pure_bind] at hcalc
  have hsg : stackGroups ({ st0 with groupRange := [] } : PosState)
      = .ok ({ st0 with groupRange := [] } : PosState) := by
    unfold stackGroups
    rw [show ({ st0 with groupRange := [] } : PosState).groups = ([] : List String)
      from hG0nil]
    simp only [stackGroupsAux]
  rw [hsg, jsm_bind_ok] at hcalc
  rcases hag : addGridRowsUntil st0.xLength st0.grid (getRowCount st0.entries) with errv | g1
  · rw [hag, jsm_bind_error] at hcalc
    exact absurd hcalc (by simp)
  rw [hag, jsm_bind_ok] at hcalc
  obtain ⟨stF, hFold, hpure⟩ := jsm_bind_ok_iff.mp hcalc
  have hpure2 : (Except.ok stF : JsM PosState) = .ok st1 := hpure
  rw [Except.ok.injEq] at hpure2
  subst hpure2
  have key : ∀ (stX : PosState),
      (st0.entries.map fun e => e.id).foldlM
        (fun st2 id => setEntryRow (st2.entries.length + 1) st2 id false) stX = .ok stF →
      stX.entries = st0.entries →
      stF.entries.map refKey = st0.entries.map refKey ∧ NoGroups stF ∧ RowNonneg stF ∧
        (∀ i ∈ st0.entries.map (fun e => e.id),
          ∃ q, getEl stF.entries i = some q ∧ q.row.isSome = true) := by
    intro stX hF hXent
    have hpres : Pres stX stF :=
      pres_foldlM _ (fun a b c hd => pres_setEntryRow _ _ _ _ _ hd) _ _ _ hF
    refine ⟨?_, ?_, ?_, ?_⟩
    · rw [hpres.refk, hXent]
    · exact foldlM_inv _ NoGroups
        (fun a b c hp hd => nogroups_setEntryRow _ _ _ _ _ hp hd) _ _ _ hF
        (nogroups_entries_eq hXent hng0)
    · refine hpres.rowNonneg ?_
      intro k e hk r hr
      rw [hXent, hE0] at hk
      exact (hnn e (List.get?_mem hk)).1 r hr
    · refine foldSetsRows _ _ _ hF ?_
      intro i hi
      rw [List.mem_map] at hi
      obtain ⟨x, hxm, hxi⟩ := hi
      subst hxi
      rw [hXent]
      exact getEl_isSome_of_mem hxm
  obtain ⟨hrefk1, hng1, hrn1, hars1⟩ := key _ hFold rfl
  have hmemnn : ∀ x ∈ stF.entries, ∀ r, x.row = some r → 0 ≤ r := by
    intro x hxm r hr
    obtain ⟨k, hk⟩ := List.get?_of_mem hxm
    exact hrn1 k x hk r hr
  have hrc0 : 0 ≤ getRowCount stF.entries := getRowCount_nonneg hmemnn
  have hndp2 : newDiagramPositioner stF.entries startY endY
      = .ok (freshPositioner stF.entries startY endY) :=
    newDiagramPositioner_nogroups hng1 hx (by omega)
  have hars2 : ∀ x ∈ stF.entries, ∃ q, getEl stF.entries x.id = some q ∧ q.row.isSome = true := by
    intro x hxm
    refine hars1 x.id ?_
    have h2 : x.id ∈ stF.entries.map (fun e => e.id) := List.mem_map.mpr ⟨x, hxm, rfl⟩
    rw [map_id_of_refk hrefk1] at h2
    exact h2
  have hrc3 : ¬ (((freshPositioner stF.entries startY endY).grid.length : Int) - 1
      > getRowCount (freshPositioner stF.entries startY endY).entries) := by
    show ¬ (((List.replicate (getRowCount stF.entries).toNat
      (freshRow (endY - startY).toNat)).length : Int) - 1 > getRowCount stF.entries)
    rw [List.length_replicate, Int.toNat_of_nonneg hrc0]
    omega
  have hcalc2 : calculate (freshPositioner stF.entries startY endY)
      = .ok (grownState (freshPositioner stF.entries startY endY)) :=
    calculate_nogroups (fun x hxm => hng1 x hxm) rfl (fun x hxm => hars2 x hxm) hrc3
  refine ⟨grownState (freshPositioner stF.entries startY endY), ?_, rfl⟩
  unfold runLayout
  rw [hndp2, jsm_bind_ok]
  exact hcalc2

/-- C6 witness: the amended theorem applied to `egPlain` on the axis
0..10. -/
theorem C6_amended_rerunStableWithoutGroups_witness :
    (∀ x ∈ egPlain, x.group = none)
    ∧ (∀ x ∈ egPlain, (∀ r, x.row = some r → 0 ≤ r) ∧ (∀ r, x.groupRow = some r → 0 ≤ r))
    ∧ runLayout egPlain 0 10 = .ok (okState (runLayout egPlain 0 10))
    ∧ ∃ st2, runLayout (okState (runLayout egPlain 0 10)).entries 0 10 = .ok st2 ∧
        st2.entries = (okState (runLayout egPlain 0 10)).entries :=
  ⟨by decide, by decide, by decide,
    C6_amended_rerunStableWithoutGroups egPlain 0 10 (okState (runLayout egPlain 0 10))
      (by decide) (by decide) (by decide)⟩

end Timeline
